import Mathlib

/-!
# SQLiteStudio: the SELECT resolver and the data type descriptor

A shallow embedding of `coreSQLiteStudio/selectresolver.cpp` and of
`coreSQLiteStudio/datatype.cpp`, and the properties of them that the specification states.

Conventions of the embedding.

* A `QString` is an optional string: `none` is the null `QString()`, `some ""` the
  empty, non-null string.  `isNull` tells them apart, every comparison
  (`compare`, `==`, membership in a `QSet<QString>`) looks at the content only, as Qt does.
* `Qt::CaseInsensitive` comparison folds the ASCII letters (`Char.toLower`).
* The resolver object is the record `SelectResolver`; a member function that changes
  the object returns the changed record.
* A pointer to a result column of the syntax tree is the number `addr` of that node.
* Recursion through sub-selects, nested joins and views is bounded by a fuel
  argument; a result `none` means that the fuel ran out.
-/

namespace SQLiteStudio

/-! ## Strings -/

/-- A Qt string: `none` is the null string. -/
abbrev QString := Option String

/-- The characters of a `QString`; a null string has none. -/
def QString.str (s : QString) : String := s.getD ""

/-- Wrapper of `QString::isNull()`. -/
def QString.isNull (s : QString) : Bool := s.isNone

/-- Wrapper of `QString::isEmpty()`: true for the null and for the empty string. -/
def QString.isEmpty (s : QString) : Bool := decide (QString.str s = "")

/-- Case folding used by `Qt::CaseInsensitive`. -/
def toLower (s : String) : String := ⟨s.data.map Char.toLower⟩

/-- The test `a.compare(b, Qt::CaseInsensitive) == 0`. -/
def QString.compareCI (a b : QString) : Bool :=
  decide (toLower (QString.str a) = toLower (QString.str b))

/-- The text of `QString::number(i)`. -/
def number (i : Nat) : String := toString i

/-! ## Columns and tables -/

/-- Modelled from the spec: the enumeration `SelectResolver::Column::Type` is declared in
`selectresolver.h`, which is not among the sources; a column is a `COLUMN` or an `OTHER`. -/
inductive ColumnType where
  | COLUMN
  | OTHER
  deriving DecidableEq, Repr

/-- Modelled from the spec: the record `SelectResolver::Table` (`selectresolver.h`, not among
the sources), with the fields of the data model; the default values are those of `Table()`. -/
structure Table where
  database : QString := none
  originalDatabase : QString := none
  table : QString := none
  tableAlias : QString := none
  oldTableAliases : List QString := []
  flags : Nat := 0
  deriving DecidableEq, Repr

/-- Modelled from the spec: the record `SelectResolver::Column` (`selectresolver.h`, not among
the sources), which extends `Table`.  The default values are those of the value-initialised
`Column()`: null strings, no flag, and `type` the first enumerator, `COLUMN`. -/
structure Column extends Table where
  type : ColumnType := ColumnType.COLUMN
  column : QString := none
  alias_ : QString := none
  displayName : QString := none
  aliasDefinedInSubQuery : Bool := false
  originalColumn : Option Nat := none
  deriving DecidableEq, Repr

/-! ## Name fix-up -/

/-- The loop `for (i = 1; existing.contains(name); i++) name = original + ":" + QString::number(i);`
with the iteration count bounded by `fuel`.  The counter `i` stays at most one above the size
of the set, which holds one name per result column, so it never leaves the range of `int`. -/
def sequenceName (existing : List String) (original : QString) : Nat → Nat → QString → QString
  | 0, _, name => name
  | fuel + 1, i, name =>
    if QString.str name ∈ existing then
      sequenceName existing original fuel (i + 1) (some (QString.str original ++ ":" ++ number i))
    else name

/-- The renaming loop started at `i = 1` on the original name.  A set of `n` names stops the
loop after at most `n + 1` tests, which is the fuel given. -/
def uniqueName (existing : List String) (original : QString) : QString :=
  sequenceName existing original (existing.length + 1) 1 original

/-- The body of the loop of `SelectResolver::fixColumnNames` for one column, and the loop
itself over the rest: `existingDisplayNames` and `existingAliasNames` are the two sets. -/
def fixColumnNamesLoop : List String → List String → List Column → List Column
  | _, _, [] => []
  | existingDisplayNames, existingAliasNames, col :: rest =>
    let originalName := col.displayName
    let displayName := uniqueName existingDisplayNames originalName
    let originalAlias := if QString.isNull col.alias_ then col.column else col.alias_
    let newAlias := uniqueName existingAliasNames originalAlias
    let col1 := { col with displayName := displayName }
    let col2 := if QString.str newAlias ≠ QString.str originalAlias then { col1 with alias_ := newAlias } else col1
    col2 :: fixColumnNamesLoop (QString.str displayName :: existingDisplayNames)
      (QString.str newAlias :: existingAliasNames) rest

/-- The function `SelectResolver::fixColumnNames` on the list `currentCoreResults`. -/
def fixColumnNames (currentCoreResults : List Column) : List Column :=
  fixColumnNamesLoop [] [] currentCoreResults

/-- The alias under which a result is addressed: its alias, or its column name when the
alias is null (the value `fixColumnNames` starts from). -/
def workingAlias (c : Column) : QString :=
  if QString.isNull c.alias_ then c.column else c.alias_

/-- Value of a digit character. -/
def digitVal (c : Char) : Nat := c.toNat - 48

/-- Value of a decimal numeral. -/
def numeralVal (l : List Char) : Nat := l.foldl (fun a c => 10 * a + digitVal c) 0

/-! ## Flags -/

/-- Modelled from the spec: the enumeration `SelectResolver::Flag` is declared in
`selectresolver.h`, which is not among the sources.  The spec lists the five members of
the bitset; each is one bit. -/
def FROM_COMPOUND_SELECT : Nat := 0x01

/-- Modelled from the spec: see `FROM_COMPOUND_SELECT`. -/
def FROM_ANONYMOUS_SELECT : Nat := 0x02

/-- Modelled from the spec: see `FROM_COMPOUND_SELECT`. -/
def FROM_DISTINCT_SELECT : Nat := 0x04

/-- Modelled from the spec: see `FROM_COMPOUND_SELECT`. -/
def FROM_GROUPED_SELECT : Nat := 0x08

/-- Modelled from the spec: see `FROM_COMPOUND_SELECT`. -/
def FROM_CTE_SELECT : Nat := 0x10

/-- The test `flags & flag`. -/
def hasFlag (flags flag : Nat) : Bool := (flags &&& flag) != 0

/-- The update `flags &= ~flag` on a non-negative `int`. -/
def clearFlag (flags flag : Nat) : Nat := flags ^^^ (flags &&& flag)

/-! ## Tokens and the syntax tree -/

/-- Modelled from the spec: the token types (`parser/token.h`, not among the sources) the
resolver looks at; every other type is `OTHER`. -/
inductive TokenType where
  | PAR_LEFT
  | PAR_RIGHT
  | KEYWORD
  | OTHER
  deriving DecidableEq, Repr

/-- Modelled from the spec: a token of the lexer exposes its type and its value. -/
structure Token where
  type : TokenType
  value : String
  deriving DecidableEq, Repr

/-- A list of tokens, `TokenList`. -/
abbrev TokenList := List Token

/-- Modelled from the spec: `TokenList::detokenize` (parser/token.h) is not among the
sources; token lists detokenize to the source text, the values of the tokens in order. -/
def detokenize (tokens : TokenList) : String :=
  tokens.foldl (fun acc t => acc ++ t.value) ""

/-- The characters `QChar::isSpace` accepts. -/
def isSpace (c : Char) : Bool :=
  c.toNat == 0x20 || (0x09 ≤ c.toNat && c.toNat ≤ 0x0d) || c.toNat == 0x85 || c.toNat == 0xa0 ||
  c.toNat == 0x1680 || (0x2000 ≤ c.toNat && c.toNat ≤ 0x200a) || c.toNat == 0x2028 ||
  c.toNat == 0x2029 || c.toNat == 0x202f || c.toNat == 0x205f || c.toNat == 0x3000

/-- The text of `QString::trimmed()`. -/
def trimmed (s : String) : String :=
  ⟨((s.data.dropWhile isSpace).reverse.dropWhile isSpace).reverse⟩

/-- The list `QList::mid(pos, length)`: a negative length takes everything from `pos`. -/
def mid {α : Type} (l : List α) (pos : Nat) (length : Int) : List α :=
  if length < 0 then l.drop pos else (l.drop pos).take length.toNat

/-- Modelled from the spec: the modes of `SqliteExpr` (`parser/ast`, not among the sources)
the resolver tells apart, a plain identifier and the rest. -/
inductive ExprMode where
  | ID
  | OTHER
  deriving DecidableEq, Repr

/-- Modelled from the spec: the fields of the node `SqliteExpr` the resolver reads. -/
structure SqliteExpr where
  mode : ExprMode
  database : QString := none
  table : QString := none
  column : QString := none
  tokens : TokenList := []
  deriving DecidableEq, Repr

/-- Modelled from the spec: the fields of the node `SqliteSelect::Core::ResultColumn` the
resolver reads; `addr` is the identity of the node and `expr` is read for a column that is
not a star. -/
structure ResultColumn where
  addr : Nat
  star : Bool
  table : QString := none
  expr : SqliteExpr := { mode := ExprMode.OTHER }
  alias_ : QString := none
  tokens : TokenList := []
  deriving DecidableEq, Repr

/-- Modelled from the spec: the node `SqliteWith::CommonTableExpression`, its name and its
tokens. -/
structure CommonTableExpression where
  table : QString
  tokens : TokenList := []
  deriving DecidableEq, Repr

mutual
/-- Modelled from the spec: the node `SqliteSelect` (`parser/ast`, not among the sources),
its cores and the list of the `WITH` clause, if any. -/
inductive SqliteSelect where
  | mk (coreSelects : List Core) (with_ : Option (List CommonTableExpression))
/-- Modelled from the spec: the fields of the node `SqliteSelect::Core` the resolver reads. -/
inductive Core where
  | mk (from_ : Option JoinSource) (resultColumns : List ResultColumn) (distinctKw : Bool)
      (groupBy : List SqliteExpr)
/-- Modelled from the spec: the node `SqliteSelect::Core::JoinSource`. -/
inductive JoinSource where
  | mk (singleSource : Option SingleSource) (otherSources : List JoinSourceOther)
/-- Modelled from the spec: the node `SqliteSelect::Core::JoinSourceOther`. -/
inductive JoinSourceOther where
  | mk (singleSource : Option SingleSource)
/-- Modelled from the spec: the fields of the node `SqliteSelect::Core::SingleSource` the
resolver reads. -/
inductive SingleSource where
  | mk (select : Option SqliteSelect) (joinSource : Option JoinSource) (funcName : QString)
      (database : QString) (table : QString) (alias_ : QString) (tokens : TokenList)
end

/-- Field `coreSelects`. -/
def SqliteSelect.coreSelects : SqliteSelect → List Core
  | SqliteSelect.mk c _ => c

/-- Field `with`. -/
def SqliteSelect.with_ : SqliteSelect → Option (List CommonTableExpression)
  | SqliteSelect.mk _ w => w

/-- Field `from`. -/
def Core.from_ : Core → Option JoinSource
  | Core.mk f _ _ _ => f

/-- Field `resultColumns`. -/
def Core.resultColumns : Core → List ResultColumn
  | Core.mk _ r _ _ => r

/-- Field `distinctKw`. -/
def Core.distinctKw : Core → Bool
  | Core.mk _ _ d _ => d

/-- Field `groupBy`. -/
def Core.groupBy : Core → List SqliteExpr
  | Core.mk _ _ _ g => g

/-- Field `singleSource`. -/
def JoinSource.singleSource : JoinSource → Option SingleSource
  | JoinSource.mk s _ => s

/-- Field `otherSources`. -/
def JoinSource.otherSources : JoinSource → List JoinSourceOther
  | JoinSource.mk _ o => o

/-- Field `singleSource`. -/
def JoinSourceOther.singleSource : JoinSourceOther → Option SingleSource
  | JoinSourceOther.mk s => s

/-- Field `select`. -/
def SingleSource.select : SingleSource → Option SqliteSelect
  | SingleSource.mk s _ _ _ _ _ _ => s

/-- Field `joinSource`. -/
def SingleSource.joinSource : SingleSource → Option JoinSource
  | SingleSource.mk _ j _ _ _ _ _ => j

/-- Field `funcName`. -/
def SingleSource.funcName : SingleSource → QString
  | SingleSource.mk _ _ f _ _ _ _ => f

/-- Field `database`. -/
def SingleSource.database : SingleSource → QString
  | SingleSource.mk _ _ _ d _ _ _ => d

/-- Field `table`. -/
def SingleSource.table : SingleSource → QString
  | SingleSource.mk _ _ _ _ t _ _ => t

/-- Field `alias`. -/
def SingleSource.alias_ : SingleSource → QString
  | SingleSource.mk _ _ _ _ _ a _ => a

/-- Field `tokens`. -/
def SingleSource.tokens : SingleSource → TokenList
  | SingleSource.mk _ _ _ _ _ _ t => t

/-! ## The database and the schema catalog -/

/-- Modelled from the spec: what `SchemaResolver::getParsedObject(database, name, VIEW)`
returns, nothing, a query that is not a `CREATE VIEW`, or a `CREATE VIEW` with its select. -/
inductive ParsedObject where
  | null
  | notCreateView
  | createView (select : SqliteSelect)

/-- Modelled from the spec: one entry of `Db::columnsForQuery`. -/
structure AliasedColumn where
  database : QString := none
  table : QString := none
  alias_ : QString := none
  deriving DecidableEq, Repr

/-- Modelled from the spec: the result of `Db::exec`, the error text, if the query failed,
and the column names. -/
structure SqlQuery where
  errorText : Option String := none
  columnNames : List String := []
  deriving DecidableEq, Repr

/-- Modelled from the spec: the database handle and the schema resolver built on it, as the
functions the resolver calls; they are external to the resolver and fixed during a
resolution. -/
structure Db where
  getTableColumns : QString → QString → List String
  getViews : QString → List String
  getParsedObject : QString → QString → ParsedObject
  columnsForQuery : String → List AliasedColumn
  exec : String → SqlQuery

/-- Modelled from the spec: the class `BiStrHash` (common/bistrhash.h) is not among the
sources.  It is a bidirectional case-insensitive mapping, here the list of its
(left, right) pairs. -/
structure BiStrHash where
  pairs : List (String × String) := []
  deriving DecidableEq, Repr

/-- Modelled from the spec: `BiStrHash::containsRight(right, Qt::CaseInsensitive)`. -/
def BiStrHash.containsRight (h : BiStrHash) (right : QString) : Bool :=
  h.pairs.any (fun p => decide (toLower p.2 = toLower (QString.str right)))

/-- Modelled from the spec: `BiStrHash::valueByRight(right, Qt::CaseInsensitive)`, the left
value paired with `right`. -/
def BiStrHash.valueByRight (h : BiStrHash) (right : QString) : QString :=
  match h.pairs.find? (fun p => decide (toLower p.2 = toLower (QString.str right))) with
  | some p => some p.1
  | none => none

/-- Modelled from the spec: `isRowIdKeyword` (parser/keywords.h) is not among the sources;
the row-id keywords are `ROWID`, `OID` and `_ROWID_`, in any case. -/
def isRowIdKeyword (str : QString) : Bool :=
  decide (toLower (QString.str str) ∈ ["rowid", "_rowid_", "oid"])

/-! ## The resolver object -/

/-- The text of `QStringList::join(",")`. -/
def joinComma : List QString → String
  | [] => ""
  | [a] => QString.str a
  | a :: b :: rest => QString.str a ++ "," ++ joinComma (b :: rest)

/-- The comparison `operator==(const Table&, const Table&)`. -/
def Table.eq (t1 t2 : Table) : Bool :=
  QString.compareCI t1.table t2.table &&
  QString.compareCI t1.database t2.database &&
  QString.compareCI t1.tableAlias t2.tableAlias &&
  decide (t1.oldTableAliases.length = t2.oldTableAliases.length) &&
  decide (toLower (joinComma t1.oldTableAliases) = toLower (joinComma t2.oldTableAliases))

/-- The string `qHash(const Table&)` hashes. -/
def Table.hashKey (table : Table) : String :=
  toLower (QString.str table.database) ++ "." ++ toLower (QString.str table.table) ++ "/" ++
    toLower (QString.str table.tableAlias) ++ "/" ++ joinComma table.oldTableAliases

/-- Modelled from the spec: the members of the class `SelectResolver` (`selectresolver.h`,
not among the sources) the source uses; the two switches are off unless the caller sets
them.  The original query text is only written to the debug log and is left out. -/
structure SelectResolver where
  dbNameToAttach : BiStrHash := {}
  resolveMultiCore : Bool := false
  ignoreInvalidNames : Bool := false
  errors : List String := []
  cteList : List (String × CommonTableExpression) := []
  tableColumnsCache : List (Table × List String) := []
  currentCoreSourceColumns : List Column := []
  currentCoreResults : List Column := []
  deriving DecidableEq, Repr

/-! ## Resolution of result columns -/

/-- The function `SelectResolver::resolveDatabase`. -/
def resolveDatabase (this : SelectResolver) (database : QString) : QString :=
  if this.dbNameToAttach.containsRight database then this.dbNameToAttach.valueByRight database
  else database

/-- The function `SelectResolver::matchTable`. -/
def matchTable (sourceColumn : Column) (table : QString) : Bool :=
  if !QString.isNull sourceColumn.tableAlias then QString.compareCI sourceColumn.tableAlias table
  else QString.compareCI sourceColumn.table table

/-- The function `SelectResolver::markCurrentColumnsWithFlag` on a column list. -/
def markCurrentColumnsWithFlag (flag : Nat) (columnList : List Column) : List Column :=
  columnList.map (fun c => { c with flags := c.flags ||| flag })

/-- The function `SelectResolver::markDistinctColumns`. -/
def markDistinctColumns (this : SelectResolver) : SelectResolver :=
  { this with currentCoreResults := markCurrentColumnsWithFlag FROM_DISTINCT_SELECT this.currentCoreResults }

/-- The function `SelectResolver::markCompoundColumns`. -/
def markCompoundColumns (this : SelectResolver) : SelectResolver :=
  { this with currentCoreResults := markCurrentColumnsWithFlag FROM_COMPOUND_SELECT this.currentCoreResults }

/-- The function `SelectResolver::markGroupedColumns`. -/
def markGroupedColumns (this : SelectResolver) : SelectResolver :=
  { this with currentCoreResults := markCurrentColumnsWithFlag FROM_GROUPED_SELECT this.currentCoreResults }

/-- The test of `resolveStar` that skips a source column (the `continue`). -/
def starSkips (resCol : ResultColumn) (column : Column) : Bool :=
  !QString.isNull resCol.table &&
    ((!QString.isNull column.tableAlias && !QString.compareCI resCol.table column.tableAlias) ||
     (QString.isNull column.tableAlias && !QString.compareCI resCol.table column.table))

/-- One round of the loop of `resolveStar`: the state is `currentCoreResults` and the
variable `foundAtLeastOne`. -/
def resolveStarStep (resCol : ResultColumn) (acc : List Column × Bool) (column : Column) :
    List Column × Bool :=
  if starSkips resCol column then acc
  else
    let column1 :=
      if !QString.isNull column.alias_ then { column with displayName := column.alias_ }
      else { column with displayName := column.column }
    let column2 := { column1 with originalColumn := some resCol.addr }
    (acc.1 ++ [column2], true)

/-- The function `SelectResolver::resolveStar`. -/
def resolveStar (this : SelectResolver) (resCol : ResultColumn) : SelectResolver :=
  let r := this.currentCoreSourceColumns.foldl (resolveStarStep resCol) (this.currentCoreResults, false)
  let this1 := { this with currentCoreResults := r.1 }
  if !r.2 then
    { this1 with errors := this1.errors ++
        ["Could not resolve data source for column: " ++ detokenize resCol.tokens] }
  else this1

/-- The loop of `getResColTokensWithoutAlias`: the index of the first keyword `AS` met at
depth `≤ 0`, if any; `idxCandidate` is the index of the head of the list. -/
def findAsIdx : TokenList → Int → Nat → Option Nat
  | [], _, _ => none
  | token :: rest, depth, idxCandidate =>
    if token.type = TokenType.PAR_LEFT then findAsIdx rest (depth + 1) (idxCandidate + 1)
    else if token.type = TokenType.PAR_RIGHT then findAsIdx rest (depth - 1) (idxCandidate + 1)
    else if token.type = TokenType.KEYWORD ∧ toLower token.value = toLower "AS" ∧ depth ≤ 0 then
      some idxCandidate
    else findAsIdx rest depth (idxCandidate + 1)

/-- The function `SelectResolver::getResColTokensWithoutAlias`. -/
def getResColTokensWithoutAlias (resCol : ResultColumn) : TokenList :=
  if !QString.isNull resCol.alias_ then
    match findAsIdx resCol.tokens 0 0 with
    | some idx => mid resCol.tokens 0 ((idx : Int) - 1)
    | none => resCol.tokens
  else resCol.tokens

/-- The function `SelectResolver::resolveRowIdColumn` on the list `currentCoreSourceColumns`. -/
def resolveRowIdColumn : List Column → SqliteExpr → Column
  | [], _ => {}
  | column :: rest, expr =>
    if QString.isNull column.table then resolveRowIdColumn rest expr
    else if !QString.isNull expr.table && matchTable column expr.table then column
    else resolveRowIdColumn rest expr

/-- The function `SelectResolver::resolveExplicitColumn(columnName)` on the list
`currentCoreSourceColumns`. -/
def resolveExplicitColumn : List Column → QString → Column
  | [], _ => {}
  | column :: rest, columnName =>
    if !QString.compareCI columnName column.column && !QString.compareCI columnName column.alias_ then
      resolveExplicitColumn rest columnName
    else column

/-- The function `SelectResolver::resolveExplicitColumn(table, columnName)`. -/
def resolveExplicitColumnT : List Column → QString → QString → Column
  | [], _, _ => {}
  | column :: rest, table, columnName =>
    if !QString.compareCI columnName column.column && !QString.compareCI columnName column.alias_ then
      resolveExplicitColumnT rest table columnName
    else if !matchTable column table then resolveExplicitColumnT rest table columnName
    else column

/-- The function `SelectResolver::resolveExplicitColumn(database, table, columnName)`. -/
def resolveExplicitColumnDT : List Column → QString → QString → QString → Column
  | [], _, _, _ => {}
  | column :: rest, database, table, columnName =>
    if !QString.compareCI columnName column.column && !QString.compareCI columnName column.alias_ then
      resolveExplicitColumnDT rest database table columnName
    else if !matchTable column table then resolveExplicitColumnDT rest database table columnName
    else if !QString.compareCI database column.database then
      resolveExplicitColumnDT rest database table columnName
    else column

/-- The source column `resolveDbAndTable` looks up for an identifier (its variable `matched`). -/
def matchedSource (this : SelectResolver) (expr : SqliteExpr) : Column :=
  if isRowIdKeyword expr.column then resolveRowIdColumn this.currentCoreSourceColumns expr
  else if !QString.isNull expr.database then
    resolveExplicitColumnDT this.currentCoreSourceColumns expr.database expr.table expr.column
  else if !QString.isNull expr.table then
    resolveExplicitColumnT this.currentCoreSourceColumns expr.table expr.column
  else resolveExplicitColumn this.currentCoreSourceColumns expr.column

/-- The function `SelectResolver::resolveDbAndTable`. -/
def resolveDbAndTable (this : SelectResolver) (resCol : ResultColumn) : SelectResolver :=
  let expr := resCol.expr
  let col : Column :=
    { alias_ := resCol.alias_, column := expr.column, originalColumn := some resCol.addr,
      type := ColumnType.COLUMN,
      displayName := if QString.isNull resCol.alias_ then expr.column else resCol.alias_ }
  let matched := matchedSource this expr
  if !QString.isNull matched.table then
    let col1 := { col with
      database := matched.database, originalDatabase := resolveDatabase this matched.database,
      table := matched.table, tableAlias := matched.tableAlias, flags := matched.flags }
    { this with currentCoreResults := this.currentCoreResults ++ [col1] }
  else if matched.type = ColumnType.OTHER then
    { this with currentCoreResults := this.currentCoreResults ++ [{ col with type := ColumnType.OTHER }] }
  else if !this.ignoreInvalidNames then
    { this with
      errors := this.errors ++
        ["Could not resolve table for column '" ++ detokenize expr.tokens ++ "'."],
      currentCoreResults := this.currentCoreResults ++ [col] }
  else { this with currentCoreResults := this.currentCoreResults ++ [col] }

/-- The function `SelectResolver::resolveExpr`. -/
def resolveExpr (this : SelectResolver) (resCol : ResultColumn) : SelectResolver :=
  let expr := resCol.expr
  if expr.mode ≠ ExprMode.ID then
    let text : QString := some (trimmed (detokenize (getResColTokensWithoutAlias resCol)))
    let column : Column :=
      { alias_ := resCol.alias_, originalColumn := some resCol.addr, column := text,
        displayName := if !QString.isNull resCol.alias_ then resCol.alias_ else text,
        type := ColumnType.OTHER }
    { this with currentCoreResults := this.currentCoreResults ++ [column] }
  else resolveDbAndTable this resCol

/-- The function `SelectResolver::resolve(SqliteSelect::Core::ResultColumn*)`. -/
def resolveResultColumn (this : SelectResolver) (resCol : ResultColumn) : SelectResolver :=
  if resCol.star then resolveStar this resCol else resolveExpr this resCol

/-! ## Resolution of the sources -/

/-- The function `SelectResolver::extractCte(SqliteSelect*)`: the hash from the name of a
common table expression to its node, rebuilt from the `WITH` clause. -/
def extractCte (this : SelectResolver) (select : SqliteSelect) : SelectResolver :=
  match select.with_ with
  | none => { this with cteList := [] }
  | some ctes =>
    let hash : List (String × CommonTableExpression) :=
      List.foldl (fun acc cte => acc.filter (fun e => decide (e.1 ≠ QString.str cte.table)) ++
          [(QString.str cte.table, cte)]) [] ctes
    { this with cteList := hash }

/-- The function `SelectResolver::extractCte(SqliteSelect::Core*)`; `parent` is the parent
statement of the core. -/
def extractCteOfCore (this : SelectResolver) (parent : Option SqliteSelect) : SelectResolver :=
  match parent with
  | none => this
  | some select => extractCte this select

/-- The function `SelectResolver::isView`. -/
def isView (db : Db) (database name : QString) : Bool :=
  (db.getViews database).any (fun v => decide (toLower v = toLower (QString.str name)))

/-- The function `SelectResolver::getTableColumns`, with its cache. -/
def getTableColumns (db : Db) (this : SelectResolver) (database table alias_ : QString) :
    List String × SelectResolver :=
  let dbTable : Table := { database := database, table := table, tableAlias := alias_ }
  match this.tableColumnsCache.find?
      (fun e => decide (Table.hashKey e.1 = Table.hashKey dbTable) && Table.eq e.1 dbTable) with
  | some e => (e.2, this)
  | none =>
    let columns := db.getTableColumns database table
    (columns, { this with tableColumnsCache := this.tableColumnsCache ++ [(dbTable, columns)] })

/-- The function `SelectResolver::resolveCteColumns`; the source is known to name a common
table expression of `cteList`. -/
def resolveCteColumns (db : Db) (this : SelectResolver) (joinSrc : SingleSource) : List Column :=
  match this.cteList.find? (fun e => decide (e.1 = QString.str joinSrc.table)) with
  | none => []
  | some e =>
    let cte := e.2
    let column : Column :=
      { type := ColumnType.COLUMN, flags := 0 ||| FROM_CTE_SELECT, tableAlias := cte.table }
    let query := "WITH " ++ detokenize cte.tokens ++ " SELECT * FROM " ++ QString.str cte.table
    (db.columnsForQuery query).map (fun queryColumn =>
      { column with
        database :=
          if !QString.isNull queryColumn.database then resolveDatabase this queryColumn.database
          else queryColumn.database,
        table := queryColumn.table,
        column := queryColumn.alias_,
        displayName := queryColumn.alias_ })

/-- The function `SelectResolver::resolveTableFunctionColumns`. -/
def resolveTableFunctionColumns (db : Db) (this : SelectResolver) (joinSrc : SingleSource) :
    List Column × SelectResolver :=
  let result := db.exec ("SELECT * FROM " ++ detokenize joinSrc.tokens ++ " LIMIT 0")
  let this1 :=
    match result.errorText with
    | some e => { this with errors := this.errors ++ [e] }
    | none => this
  let column : Column :=
    { type := ColumnType.OTHER, database := joinSrc.database,
      originalDatabase := resolveDatabase this joinSrc.database,
      tableAlias := if !QString.isNull joinSrc.alias_ then joinSrc.alias_ else none }
  (result.columnNames.map (fun columnName => { column with column := some columnName }), this1)

/-- The column the plain-table branch of `resolveSingleSource` emits for a column name. -/
def plainColumn (this : SelectResolver) (joinSrc : SingleSource) (columnName : String) : Column :=
  { type := ColumnType.COLUMN, table := joinSrc.table, database := joinSrc.database,
    originalDatabase := resolveDatabase this joinSrc.database,
    tableAlias := if !QString.isNull joinSrc.alias_ then joinSrc.alias_ else none,
    column := some columnName }

/-- The plain-table branch that ends `SelectResolver::resolveSingleSource`. -/
def resolvePlainTable (db : Db) (this : SelectResolver) (joinSrc : SingleSource) :
    List Column × SelectResolver :=
  let r := getTableColumns db this joinSrc.database joinSrc.table joinSrc.alias_
  (r.1.map (plainColumn this joinSrc), r.2)

/-- The function `Table::pushTableAlias` on a column. -/
def pushTableAlias (c : Column) : Column :=
  if !QString.isNull c.tableAlias then { c with oldTableAliases := c.oldTableAliases ++ [c.tableAlias] }
  else c

/-- The function `SelectResolver::applySubSelectAlias`. -/
def applySubSelectAlias (columns : List Column) (alias_ : QString) : List Column :=
  if !QString.isNull alias_ then
    columns.map (fun c =>
      let c1 := pushTableAlias c
      { c1 with tableAlias := alias_, flags := clearFlag c1.flags FROM_ANONYMOUS_SELECT })
  else
    columns.map (fun c => { c with flags := c.flags ||| FROM_ANONYMOUS_SELECT })

/-- The rest of `SelectResolver::resolveCore` once the source columns are in place: the
result columns, the flags, the name fix-up. -/
def resolveCoreResults (this : SelectResolver) (parent : Option SqliteSelect) (selectCore : Core) :
    SelectResolver :=
  let this1 := selectCore.resultColumns.foldl resolveResultColumn this
  let this2 := if selectCore.distinctKw then markDistinctColumns this1 else this1
  let this3 := if selectCore.groupBy.length > 0 then markGroupedColumns this2 else this2
  let this4 := { this3 with currentCoreResults := fixColumnNames this3.currentCoreResults }
  match parent with
  | some select => if select.coreSelects.length > 1 then markCompoundColumns this4 else this4
  | none => this4

mutual
/-- The function `SelectResolver::resolveCore`; `parent` is the parent statement of the
core, the select it is a core of. -/
def resolveCore : Nat → Db → SelectResolver → Option SqliteSelect → Core →
    Option (List Column × SelectResolver)
  | 0, _, _, _, _ => none
  | fuel + 1, db, this, parent, selectCore =>
    match selectCore.from_ with
    | some joinSrc =>
      match resolveJoinSource fuel db this joinSrc with
      | none => none
      | some (columns, this1) =>
        let this2 := resolveCoreResults { this1 with currentCoreSourceColumns := columns } parent selectCore
        some (this2.currentCoreResults, this2)
    | none =>
      let this2 := resolveCoreResults this parent selectCore
      some (this2.currentCoreResults, this2)
/-- The function `SelectResolver::resolveJoinSource`. -/
def resolveJoinSource : Nat → Db → SelectResolver → JoinSource →
    Option (List Column × SelectResolver)
  | 0, _, _, _ => none
  | fuel + 1, db, this, joinSrc =>
    match resolveSingleSource fuel db this joinSrc.singleSource with
    | none => none
    | some first =>
      joinSrc.otherSources.foldlM
        (fun (acc : List Column × SelectResolver) otherSrc =>
          match resolveSingleSource fuel db acc.2 otherSrc.singleSource with
          | none => none
          | some (columns, this1) => some (acc.1 ++ columns, this1))
        first
/-- The function `SelectResolver::resolveSingleSource` (and `resolveOtherSource`, which
only calls it). -/
def resolveSingleSource : Nat → Db → SelectResolver → Option SingleSource →
    Option (List Column × SelectResolver)
  | 0, _, _, _ => none
  | _ + 1, _, this, none => some ([], this)
  | fuel + 1, db, this, some joinSrc =>
    match joinSrc.select with
    | some _ =>
      match resolveSingleSourceSubSelect fuel db this joinSrc with
      | none => none
      | some columnSources => some (columnSources, this)
    | none =>
      match joinSrc.joinSource with
      | some nested => resolveJoinSource fuel db this nested
      | none =>
        if !QString.isNull joinSrc.funcName then some (resolveTableFunctionColumns db this joinSrc)
        else if isView db joinSrc.database joinSrc.table then
          match resolveView fuel db this joinSrc.database joinSrc.table joinSrc.alias_ with
          | none => none
          | some results => some (results, this)
        else if QString.isNull joinSrc.database &&
            this.cteList.any (fun e => decide (e.1 = QString.str joinSrc.table)) then
          some (resolveCteColumns db this joinSrc, this)
        else some (resolvePlainTable db this joinSrc)
/-- The function `SelectResolver::resolveSingleSourceSubSelect`, called for a source that
has a select. -/
def resolveSingleSourceSubSelect : Nat → Db → SelectResolver → SingleSource → Option (List Column)
  | 0, _, _, _ => none
  | fuel + 1, db, this, joinSrc =>
    match joinSrc.select with
    | none => some []
    | some select =>
      match resolveSubSelect fuel db this select with
      | none => none
      | some columnSources =>
        some ((applySubSelectAlias columnSources joinSrc.alias_).map
          (fun c => if QString.isEmpty c.alias_ then c else { c with aliasDefinedInSubQuery := true }))
/-- The function `SelectResolver::resolveSubSelect`: the internal resolver is a new object,
of which only the returned columns are kept.  The source asserts that the select has a core. -/
def resolveSubSelect : Nat → Db → SelectResolver → SqliteSelect → Option (List Column)
  | 0, _, _, _ => none
  | fuel + 1, db, this, select =>
    let compound := decide (select.coreSelects.length > 1)
    if compound && !this.resolveMultiCore then some []
    else
      match select.coreSelects with
      | [] => some []
      | core0 :: _ =>
        let internalResolver : SelectResolver := {}
        -- internalResolver.resolve(select->coreSelects[0])
        match resolveCore fuel db (extractCteOfCore { internalResolver with errors := [] } (some select))
            (some select) core0 with
        | none => none
        | some (columnSources, _) =>
          if compound then some (markCurrentColumnsWithFlag FROM_COMPOUND_SELECT columnSources)
          else some columnSources
/-- The function `SelectResolver::resolveView`. -/
def resolveView : Nat → Db → SelectResolver → QString → QString → QString → Option (List Column)
  | 0, _, _, _, _, _ => none
  | fuel + 1, db, this, database, name, alias_ =>
    match db.getParsedObject database name with
    | ParsedObject.null => some []
    | ParsedObject.notCreateView => some []
    | ParsedObject.createView select =>
      match resolveSubSelect fuel db this select with
      | none => none
      | some results =>
        some (applySubSelectAlias results (if !QString.isNull alias_ then alias_ else name))
end

/-- The function `SelectResolver::resolveAvailableCoreColumns`. -/
def resolveAvailableCoreColumns (fuel : Nat) (db : Db) (this : SelectResolver) (selectCore : Core) :
    Option (List Column × SelectResolver) :=
  match selectCore.from_ with
  | some joinSrc => resolveJoinSource fuel db this joinSrc
  | none => some ([], this)

/-- The function `SelectResolver::resolve(SqliteSelect::Core*)`; `parent` is the parent
statement of the core. -/
def resolveOfCore (fuel : Nat) (db : Db) (this : SelectResolver) (parent : Option SqliteSelect)
    (selectCore : Core) : Option (List Column × SelectResolver) :=
  resolveCore fuel db (extractCteOfCore { this with errors := [] } parent) parent selectCore

/-- The loop of `SelectResolver::resolve(SqliteSelect*)` over the cores of `select`, each of
which has `select` as its parent statement. -/
def resolveCores (fuel : Nat) (db : Db) (select : SqliteSelect) :
    SelectResolver → List Core → Option (List (List Column) × SelectResolver)
  | this, [] => some ([], this)
  | this, core :: rest =>
    match resolveCore fuel db this (some select) core with
    | none => none
    | some (columns, this1) =>
      match resolveCores fuel db select { this1 with currentCoreResults := [] } rest with
      | none => none
      | some (results, this2) => some (columns :: results, this2)

/-- The function `SelectResolver::resolve(SqliteSelect*)`. -/
def resolve (fuel : Nat) (db : Db) (this : SelectResolver) (select : SqliteSelect) :
    Option (List (List Column) × SelectResolver) :=
  resolveCores fuel db select (extractCte { this with errors := [] } select) select.coreSelects

/-! ## Notions of the specification and example data -/

/-- The resolver a constructor returns, with the two public switches set: every list of
its working state is empty. -/
def SelectResolver.new (dbNameToAttach : BiStrHash) (resolveMultiCore ignoreInvalidNames : Bool) :
    SelectResolver :=
  { dbNameToAttach := dbNameToAttach, resolveMultiCore := resolveMultiCore,
    ignoreInvalidNames := ignoreInvalidNames }

/-- The function `SelectResolver::resolveAvailableColumns(SqliteSelect::Core*)`; `parent` is
the parent statement of the core. -/
def resolveAvailableColumnsOfCore (fuel : Nat) (db : Db) (this : SelectResolver)
    (parent : Option SqliteSelect) (selectCore : Core) : Option (List Column × SelectResolver) :=
  resolveAvailableCoreColumns fuel db (extractCteOfCore { this with errors := [] } parent) selectCore

/-- The names the renaming loop tries, in order: the original name, then `original:1`,
`original:2`, and so on. -/
def candidate (original : QString) : Nat → QString
  | 0 => original
  | k + 1 => some (QString.str original ++ ":" ++ number (k + 1))

/-- The table prefix match rule of the specification: a source with an alias matches a
prefix when the alias equals it, a source without alias when its table equals it, both
without regard to case.  A source has an alias when its `tableAlias` is not null. -/
def prefixRule (source : Column) (pfx : QString) : Bool :=
  (!QString.isNull source.tableAlias && QString.compareCI source.tableAlias pfx) ||
  (QString.isNull source.tableAlias && QString.compareCI source.table pfx)

/-- A source column matches a star: the star has no table prefix, or the source satisfies
the table prefix rule for it. -/
def starMatches (resCol : ResultColumn) (source : Column) : Bool :=
  QString.isNull resCol.table || prefixRule source resCol.table

/-- The display name the specification gives a column a star selects: its alias if it
has one, else its column name; nothing else changes. -/
def withDisplayName (c : Column) : Column :=
  { c with displayName := if !QString.isNull c.alias_ then c.alias_ else c.column }

/-- The number of result columns a declared result column stands for, given the available
source columns: the matching sources for a star, one otherwise. -/
def expandedCount (sources : List Column) (resCol : ResultColumn) : Nat :=
  if resCol.star then (sources.filter (starMatches resCol)).length else 1

/-- A token that is neither a parenthesis nor a keyword. -/
def tok (value : String) : Token := { type := TokenType.OTHER, value := value }

/-- The result column `table.name` or `name`, an identifier without alias. -/
def idColumn (addr : Nat) (table : QString) (name : String) : ResultColumn :=
  { addr := addr, star := false,
    expr := { mode := ExprMode.ID, table := table, column := some name,
              tokens := match table with
                | some t => [tok t, tok ".", tok name]
                | none => [tok name] },
    tokens := match table with
      | some t => [tok t, tok ".", tok name]
      | none => [tok name] }

/-- The result column `table.*`. -/
def starColumn (addr : Nat) (table : String) : ResultColumn :=
  { addr := addr, star := true, table := some table, tokens := [tok table, tok ".", tok "*"] }

/-- The source `table` or `table AS alias` of a `FROM` clause. -/
def plainSource (table : String) (alias_ : QString) : SingleSource :=
  SingleSource.mk none none none none (some table) alias_ []

/-- A `FROM` clause of plain sources. -/
def fromSources (first : SingleSource) (others : List SingleSource) : JoinSource :=
  JoinSource.mk (some first) (others.map (fun s => JoinSourceOther.mk (some s)))

/-- A database with the tables `t(a, b, c)`, `u(a)`, `real(x)` and `other(y)`, no view, and
a probe that reports the one column `x`, without table, for the query of the common table
expression `c AS (SELECT 1 AS x)`, and the column `a` of table `t` for the query of
`d AS (SELECT a FROM t)`. -/
def exampleDb : Db :=
  { getTableColumns := fun _ table =>
      if QString.str table = "t" then ["a", "b", "c"]
      else if QString.str table = "u" then ["a"]
      else if QString.str table = "real" then ["x"]
      else if QString.str table = "other" then ["y"]
      else [],
    getViews := fun _ => [],
    getParsedObject := fun _ _ => ParsedObject.null,
    columnsForQuery := fun query =>
      if query = "WITH c AS (SELECT 1 AS x) SELECT * FROM c" then [{ alias_ := some "x" }]
      else if query = "WITH d AS (SELECT a FROM t) SELECT * FROM d" then
        [{ table := some "t", alias_ := some "a" }]
      else [],
    exec := fun _ => {} }

/-- The core of `SELECT a, a FROM t`. -/
def coreAA : Core :=
  Core.mk (some (fromSources (plainSource "t" none) [])) [idColumn 1 none "a", idColumn 2 none "a"]
    false []

/-- The statement `SELECT a, a FROM t`. -/
def selectAA : SqliteSelect := SqliteSelect.mk [coreAA] none

/-- The core of `SELECT a FROM t`. -/
def coreA (table : String) : Core :=
  Core.mk (some (fromSources (plainSource table none) [])) [idColumn 1 none "a"] false []

/-- The statement `SELECT a FROM t UNION SELECT a FROM u`. -/
def selectUnion : SqliteSelect := SqliteSelect.mk [coreA "t", coreA "u"] none

/-- The column `resolveStar` appends for a source column it selects. -/
def starResult (resCol : ResultColumn) (c : Column) : Column :=
  { withDisplayName c with originalColumn := some resCol.addr }

/-- Two states of a resolver that differ at most in the error list and the column cache. -/
def sameCoreState (a b : SelectResolver) : Prop :=
  b.dbNameToAttach = a.dbNameToAttach ∧ b.resolveMultiCore = a.resolveMultiCore ∧
  b.ignoreInvalidNames = a.ignoreInvalidNames ∧ b.cteList = a.cteList ∧
  b.currentCoreSourceColumns = a.currentCoreSourceColumns ∧
  b.currentCoreResults = a.currentCoreResults

/-- What `resolve(core)` returns on a new resolver for `SELECT a, a FROM t`. -/
def resultAA : List Column × SelectResolver :=
  (resolveOfCore 3 exampleDb (SelectResolver.new {} false false) (some selectAA) coreAA).getD ([], {})

/-- What `resolve(select)` returns on a new resolver for `SELECT a FROM t UNION SELECT a FROM u`. -/
def resultUnion : List (List Column) × SelectResolver :=
  (resolve 3 exampleDb (SelectResolver.new {} false false) selectUnion).getD ([], {})

/-- The test on the column name shared by the three `resolveExplicitColumn` loops: the
name equals the column name or the alias of the source, without regard to case. -/
def nameMatches (columnName : QString) (column : Column) : Bool :=
  QString.compareCI columnName column.column || QString.compareCI columnName column.alias_

/-- A source column is one the lookup of `resolveDbAndTable` returns for the identifier
`expr`: the test of the loop that serves the form of the identifier. -/
def identifierMatches (expr : SqliteExpr) (column : Column) : Bool :=
  if isRowIdKeyword expr.column then
    !QString.isNull column.table && (!QString.isNull expr.table && matchTable column expr.table)
  else if !QString.isNull expr.database then
    nameMatches expr.column column && matchTable column expr.table &&
      QString.compareCI expr.database column.database
  else if !QString.isNull expr.table then nameMatches expr.column column && matchTable column expr.table
  else nameMatches expr.column column

/-- The statement `SELECT a FROM t`. -/
def selectA : SqliteSelect := SqliteSelect.mk [coreA "t"] none

/-- The core of `SELECT t.* FROM real t, other AS t`. -/
def coreShadow : Core :=
  Core.mk (some (fromSources (plainSource "real" (some "t")) [plainSource "other" (some "t")]))
    [starColumn 1 "t"] false []

/-- The core of `SELECT t.* FROM t, other AS t`. -/
def coreShadowTable : Core :=
  Core.mk (some (fromSources (plainSource "t" none) [plainSource "other" (some "t")]))
    [starColumn 1 "t"] false []

/-- The common table expression `c AS (SELECT 1 AS x)`. -/
def cteC : CommonTableExpression :=
  { table := some "c",
    tokens := [tok "c", tok " ", ⟨TokenType.KEYWORD, "AS"⟩, tok " ", ⟨TokenType.PAR_LEFT, "("⟩,
      ⟨TokenType.KEYWORD, "SELECT"⟩, tok " ", tok "1", tok " ", ⟨TokenType.KEYWORD, "AS"⟩, tok " ",
      tok "x", ⟨TokenType.PAR_RIGHT, ")"⟩] }

/-- The core of `SELECT x FROM c`. -/
def coreCte : Core :=
  Core.mk (some (fromSources (plainSource "c" none) [])) [idColumn 1 none "x"] false []

/-- The statement `WITH c AS (SELECT 1 AS x) SELECT x FROM c`. -/
def selectCte : SqliteSelect := SqliteSelect.mk [coreCte] (some [cteC])

/-- The common table expression `d AS (SELECT a FROM t)`. -/
def cteD : CommonTableExpression :=
  { table := some "d",
    tokens := [tok "d", tok " ", ⟨TokenType.KEYWORD, "AS"⟩, tok " ", ⟨TokenType.PAR_LEFT, "("⟩,
      ⟨TokenType.KEYWORD, "SELECT"⟩, tok " ", tok "a", tok " ", ⟨TokenType.KEYWORD, "FROM"⟩, tok " ",
      tok "t", ⟨TokenType.PAR_RIGHT, ")"⟩] }

/-- The core of `SELECT a FROM d`. -/
def coreCteD : Core :=
  Core.mk (some (fromSources (plainSource "d" none) [])) [idColumn 1 none "a"] false []

/-- The statement `WITH d AS (SELECT a FROM t) SELECT a FROM d`. -/
def selectCteD : SqliteSelect := SqliteSelect.mk [coreCteD] (some [cteD])

/-- The core of `SELECT zz FROM t`, whose result column names no column of `t`. -/
def coreZ : Core :=
  Core.mk (some (fromSources (plainSource "t" none) [])) [idColumn 1 none "zz"] false []

/-- The core of `SELECT column FROM table AS alias`, with `column` a result column. -/
def coreAliased (table alias_ : String) (column : ResultColumn) : Core :=
  Core.mk (some (fromSources (plainSource table (some alias_)) [])) [column] false []

/-- The column `resolveDbAndTable` starts from (its variable `col`), before the lookup. -/
def basicColumn (resCol : ResultColumn) : Column :=
  { alias_ := resCol.alias_, column := resCol.expr.column, originalColumn := some resCol.addr,
    type := ColumnType.COLUMN,
    displayName := if QString.isNull resCol.alias_ then resCol.expr.column else resCol.alias_ }

/-- The state of a new resolver once `resolveCore` has resolved the sources of
`FROM table AS alias`, a plain table. -/
def aliasedState (db : Db) (m : BiStrHash) (b1 b2 : Bool) (table alias_ : String) : SelectResolver :=
  { SelectResolver.new m b1 b2 with
    tableColumnsCache := [({ database := none, table := some table, tableAlias := some alias_ },
      db.getTableColumns none (some table))],
    currentCoreSourceColumns :=
      (db.getTableColumns none (some table)).map
        (plainColumn (SelectResolver.new m b1 b2) (plainSource table (some alias_))) }

/-- A resolver whose available source columns are those of `FROM t`. -/
def stateT : SelectResolver :=
  { currentCoreSourceColumns := (resolvePlainTable exampleDb {} (plainSource "t" none)).1 }

/-- A resolver whose available source columns are those of `FROM t, other AS t`. -/
def stateShadow : SelectResolver :=
  { currentCoreSourceColumns :=
      (resolvePlainTable exampleDb {} (plainSource "t" none)).1 ++
      (resolvePlainTable exampleDb {} (plainSource "other" (some "t"))).1 }

/-- A resolver whose available source columns are those of `FROM d`, with `d` the common
table expression `d AS (SELECT a FROM t)`. -/
def stateCteD : SelectResolver :=
  { extractCte {} selectCteD with
    currentCoreSourceColumns := resolveCteColumns exampleDb (extractCte {} selectCteD) (plainSource "d" none) }

/-- More fuel does not change a result: the statement for the mutually recursive
functions at one fuel and a larger one. -/
def FuelMono (db : Db) (f g : Nat) : Prop :=
  (∀ this parent core r, resolveCore f db this parent core = some r →
    resolveCore g db this parent core = some r) ∧
  (∀ this js r, resolveJoinSource f db this js = some r → resolveJoinSource g db this js = some r) ∧
  (∀ this s r, resolveSingleSource f db this s = some r →
    resolveSingleSource g db this s = some r) ∧
  (∀ this s r, resolveSingleSourceSubSelect f db this s = some r →
    resolveSingleSourceSubSelect g db this s = some r) ∧
  (∀ this sel r, resolveSubSelect f db this sel = some r → resolveSubSelect g db this sel = some r) ∧
  (∀ this d n a r, resolveView f db this d n a = some r → resolveView g db this d n a = some r)

/-- Resolution ends for every node of size at most `n`, with a fuel that does not depend on
the state of the resolver. -/
def Terminates (db : Db) (n : Nat) : Prop :=
  (∀ core : Core, sizeOf core ≤ n →
    ∃ fuel, ∀ this parent, ∃ r, resolveCore fuel db this parent core = some r) ∧
  (∀ js : JoinSource, sizeOf js ≤ n →
    ∃ fuel, ∀ this, ∃ r, resolveJoinSource fuel db this js = some r) ∧
  (∀ s : Option SingleSource, sizeOf s ≤ n →
    ∃ fuel, ∀ this, ∃ r, resolveSingleSource fuel db this s = some r) ∧
  (∀ sel : SqliteSelect, sizeOf sel ≤ n →
    ∃ fuel, ∀ this, ∃ r, resolveSubSelect fuel db this sel = some r)

/-! ## Sub-selects, expressions, hashing: notions and example data -/

/-- The comparison `operator==(const Column&, const Column&)`. -/
def Column.eq (c1 c2 : Column) : Bool :=
  QString.compareCI c1.column c2.column &&
  QString.compareCI c1.table c2.table &&
  QString.compareCI c1.database c2.database &&
  QString.compareCI c1.tableAlias c2.tableAlias &&
  decide (c1.oldTableAliases.length = c2.oldTableAliases.length) &&
  decide (toLower (joinComma c1.oldTableAliases) = toLower (joinComma c2.oldTableAliases))

/-- The string `qHash(const Column&)` hashes. -/
def Column.hashKey (column : Column) : String :=
  toLower (QString.str column.database) ++ "." ++ toLower (QString.str column.table) ++ "." ++
    toLower (QString.str column.column) ++ "/" ++ toLower (QString.str column.tableAlias) ++ "/" ++
    joinComma column.oldTableAliases

/-- What the specification says applying the alias `A` of a sub-select does to a column:
the current table alias, if the column has one, goes onto the old aliases, the table alias
becomes `A`, and `FROM_ANONYMOUS_SELECT` is cleared.  A column has a table alias when its
`tableAlias` is not null. -/
def aliasCrossing (A : QString) (c : Column) : Column :=
  { c with
    oldTableAliases :=
      if QString.isNull c.tableAlias then c.oldTableAliases else c.oldTableAliases ++ [c.tableAlias],
    tableAlias := A,
    flags := clearFlag c.flags FROM_ANONYMOUS_SELECT }

/-- What the specification says happens to a column of a sub-select without alias: the
flag `FROM_ANONYMOUS_SELECT` is set. -/
def anonymousCrossing (c : Column) : Column :=
  { c with flags := c.flags ||| FROM_ANONYMOUS_SELECT }

/-- The source `(select) AS alias` of a `FROM` clause. -/
def subSource (select : SqliteSelect) (alias_ : QString) : SingleSource :=
  SingleSource.mk (some select) none none none none alias_ []

/-- The core of `SELECT s.a FROM (SELECT a FROM t UNION SELECT a FROM u) AS s`. -/
def coreSubUnion : Core :=
  Core.mk (some (fromSources (subSource selectUnion (some "s")) [])) [idColumn 1 (some "s") "a"]
    false []

/-- The core of `SELECT s.a FROM (SELECT a FROM t) AS s`. -/
def coreSubPlain : Core :=
  Core.mk (some (fromSources (subSource selectA (some "s")) [])) [idColumn 1 (some "s") "a"]
    false []

/-- The statement `SELECT a FROM t AS x`. -/
def selectAliased : SqliteSelect := SqliteSelect.mk [coreAliased "t" "x" (idColumn 1 none "a")] none

/-- The core of `SELECT s.a FROM (SELECT a FROM t AS x) AS s`. -/
def coreSubAliased : Core :=
  Core.mk (some (fromSources (subSource selectAliased (some "s")) [])) [idColumn 1 (some "s") "a"]
    false []

/-- A keyword token. -/
def kw (value : String) : Token := { type := TokenType.KEYWORD, value := value }

/-- The result column `a+1 AS s`, an expression with the alias `s`. -/
def exprSpaced : ResultColumn :=
  { addr := 1, star := false, alias_ := some "s", expr := { mode := ExprMode.OTHER },
    tokens := [tok "a", tok "+", tok "1", tok " ", kw "AS", tok " ", tok "s"] }

/-- The result column `(a+1)AS s`, where no blank stands before `AS`. -/
def exprParen : ResultColumn :=
  { addr := 1, star := false, alias_ := some "s", expr := { mode := ExprMode.OTHER },
    tokens := [{ type := TokenType.PAR_LEFT, value := "(" }, tok "a", tok "+", tok "1",
      { type := TokenType.PAR_RIGHT, value := ")" }, kw "AS", tok " ", tok "s"] }

/-- A resolver with the attached-database map that pairs the name `main2` (left) with the
attach name `attached` (right). -/
def stateAttached : SelectResolver := SelectResolver.new { pairs := [("main2", "attached")] } false false

/-! ## The data type descriptor (`datatype.cpp`) -/

/-- A `QVariant` as the descriptor uses it: `none` is a null variant (an invalid one, or one
that holds a null `QString`, which `QVariant::isNull` of Qt 5 reports as null), `some s` a
variant whose `toString()` is `s`. -/
abbrev QVariant := Option String

/-- The text of `QVariant::toString()`; a null variant gives the empty text. -/
def QVariant.toString (v : QVariant) : String := v.getD ""

/-- The text of `QString::toUpper()`, on the ASCII letters. -/
def toUpper (s : String) : String := ⟨s.data.map Char.toUpper⟩

/-- The two values of the Qt enumeration `Qt::CaseSensitivity`. -/
inductive CaseSensitivity where
  | CaseInsensitive
  | CaseSensitive
  deriving DecidableEq, Repr

/-- Modelled from the spec: the enumeration `DataType::Enum` is declared in `datatype.h`,
which is not among the sources; its members are the closed vocabulary of the specification,
and they are the labels of the `switch` in `DataType::isNumeric(DataType::Enum)`. -/
inductive DataType.Enum where
  | BIGINT
  | BLOB
  | BOOLEAN
  | CHAR
  | DATE
  | DATETIME
  | DECIMAL
  | DOUBLE
  | INTEGER
  | INT
  | NONE
  | NUMERIC
  | REAL
  | STRING
  | TEXT
  | TIME
  | VARCHAR
  | unknown
  deriving DecidableEq, Repr

/-- Modelled from the spec: the members of the class `DataType` (`datatype.h`, not among the
sources), as the member functions of `datatype.cpp` read and write them. -/
structure DataType where
  type : DataType.Enum
  typeStr : String
  precision : QVariant
  scale : QVariant
  deriving DecidableEq, Repr

/-- The function `DataType::toString(DataType::Enum)`: the key of the value in the meta
enumeration, which is the name of the member. -/
def DataType.Enum.toString : DataType.Enum → String
  | BIGINT => "BIGINT"
  | BLOB => "BLOB"
  | BOOLEAN => "BOOLEAN"
  | CHAR => "CHAR"
  | DATE => "DATE"
  | DATETIME => "DATETIME"
  | DECIMAL => "DECIMAL"
  | DOUBLE => "DOUBLE"
  | INTEGER => "INTEGER"
  | INT => "INT"
  | NONE => "NONE"
  | NUMERIC => "NUMERIC"
  | REAL => "REAL"
  | STRING => "STRING"
  | TEXT => "TEXT"
  | TIME => "TIME"
  | VARCHAR => "VARCHAR"
  | unknown => "unknown"

/-- All members of `DataType::Enum`, in the order of their declaration. -/
def DataType.Enum.all : List DataType.Enum :=
  [BIGINT, BLOB, BOOLEAN, CHAR, DATE, DATETIME, DECIMAL, DOUBLE, INTEGER, INT, NONE, NUMERIC,
   REAL, STRING, TEXT, TIME, VARCHAR, unknown]

/-- The bytes of `key.toLatin1().data()` read as a C string: a UTF-16 unit outside Latin-1
becomes `?`, and the string ends before the first NUL character. -/
def toLatin1Data (key : String) : List Char :=
  (key.data.flatMap (fun c =>
    if c.toNat < 256 then [c] else if c.toNat < 65536 then ['?'] else ['?', '?'])).takeWhile
    (fun c => c.toNat != 0)

/-- The loop `while (s > key && *s != ':') --s;` of `QMetaEnum::keyToValue`, with `s` an
index into the C string `key` and started at its end: it stops on the last colon, or at 0. -/
def scanColon (key : List Char) : Nat → Nat
  | 0 => 0
  | s + 1 => if key.getD (s + 1) (Char.ofNat 0) = ':' then s + 1 else scanColon key s

/-- The lookup `QMetaEnum::keyToValue(key, &ok)` of Qt 5 on the meta enumeration of the class
`DataType`: when the last colon of the key follows another colon, what stands before the two
is a scope, which must be empty or the class name, and what stands behind them is the key;
the key is compared with the keys of the members. -/
def DataType.keyToValueRaw (key : List Char) : Option DataType.Enum :=
  let s := scanColon key key.length
  if 0 < s ∧ key.getD (s - 1) (Char.ofNat 0) = ':' then
    let scope := s - 1
    if scope = 0 ∨ key.take scope = "DataType".data then
      DataType.Enum.all.find? (fun e => decide (e.toString.data = key.drop (scope + 2)))
    else none
  else DataType.Enum.all.find? (fun e => decide (e.toString.data = key))

/-- The call `metaEnum.keyToValue(key.toLatin1().data(), &ok)` of `DataType::fromString`. -/
def DataType.keyToValue (key : String) : Option DataType.Enum :=
  DataType.keyToValueRaw (toLatin1Data key)

/-- The function `DataType::fromString`. -/
def DataType.fromString (key : String) (cs : CaseSensitivity) : DataType.Enum :=
  let key1 := if cs = CaseSensitivity.CaseInsensitive then toUpper key else key
  match DataType.keyToValue key1 with
  | none => DataType.Enum.unknown
  | some value => value

/-- The function `DataType::setEmpty`, which overwrites all four members. -/
def DataType.setEmpty : DataType :=
  { type := DataType.Enum.unknown, typeStr := "", precision := none, scale := none }

/-- The constructor `DataType::DataType()`. -/
def DataType.new : DataType := DataType.setEmpty

/-! ### The regular expression of the parsing constructor -/

/-- A regular expression of the kind the constructor uses: character classes, sequence,
the greedy `?`, `*` and `+`, named capture groups, and the anchors `^` and `$`. -/
inductive Re where
  | chr (p : Char → Bool)
  | seq (a b : Re)
  | opt (r : Re)
  | star (r : Re)
  | plus (r : Re)
  | group (name : String) (r : Re)
  | bos
  | eos

/-- The state of a match: the rest of the subject, the position, and the captures. -/
structure MatchState where
  rest : List Char
  pos : Nat
  caps : List (String × String)
  deriving DecidableEq, Repr

/-- The greedy repetition of a matcher `m`: as many rounds as possible first, fewer on
backtracking; a round must consume a character.  The count `n` bounds the rounds and is
given as the length of the rest plus one. -/
def starLoop (m : MatchState → (MatchState → Option MatchState) → Option MatchState) :
    Nat → MatchState → (MatchState → Option MatchState) → Option MatchState
  | 0, st, k => k st
  | n + 1, st, k =>
    match m st (fun st1 => if st.pos < st1.pos then starLoop m n st1 k else none) with
    | some r => some r
    | none => k st

/-- The backtracking matcher: `run r st k` matches `r` at `st` and goes on with `k`; `none` is
a failure, on which the caller takes its next alternative. -/
def Re.run : Re → MatchState → (MatchState → Option MatchState) → Option MatchState
  | Re.chr p, st, k =>
    match st.rest with
    | [] => none
    | c :: cs => if p c then k { st with rest := cs, pos := st.pos + 1 } else none
  | Re.seq a b, st, k => Re.run a st (fun st1 => Re.run b st1 k)
  | Re.opt r, st, k =>
    match Re.run r st k with
    | some res => some res
    | none => k st
  | Re.star r, st, k => starLoop (Re.run r) (st.rest.length + 1) st k
  | Re.plus r, st, k =>
    Re.run r st (fun st1 => starLoop (Re.run r) (st1.rest.length + 1) st1 k)
  | Re.group name r, st, k =>
    Re.run r st (fun st1 =>
      k { st1 with caps := (name, String.mk (st.rest.take (st1.pos - st.pos))) ::
            st1.caps.filter (fun e => decide (e.1 ≠ name)) })
  | Re.bos, st, k => if st.pos = 0 then k st else none
  | Re.eos, st, k => if st.rest = [] ∨ st.rest = ['\n'] then k st else none

/-- The class `\s` of the pattern. -/
def reSpace (c : Char) : Bool := c = ' ' || (9 ≤ c.toNat && c.toNat ≤ 13)

/-- The class `[\d\.]` of the pattern. -/
def reDigitDot (c : Char) : Bool := c.isDigit || c = '.'

/-- The pattern
`^(?<type>[^\)]*)\s*(\((?<scale>[\d\.]+)\s*(,\s*(?<precision>[\d\.])+\s*)?\))?$`. -/
def typeRe : Re :=
  Re.seq Re.bos
    (Re.seq (Re.group "type" (Re.star (Re.chr (fun c => c != ')'))))
      (Re.seq (Re.star (Re.chr reSpace))
        (Re.seq
          (Re.opt
            (Re.seq (Re.chr (fun c => c = '('))
              (Re.seq (Re.group "scale" (Re.plus (Re.chr reDigitDot)))
                (Re.seq (Re.star (Re.chr reSpace))
                  (Re.seq
                    (Re.opt
                      (Re.seq (Re.chr (fun c => c = ','))
                        (Re.seq (Re.star (Re.chr reSpace))
                          (Re.seq (Re.plus (Re.group "precision" (Re.chr reDigitDot)))
                            (Re.star (Re.chr reSpace))))))
                    (Re.chr (fun c => c = ')')))))))
          Re.eos)))

/-- The text `QRegularExpressionMatch::captured(name)`: null when the group took no part in
the match. -/
def captured (st : MatchState) (name : String) : QString :=
  match st.caps.find? (fun e => decide (e.1 = name)) with
  | some e => some e.2
  | none => none

/-- The constructor `DataType::DataType(const QString& fullTypeString)`. -/
def DataType.ofFullTypeString (fullTypeString : String) : DataType :=
  match Re.run typeRe { rest := fullTypeString.data, pos := 0, caps := [] } some with
  | none => DataType.setEmpty
  | some st =>
    { typeStr := QString.str (captured st "type"),
      type := DataType.fromString (QString.str (captured st "type")) CaseSensitivity.CaseInsensitive,
      precision := captured st "precision",
      scale := captured st "scale" }

/-- The constructor `DataType::DataType(type, scale, precision)`. -/
def DataType.ofParts (type : String) (scale precision : QVariant) : DataType :=
  { type := DataType.fromString type CaseSensitivity.CaseInsensitive, typeStr := type,
    precision := precision, scale := scale }

/-- The function `DataType::toFullTypeString`. -/
def DataType.toFullTypeString (d : DataType) : String :=
  if !d.precision.isNone then
    if !d.scale.isNone then
      d.typeStr ++ (" (" ++ QVariant.toString d.scale ++ ", " ++ QVariant.toString d.precision ++ ")")
    else d.typeStr ++ (" (" ++ QVariant.toString d.scale ++ ")")
  else d.typeStr

/-- The function `DataType::isNumeric(DataType::Enum)`. -/
def DataType.Enum.isNumeric : DataType.Enum → Bool
  | BIGINT => true
  | DECIMAL => true
  | DOUBLE => true
  | INTEGER => true
  | INT => true
  | NUMERIC => true
  | REAL => true
  | BLOB => false
  | BOOLEAN => false
  | CHAR => false
  | DATE => false
  | DATETIME => false
  | NONE => false
  | STRING => false
  | TEXT => false
  | TIME => false
  | VARCHAR => false
  | unknown => false

/-- The function `DataType::isNumeric()`. -/
def DataType.isNumeric (d : DataType) : Bool := d.type.isNumeric

/-- The function `DataType::isBinary(const QString&)`. -/
def DataType.isBinaryName (type : String) : Bool := decide (toUpper type ∈ ["BLOB", "CLOB", "LOB"])

/-- The function `DataType::isBinary()`. -/
def DataType.isBinary (d : DataType) : Bool := DataType.isBinaryName d.typeStr

/-- The function `DataType::isNull()`. -/
def DataType.isNull (d : DataType) : Bool := decide (d.type = DataType.Enum.unknown)

/-- The function `DataType::isEmpty()`. -/
def DataType.isEmpty (d : DataType) : Bool := decide (d.typeStr = "")

/-- The function `DataType::setType`. -/
def DataType.setType (d : DataType) (value : DataType.Enum) : DataType :=
  { d with type := value, typeStr := value.toString }

/-- The function `DataType::setPrecision`. -/
def DataType.setPrecision (d : DataType) (value : QVariant) : DataType :=
  { d with precision := value }

/-- The function `DataType::setScale`. -/
def DataType.setScale (d : DataType) (value : QVariant) : DataType :=
  { d with scale := value }

/-- The function `DataType::toString()`. -/
def DataType.toString (d : DataType) : String := d.typeStr

/-! ### Notions of the specification for the descriptor -/

/-- The kinds the specification calls numeric. -/
def numericKinds : List DataType.Enum :=
  [DataType.Enum.BIGINT, DataType.Enum.DECIMAL, DataType.Enum.DOUBLE, DataType.Enum.INTEGER,
   DataType.Enum.INT, DataType.Enum.NUMERIC, DataType.Enum.REAL]

/-- The full type string as the specification words it: the raw name alone when the scale is
absent, with ` (scale)` when only the scale is present, with ` (scale, precision)` when both
are. -/
def specFullTypeString (d : DataType) : String :=
  match d.scale, d.precision with
  | none, _ => d.typeStr
  | some scale, none => d.typeStr ++ " (" ++ scale ++ ")"
  | some scale, some precision => d.typeStr ++ " (" ++ scale ++ ", " ++ precision ++ ")"

/-! ## Descriptors: construction, copying, and the invariant -/

/-- The function `DataType::operator=`.  Its last assignment reads `this->scale = scale;`,
which assigns the member to itself: the scale of `other` is not read. -/
def DataType.assign (this other : DataType) : DataType :=
  { this with type := other.type, typeStr := other.typeStr, precision := other.precision,
              scale := this.scale }

/-- The constructor `DataType::DataType(const DataType& other)`: the members of the new object
are default-constructed, a null name and two null variants, and `operator=` is called on it,
which overwrites `type`. -/
def DataType.copy (other : DataType) : DataType :=
  DataType.assign { type := DataType.Enum.unknown, typeStr := "", precision := none, scale := none }
    other

/-- The four member functions the specification lists as changing a descriptor. -/
inductive DataType.Op where
  | setType (value : DataType.Enum)
  | setScale (value : QVariant)
  | setPrecision (value : QVariant)
  | setEmpty
  deriving DecidableEq, Repr

/-- One call of a changing member function. -/
def DataType.Op.apply (d : DataType) : DataType.Op → DataType
  | DataType.Op.setType value => d.setType value
  | DataType.Op.setScale value => d.setScale value
  | DataType.Op.setPrecision value => d.setPrecision value
  | DataType.Op.setEmpty => DataType.setEmpty

/-- The core of `SELECT a`, which has no `FROM` clause. -/
def coreNoFrom : Core := Core.mk none [idColumn 1 none "a"] false []

/-- The statement `SELECT a FROM t UNION SELECT a`. -/
def selectLeak : SqliteSelect := SqliteSelect.mk [coreA "t", coreNoFrom] none

/-- The display names, as texts, of the first `i` columns of a list. -/
def earlierDisplayNames (columns : List Column) (i : Nat) : List String :=
  (columns.take i).map (fun c => QString.str c.displayName)

/-- The working aliases, as texts, of the first `i` columns of a list. -/
def earlierAliases (columns : List Column) (i : Nat) : List String :=
  (columns.take i).map (fun c => QString.str (workingAlias c))

/-- The result column `name AS alias`, an identifier with a declared alias. -/
def aliasedIdColumn (addr : Nat) (name alias_ : String) : ResultColumn :=
  { addr := addr, star := false, alias_ := some alias_,
    expr := { mode := ExprMode.ID, column := some name, tokens := [tok name] },
    tokens := [tok name, tok " ", kw "AS", tok " ", tok alias_] }

/-- The core of `SELECT a AS x, b AS x FROM t`. -/
def coreDeclared : Core :=
  Core.mk (some (fromSources (plainSource "t" none) []))
    [aliasedIdColumn 1 "a" "x", aliasedIdColumn 2 "b" "x"] false []

/-- The core of `SELECT s.* FROM (SELECT a FROM t AS x) AS s`. -/
def coreSubAliasedStar : Core :=
  Core.mk (some (fromSources (subSource selectAliased (some "s")) [])) [starColumn 1 "s"] false []

/-! ## Token translation: the embedding and example data -/

/-- Modelled from the spec: a statement node of the syntax tree (`parser/ast`, not among the
sources) as `translateTokenToColumn` sees it on the way from a token to the root: a select
core, with the select that is its parent statement if it has one, or any other statement. -/
inductive SqliteStatement where
  | core (selectCore : Core) (parent : Option SqliteSelect)
  | other

/-- The pairs of characters that enclose a quoted name: double quotes, brackets, single
quotes and back quotes. -/
def isNameWrapper (first last : Char) : Bool :=
  (first.toNat == 34 && last.toNat == 34) || (first == '[' && last == ']') ||
  (first.toNat == 39 && last.toNat == 39) || (first.toNat == 96 && last.toNat == 96)

/-- Modelled from the spec: `stripObjName` (common/utils_sql.h) is not among the sources; it
strips the quoting from a name, here one pair of enclosing quote characters of a name of two
or more characters. -/
def stripObjName (str : String) : QString :=
  match str.data with
  | first :: rest =>
    match rest.reverse with
    | last :: middle =>
      if isNameWrapper first last then some (String.mk middle.reverse) else some str
    | [] => some str
  | [] => some str

/-- The default result of `translateTokenToColumn` (its variable `notTranslatedColumn`). -/
def notTranslatedColumn (strippedColName : QString) : Column :=
  { type := ColumnType.OTHER, column := strippedColName }

/-- The test of the search loop of `translateTokenToColumn` on an available column. -/
def tokenMatches (strippedColName : QString) (availableColumn : Column) : Bool :=
  decide (availableColumn.type = ColumnType.COLUMN) &&
    QString.compareCI availableColumn.column strippedColName

/-- The loop of `SelectResolver::translateTokenToColumn` over the statement that contains the
token and its parent statements, from the inside out: a statement that is no core is passed
over, a core has its available columns resolved and searched, and the end of the chain gives
the default result. -/
def translateLoop (fuel : Nat) (db : Db) (strippedColName : QString) :
    SelectResolver → List SqliteStatement → Option (Column × SelectResolver)
  | this, [] => some (notTranslatedColumn strippedColName, this)
  | this, SqliteStatement.other :: rest => translateLoop fuel db strippedColName this rest
  | this, SqliteStatement.core selectCore parent :: rest =>
    match resolveAvailableColumnsOfCore fuel db this parent selectCore with
    | none => none
    | some (columns, this1) =>
      match columns.find? (tokenMatches strippedColName) with
      | some availableColumn => some (availableColumn, this1)
      | none => translateLoop fuel db strippedColName this1 rest

/-- The function `SelectResolver::translateTokenToColumn`; `chain` is the statement
`findStatementWithToken` returns for the token, followed by its parent statements up to the
root, and is empty when no statement contains the token. -/
def translateTokenToColumn (fuel : Nat) (db : Db) (this : SelectResolver) (token : Token)
    (chain : List SqliteStatement) : Option (Column × SelectResolver) :=
  translateLoop fuel db (stripObjName token.value) this chain

/-- The available columns of the cores of a chain, from the inside out, each resolved by
`resolveAvailableColumns(core)` in the state the core before it left. -/
def availableLists (fuel : Nat) (db : Db) :
    SelectResolver → List SqliteStatement → Option (List (List Column))
  | _, [] => some []
  | this, SqliteStatement.other :: rest => availableLists fuel db this rest
  | this, SqliteStatement.core selectCore parent :: rest =>
    match resolveAvailableColumnsOfCore fuel db this parent selectCore with
    | none => none
    | some (columns, this1) =>
      match availableLists fuel db this1 rest with
      | none => none
      | some lists => some (columns :: lists)

/-- The column the specification says the translator returns: the first available column,
cores taken from the inside out, whose name is the stripped text of the token, without
regard to case. -/
def firstNamed (strippedColName : QString) (lists : List (List Column)) : Option Column :=
  lists.flatten.find? (fun c => QString.compareCI c.column strippedColName)

/-- A database like `exampleDb` in which every table-valued function has the one column
`value`. -/
def functionDb : Db := { exampleDb with exec := fun _ => { columnNames := ["value"] } }

/-- The source `json_each(x) AS j`, a table-valued function. -/
def functionSource : SingleSource :=
  SingleSource.mk none none (some "json_each") none none (some "j")
    [tok "json_each", { type := TokenType.PAR_LEFT, value := "(" }, tok "x",
     { type := TokenType.PAR_RIGHT, value := ")" }, tok " ", kw "AS", tok " ", tok "j"]

/-- The core of `SELECT value FROM json_each(x) AS j`. -/
def coreFunction : Core :=
  Core.mk (some (fromSources functionSource [])) [idColumn 1 none "value"] false []

/-- The chain of the token `value` in `SELECT value FROM json_each(x) AS j`: the result
column, the core, the select. -/
def chainFunction : List SqliteStatement :=
  [SqliteStatement.other, SqliteStatement.core coreFunction (some (SqliteSelect.mk [coreFunction] none)),
   SqliteStatement.other]

/-- The core of `SELECT * FROM t`. -/
def coreStarT : Core :=
  Core.mk (some (fromSources (plainSource "t" none) []))
    [{ addr := 1, star := true, tokens := [tok "*"] }] false []

/-- The chain of the token `b` in the inner `WHERE` clause of
`SELECT * FROM t WHERE a IN (SELECT a FROM u WHERE a = b)`: the expression, the inner core,
the inner select, the expression of the outer `WHERE` clause, the outer core, the outer
select. -/
def chainNested : List SqliteStatement :=
  [SqliteStatement.other, SqliteStatement.core (coreA "u") (some (SqliteSelect.mk [coreA "u"] none)),
   SqliteStatement.other, SqliteStatement.other,
   SqliteStatement.core coreStarT (some (SqliteSelect.mk [coreStarT] none)), SqliteStatement.other]

/-! ## The star path on a common table expression: example data -/

/-- The core of `SELECT * FROM c`. -/
def coreCteStar : Core :=
  Core.mk (some (fromSources (plainSource "c" none) []))
    [{ addr := 1, star := true, tokens := [tok "*"] }] false []

/-- The statement `WITH c AS (SELECT 1 AS x) SELECT * FROM c`. -/
def selectCteStar : SqliteSelect := SqliteSelect.mk [coreCteStar] (some [cteC])

/-- Two states of a resolver with the same attach map, switches and index of common table
expressions. -/
def sameConfig (a b : SelectResolver) : Prop :=
  b.dbNameToAttach = a.dbNameToAttach ∧ b.resolveMultiCore = a.resolveMultiCore ∧
  b.ignoreInvalidNames = a.ignoreInvalidNames ∧ b.cteList = a.cteList

/-! ## Catalogs with a view: example data -/

/-- A database like `exampleDb` with the view `w`, created as `SELECT a FROM t`. -/
def viewDb : Db :=
  { exampleDb with
    getViews := fun _ => ["w"],
    getParsedObject := fun _ name =>
      if QString.str name = "w" then ParsedObject.createView selectA else ParsedObject.null }

/-- The chain of the token `a` in `SELECT a FROM w`: the result column, the core, the select. -/
def chainView : List SqliteStatement :=
  [SqliteStatement.other, SqliteStatement.core (coreA "w") (some (SqliteSelect.mk [coreA "w"] none)),
   SqliteStatement.other]

/-- A database with the one view `v`, created as `SELECT a FROM v`, a view defined in terms of
itself. -/
def cyclicDb : Db :=
  { exampleDb with
    getViews := fun _ => ["v"],
    getParsedObject := fun _ name =>
      if QString.str name = "v" then ParsedObject.createView (SqliteSelect.mk [coreA "v"] none)
      else ParsedObject.null }

/-- The chain of the token `a` in `SELECT a FROM v`: the result column, the core, the select. -/
def chainCyclic : List SqliteStatement :=
  [SqliteStatement.other, SqliteStatement.core (coreA "v") (some (SqliteSelect.mk [coreA "v"] none)),
   SqliteStatement.other]

/-! ## Decimal numerals are injective -/

theorem toDigitsCore_append (fuel n : Nat) (ds : List Char) :
    Nat.toDigitsCore 10 fuel n ds = Nat.toDigitsCore 10 fuel n [] ++ ds := by
  induction fuel generalizing n ds with
  | zero => simp [Nat.toDigitsCore]
  | succ f ih =>
    simp only [Nat.toDigitsCore]
    split
    · simp
    · rw [ih (n / 10) (_ :: ds), ih (n / 10) [_]]; simp

theorem digitVal_digitChar (d : Nat) (h : d < 10) : digitVal (Nat.digitChar d) = d := by
  interval_cases d <;> rfl

theorem numeralVal_toDigitsCore (fuel n : Nat) (h : n < fuel) :
    numeralVal (Nat.toDigitsCore 10 fuel n []) = n := by
  induction fuel generalizing n with
  | zero => omega
  | succ f ih =>
    simp only [Nat.toDigitsCore]
    split
    · rename_i h0
      have : n < 10 := by omega
      simp [numeralVal, Nat.mod_eq_of_lt this, digitVal_digitChar n this]
    · rename_i h0
      rw [toDigitsCore_append]
      have hlt : n / 10 < f := by omega
      have := ih (n / 10) hlt
      simp only [numeralVal] at this
      simp only [numeralVal, List.foldl_append, List.foldl_cons, List.foldl_nil, this]
      rw [digitVal_digitChar _ (Nat.mod_lt _ (by decide))]
      omega

theorem number_injective (i j : Nat) (h : number i = number j) : i = j := by
  have h1 : Nat.toDigits 10 i = Nat.toDigits 10 j := by
    have := congrArg String.data h
    simpa [number, toString, Nat.repr, List.asString] using this
  have hi := numeralVal_toDigitsCore (i + 1) i (by omega)
  have hj := numeralVal_toDigitsCore (j + 1) j (by omega)
  unfold Nat.toDigits at h1
  rw [h1] at hi
  omega

/-! ## The renaming loop -/

theorem candidate_str_injective (o : QString) (i j : Nat)
    (h : QString.str (candidate o i) = QString.str (candidate o j)) : i = j := by
  cases i with
  | zero =>
    cases j with
    | zero => rfl
    | succ j =>
      have := congrArg String.length h
      simp only [candidate, QString.str, Option.getD_some, String.length_append] at this
      have h2 : ":".length = 1 := rfl
      omega
  | succ i =>
    cases j with
    | zero =>
      have := congrArg String.length h
      simp only [candidate, QString.str, Option.getD_some, String.length_append] at this
      have h2 : ":".length = 1 := rfl
      omega
    | succ j =>
      have h1 := congrArg String.data h
      simp only [candidate, QString.str, Option.getD_some, String.data_append,
        List.append_cancel_left_eq] at h1
      have := number_injective (i + 1) (j + 1) (String.ext h1)
      omega

theorem sequenceName_spec (ex : List String) (o : QString) : ∀ fuel i : Nat,
    ∃ k, i ≤ k ∧ k ≤ i + fuel ∧ sequenceName ex o fuel (i + 1) (candidate o i) = candidate o k ∧
      (∀ j, i ≤ j → j < k → QString.str (candidate o j) ∈ ex) ∧
      (k < i + fuel → QString.str (candidate o k) ∉ ex) := by
  intro fuel
  induction fuel with
  | zero => intro i; exact ⟨i, le_refl _, by omega, rfl, by intro j h1 h2; omega, by omega⟩
  | succ f ih =>
    intro i
    by_cases hm : QString.str (candidate o i) ∈ ex
    · obtain ⟨k, h1, h2, h3, h4, h5⟩ := ih (i + 1)
      refine ⟨k, by omega, by omega, ?_, ?_, ?_⟩
      · simp only [sequenceName, hm, if_true]
        exact h3
      · intro j hj1 hj2
        by_cases hji : j = i
        · subst hji; exact hm
        · exact h4 j (by omega) hj2
      · intro hk; exact h5 (by omega)
    · refine ⟨i, le_refl _, by omega, ?_, by intro j h1 h2; omega, fun _ => hm⟩
      simp only [sequenceName, hm, if_false]

/-- The fuel of `uniqueName` is enough: the loop stops at the first candidate that is not
in the set. -/
theorem uniqueName_spec (ex : List String) (o : QString) :
    ∃ k, uniqueName ex o = candidate o k ∧
      (∀ j, j < k → QString.str (candidate o j) ∈ ex) ∧ QString.str (candidate o k) ∉ ex := by
  obtain ⟨k, _, h2, h3, h4, h5⟩ := sequenceName_spec ex o (ex.length + 1) 0
  refine ⟨k, h3, fun j hj => h4 j (Nat.zero_le _) hj, ?_⟩
  by_cases hk : k < 0 + (ex.length + 1)
  · exact h5 hk
  · have hk2 : k = ex.length + 1 := by omega
    exfalso
    have hnd : ((List.range (ex.length + 1)).map (fun j => QString.str (candidate o j))).Nodup := by
      refine List.Nodup.map_on ?_ (List.nodup_range _)
      intro a _ b _ hab
      exact candidate_str_injective o a b hab
    have hsub : (List.range (ex.length + 1)).map (fun j => QString.str (candidate o j)) ⊆ ex := by
      intro s hs
      simp only [List.mem_map, List.mem_range] at hs
      obtain ⟨j, hj, rfl⟩ := hs
      exact h4 j (Nat.zero_le _) (by omega)
    have := (List.subperm_of_subset hnd hsub).length_le
    simp at this

theorem uniqueName_not_mem (ex : List String) (o : QString) :
    QString.str (uniqueName ex o) ∉ ex := by
  obtain ⟨k, h1, _, h3⟩ := uniqueName_spec ex o
  rw [h1]; exact h3

theorem uniqueName_cases (ex : List String) (o : QString) :
    uniqueName ex o = o ∨ QString.isNull (uniqueName ex o) = false := by
  obtain ⟨k, h1, _, _⟩ := uniqueName_spec ex o
  cases k with
  | zero => left; exact h1
  | succ k => right; rw [h1]; rfl

theorem fixColumnNamesLoop_cons (ed ea : List String) (col : Column) (rest : List Column) :
    ∃ col2 : Column,
      fixColumnNamesLoop ed ea (col :: rest) =
        col2 :: fixColumnNamesLoop (QString.str (uniqueName ed col.displayName) :: ed)
          (QString.str (uniqueName ea (workingAlias col)) :: ea) rest ∧
      col2.displayName = uniqueName ed col.displayName ∧
      QString.str (workingAlias col2) = QString.str (uniqueName ea (workingAlias col)) := by
  by_cases h : QString.str (uniqueName ea (workingAlias col)) = QString.str (workingAlias col)
  · refine ⟨{ col with displayName := uniqueName ed col.displayName }, ?_, rfl, ?_⟩
    · simp only [fixColumnNamesLoop]
      unfold workingAlias at h
      simp only [workingAlias, h, ne_eq, not_true_eq_false, if_false]
    · rw [h]; rfl
  · refine ⟨{ col with displayName := uniqueName ed col.displayName,
                       alias_ := uniqueName ea (workingAlias col) }, ?_, rfl, ?_⟩
    · simp only [fixColumnNamesLoop]
      unfold workingAlias at h
      simp only [workingAlias, h, ne_eq, not_false_eq_true, if_true]
    · rcases uniqueName_cases ea (workingAlias col) with h1 | h1
      · rw [h1] at h; exact absurd rfl h
      · show QString.str (if QString.isNull (uniqueName ea (workingAlias col)) = true then col.column
            else uniqueName ea (workingAlias col)) = _
        rw [h1]; rfl

theorem fixColumnNamesLoop_names (l : List Column) : ∀ ed ea : List String,
    (∀ c ∈ fixColumnNamesLoop ed ea l, QString.str c.displayName ∉ ed) ∧
    ((fixColumnNamesLoop ed ea l).map (fun c => QString.str c.displayName)).Nodup ∧
    (∀ c ∈ fixColumnNamesLoop ed ea l, QString.str (workingAlias c) ∉ ea) ∧
    ((fixColumnNamesLoop ed ea l).map (fun c => QString.str (workingAlias c))).Nodup := by
  induction l with
  | nil => intro ed ea; simp [fixColumnNamesLoop]
  | cons col rest ih =>
    intro ed ea
    obtain ⟨col2, heq, hd, ha⟩ := fixColumnNamesLoop_cons ed ea col rest
    obtain ⟨i1, i2, i3, i4⟩ := ih (QString.str (uniqueName ed col.displayName) :: ed)
      (QString.str (uniqueName ea (workingAlias col)) :: ea)
    rw [heq]
    refine ⟨?_, ?_, ?_, ?_⟩
    · intro c hc
      rcases List.mem_cons.mp hc with rfl | hc
      · rw [hd]; exact uniqueName_not_mem ed _
      · exact fun hm => i1 c hc (List.mem_cons_of_mem _ hm)
    · rw [List.map_cons, List.nodup_cons]
      refine ⟨?_, i2⟩
      intro hm
      obtain ⟨c, hc, hceq⟩ := List.mem_map.mp hm
      apply i1 c hc
      rw [hceq, hd]
      exact List.mem_cons_self _ _
    · intro c hc
      rcases List.mem_cons.mp hc with rfl | hc
      · rw [ha]; exact uniqueName_not_mem ea _
      · exact fun hm => i3 c hc (List.mem_cons_of_mem _ hm)
    · rw [List.map_cons, List.nodup_cons]
      refine ⟨?_, i4⟩
      intro hm
      obtain ⟨c, hc, hceq⟩ := List.mem_map.mp hm
      apply i3 c hc
      rw [hceq, ha]
      exact List.mem_cons_self _ _

theorem fixColumnNamesLoop_length (l : List Column) : ∀ ed ea : List String,
    (fixColumnNamesLoop ed ea l).length = l.length := by
  induction l with
  | nil => intro ed ea; rfl
  | cons col rest ih => intro ed ea; simp only [fixColumnNamesLoop, List.length_cons, ih]

theorem fixColumnNames_length (l : List Column) : (fixColumnNames l).length = l.length :=
  fixColumnNamesLoop_length l [] []

/-- Claim C2: after `fixColumnNames` the display names of the result list are pairwise
distinct (as texts, the way a `QSet<QString>` tells names apart). -/
theorem fixColumnNames_displayName_distinct (l : List Column) :
    ((fixColumnNames l).map (fun c => QString.str c.displayName)).Nodup :=
  (fixColumnNamesLoop_names l [] []).2.1

/-- Claim C3: after `fixColumnNames` the aliases of the result list are pairwise distinct,
a result without alias being identified by its column name; `SELECT a, a FROM t` gives the
aliases `a` and `a:1`. -/
theorem fixColumnNames_alias_distinct :
    (∀ l : List Column, ((fixColumnNames l).map (fun c => QString.str (workingAlias c))).Nodup) ∧
    (resolveOfCore 3 exampleDb {} (some selectAA) coreAA).map (fun r => r.1.map workingAlias) =
      some [some "a", some "a:1"] :=
  ⟨fun l => (fixColumnNamesLoop_names l [] []).2.2.2, by decide⟩

/-! ## Result columns of a core -/

theorem compareCI_comm (a b : QString) : QString.compareCI a b = QString.compareCI b a := by
  unfold QString.compareCI
  by_cases h : toLower (QString.str a) = toLower (QString.str b)
  · simp [h]
  · have h2 : ¬ toLower (QString.str b) = toLower (QString.str a) := fun e => h e.symm
    simp [h, h2]

theorem starSkips_eq (resCol : ResultColumn) (c : Column) :
    starSkips resCol c = !starMatches resCol c := by
  unfold starSkips starMatches prefixRule
  rw [compareCI_comm resCol.table c.tableAlias, compareCI_comm resCol.table c.table]
  cases QString.isNull resCol.table <;> cases QString.isNull c.tableAlias <;>
    cases QString.compareCI c.tableAlias resCol.table <;>
    cases QString.compareCI c.table resCol.table <;> rfl

theorem resolveStarStep_eq (resCol : ResultColumn) (acc : List Column × Bool) (c : Column) :
    resolveStarStep resCol acc c =
      if starMatches resCol c then (acc.1 ++ [starResult resCol c], true) else acc := by
  unfold resolveStarStep
  rw [starSkips_eq]
  cases h : starMatches resCol c
  · simp
  · simp only [Bool.not_true, if_true, Bool.false_eq_true, if_false]
    unfold starResult withDisplayName
    cases h2 : QString.isNull c.alias_ <;> simp

theorem resolveStar_foldl (resCol : ResultColumn) (srcs : List Column) :
    ∀ acc : List Column × Bool,
    srcs.foldl (resolveStarStep resCol) acc =
      (acc.1 ++ (srcs.filter (starMatches resCol)).map (starResult resCol),
       acc.2 || !(srcs.filter (starMatches resCol)).isEmpty) := by
  induction srcs with
  | nil => intro acc; simp
  | cons c rest ih =>
    intro acc
    rw [List.foldl_cons, ih, resolveStarStep_eq]
    cases h : starMatches resCol c
    · simp [List.filter_cons, h]
    · simp [List.filter_cons, h]

theorem resolveStar_results (this : SelectResolver) (resCol : ResultColumn) :
    (resolveStar this resCol).currentCoreResults =
      this.currentCoreResults ++
        (this.currentCoreSourceColumns.filter (starMatches resCol)).map (starResult resCol) := by
  unfold resolveStar
  rw [resolveStar_foldl]
  dsimp only
  split <;> simp

theorem resolveStar_errors (this : SelectResolver) (resCol : ResultColumn) :
    (resolveStar this resCol).errors =
      if (this.currentCoreSourceColumns.filter (starMatches resCol)).isEmpty then
        this.errors ++ ["Could not resolve data source for column: " ++ detokenize resCol.tokens]
      else this.errors := by
  unfold resolveStar
  rw [resolveStar_foldl]
  cases h : (this.currentCoreSourceColumns.filter (starMatches resCol)).isEmpty <;> simp [h]

theorem resolveStar_sources (this : SelectResolver) (resCol : ResultColumn) :
    (resolveStar this resCol).currentCoreSourceColumns = this.currentCoreSourceColumns := by
  unfold resolveStar
  dsimp only
  split <;> rfl

theorem resolveDbAndTable_sources (this : SelectResolver) (resCol : ResultColumn) :
    (resolveDbAndTable this resCol).currentCoreSourceColumns = this.currentCoreSourceColumns := by
  unfold resolveDbAndTable
  simp only
  split
  · rfl
  · split
    · rfl
    · split <;> rfl

theorem resolveDbAndTable_results (this : SelectResolver) (resCol : ResultColumn) :
    ∃ col : Column, (resolveDbAndTable this resCol).currentCoreResults = this.currentCoreResults ++ [col] := by
  unfold resolveDbAndTable
  simp only
  split
  · exact ⟨_, rfl⟩
  · split
    · exact ⟨_, rfl⟩
    · split <;> exact ⟨_, rfl⟩

theorem resolveExpr_sources (this : SelectResolver) (resCol : ResultColumn) :
    (resolveExpr this resCol).currentCoreSourceColumns = this.currentCoreSourceColumns := by
  unfold resolveExpr
  simp only
  split
  · rfl
  · exact resolveDbAndTable_sources this resCol

theorem resolveExpr_results (this : SelectResolver) (resCol : ResultColumn) :
    ∃ col : Column, (resolveExpr this resCol).currentCoreResults = this.currentCoreResults ++ [col] := by
  unfold resolveExpr
  simp only
  split
  · exact ⟨_, rfl⟩
  · exact resolveDbAndTable_results this resCol

theorem resolveResultColumn_sources (this : SelectResolver) (resCol : ResultColumn) :
    (resolveResultColumn this resCol).currentCoreSourceColumns = this.currentCoreSourceColumns := by
  unfold resolveResultColumn
  split
  · exact resolveStar_sources this resCol
  · exact resolveExpr_sources this resCol

theorem resolveResultColumn_length (this : SelectResolver) (resCol : ResultColumn) :
    (resolveResultColumn this resCol).currentCoreResults.length =
      this.currentCoreResults.length + expandedCount this.currentCoreSourceColumns resCol := by
  unfold resolveResultColumn expandedCount
  cases h : resCol.star
  · obtain ⟨col, hc⟩ := resolveExpr_results this resCol
    simp [hc]
  · simp [resolveStar_results]

theorem foldl_resolveResultColumn (l : List ResultColumn) : ∀ this : SelectResolver,
    (l.foldl resolveResultColumn this).currentCoreSourceColumns = this.currentCoreSourceColumns ∧
    (l.foldl resolveResultColumn this).currentCoreResults.length =
      this.currentCoreResults.length + (l.map (expandedCount this.currentCoreSourceColumns)).sum := by
  induction l with
  | nil => intro this; simp
  | cons rc rest ih =>
    intro this
    obtain ⟨h1, h2⟩ := ih (resolveResultColumn this rc)
    rw [List.foldl_cons]
    refine ⟨by rw [h1, resolveResultColumn_sources], ?_⟩
    rw [h2, resolveResultColumn_length, resolveResultColumn_sources]
    simp only [List.map_cons, List.sum_cons]
    omega

theorem resolveCoreResults_length (this : SelectResolver) (parent : Option SqliteSelect) (core : Core) :
    (resolveCoreResults this parent core).currentCoreResults.length =
      this.currentCoreResults.length +
        (core.resultColumns.map (expandedCount this.currentCoreSourceColumns)).sum := by
  have h := (foldl_resolveResultColumn core.resultColumns this).2
  unfold resolveCoreResults
  simp only
  have hm : ∀ (f : Nat) (l : List Column), (markCurrentColumnsWithFlag f l).length = l.length := by
    intro f l; simp [markCurrentColumnsWithFlag]
  rw [← h]
  cases parent with
  | none =>
    dsimp only
    split_ifs <;>
      simp [markDistinctColumns, markGroupedColumns, hm, fixColumnNames_length]
  | some select =>
    dsimp only
    split_ifs <;>
      simp [markCompoundColumns, markDistinctColumns, markGroupedColumns, hm, fixColumnNames_length]


/-! ## Source resolution leaves the core state alone -/

theorem sameCoreState_refl (a : SelectResolver) : sameCoreState a a :=
  ⟨rfl, rfl, rfl, rfl, rfl, rfl⟩

theorem sameCoreState_trans {a b c : SelectResolver} (h1 : sameCoreState a b)
    (h2 : sameCoreState b c) : sameCoreState a c :=
  ⟨h2.1.trans h1.1, h2.2.1.trans h1.2.1, h2.2.2.1.trans h1.2.2.1,
    h2.2.2.2.1.trans h1.2.2.2.1, h2.2.2.2.2.1.trans h1.2.2.2.2.1,
    h2.2.2.2.2.2.trans h1.2.2.2.2.2⟩

theorem getTableColumns_state (db : Db) (this : SelectResolver) (d t a : QString) :
    sameCoreState this (getTableColumns db this d t a).2 := by
  unfold getTableColumns
  dsimp only
  split
  · exact sameCoreState_refl _
  · exact ⟨rfl, rfl, rfl, rfl, rfl, rfl⟩

theorem resolvePlainTable_state (db : Db) (this : SelectResolver) (s : SingleSource) :
    sameCoreState this (resolvePlainTable db this s).2 := by
  unfold resolvePlainTable
  exact getTableColumns_state db this _ _ _

theorem resolveTableFunctionColumns_state (db : Db) (this : SelectResolver) (s : SingleSource) :
    sameCoreState this (resolveTableFunctionColumns db this s).2 := by
  unfold resolveTableFunctionColumns
  dsimp only
  split
  · exact ⟨rfl, rfl, rfl, rfl, rfl, rfl⟩
  · exact sameCoreState_refl _

theorem foldlM_state (db : Db) (fuel : Nat)
    (ih : ∀ (this : SelectResolver) (s : Option SingleSource) (r : List Column × SelectResolver),
      resolveSingleSource fuel db this s = some r → sameCoreState this r.2)
    (l : List JoinSourceOther) : ∀ (acc r : List Column × SelectResolver),
    l.foldlM
        (fun (acc : List Column × SelectResolver) otherSrc =>
          match resolveSingleSource fuel db acc.2 otherSrc.singleSource with
          | none => none
          | some (columns, this1) => some (acc.1 ++ columns, this1))
        acc = some r → sameCoreState acc.2 r.2 := by
  induction l with
  | nil =>
    intro acc r h
    simp only [List.foldlM_nil] at h
    cases h
    exact sameCoreState_refl _
  | cons o rest ihl =>
    intro acc r h
    rw [List.foldlM_cons] at h
    cases hs : resolveSingleSource fuel db acc.2 o.singleSource with
    | none => simp [hs] at h
    | some p =>
      obtain ⟨columns, this1⟩ := p
      simp only [hs] at h
      have h1 := ih acc.2 o.singleSource _ hs
      have h2 := ihl (acc.1 ++ columns, this1) r h
      exact sameCoreState_trans h1 h2

theorem resolveSources_state (db : Db) : ∀ fuel : Nat,
    (∀ (this : SelectResolver) (js : JoinSource) (r : List Column × SelectResolver),
      resolveJoinSource fuel db this js = some r → sameCoreState this r.2) ∧
    (∀ (this : SelectResolver) (s : Option SingleSource) (r : List Column × SelectResolver),
      resolveSingleSource fuel db this s = some r → sameCoreState this r.2) := by
  intro fuel
  induction fuel with
  | zero =>
    constructor
    · intro this js r h; simp [resolveJoinSource] at h
    · intro this s r h; simp [resolveSingleSource] at h
  | succ f ih =>
    obtain ⟨ihJ, ihS⟩ := ih
    constructor
    · intro this js r h
      rw [resolveJoinSource] at h
      cases hs : resolveSingleSource f db this js.singleSource with
      | none => simp [hs] at h
      | some first =>
        simp only [hs] at h
        exact sameCoreState_trans (ihS this _ first hs) (foldlM_state db f ihS _ first r h)
    · intro this s r h
      cases s with
      | none =>
        simp only [resolveSingleSource, Option.some.injEq] at h
        subst h; exact sameCoreState_refl _
      | some joinSrc =>
        rw [resolveSingleSource] at h
        repeat' split at h
        all_goals first
          | exact ihJ this _ r h
          | (simp only [Option.some.injEq] at h
             subst h
             first
               | exact sameCoreState_refl _
               | exact resolveTableFunctionColumns_state db this joinSrc
               | exact resolvePlainTable_state db this joinSrc)
          | cases h


/-! ## Fuel: more fuel keeps a result, and resolution ends without views -/

theorem foldlM_fuel_mono (db : Db) (f g : Nat)
    (ih : ∀ this s r, resolveSingleSource f db this s = some r →
      resolveSingleSource g db this s = some r)
    (l : List JoinSourceOther) : ∀ (acc r : List Column × SelectResolver),
    l.foldlM
        (fun (acc : List Column × SelectResolver) otherSrc =>
          match resolveSingleSource f db acc.2 otherSrc.singleSource with
          | none => none
          | some (columns, this1) => some (acc.1 ++ columns, this1))
        acc = some r →
    l.foldlM
        (fun (acc : List Column × SelectResolver) otherSrc =>
          match resolveSingleSource g db acc.2 otherSrc.singleSource with
          | none => none
          | some (columns, this1) => some (acc.1 ++ columns, this1))
        acc = some r := by
  induction l with
  | nil => intro acc r h; exact h
  | cons o rest ihl =>
    intro acc r h
    rw [List.foldlM_cons] at h ⊢
    cases hs : resolveSingleSource f db acc.2 o.singleSource with
    | none => simp [hs] at h
    | some p =>
      obtain ⟨columns, this1⟩ := p
      simp only [hs] at h
      rw [ih _ _ _ hs]
      exact ihl _ r h

theorem fuel_mono (db : Db) : ∀ f g : Nat, f ≤ g → FuelMono db f g := by
  intro f
  induction f with
  | zero =>
    intro g _
    refine ⟨?_, ?_, ?_, ?_, ?_, ?_⟩
    · intro this parent core r h; simp [resolveCore] at h
    · intro this js r h; simp [resolveJoinSource] at h
    · intro this s r h; simp [resolveSingleSource] at h
    · intro this s r h; simp [resolveSingleSourceSubSelect] at h
    · intro this sel r h; simp [resolveSubSelect] at h
    · intro this d n a r h; simp [resolveView] at h
  | succ f ih =>
    intro g hg
    obtain ⟨g, rfl⟩ : ∃ g', g = g' + 1 := ⟨g - 1, by omega⟩
    obtain ⟨ihC, ihJ, ihS, ihSS, ihSub, ihV⟩ := ih g (by omega)
    refine ⟨?_, ?_, ?_, ?_, ?_, ?_⟩
    · intro this parent core r h
      rw [resolveCore] at h ⊢
      cases hf : core.from_ with
      | none => simpa [hf] using h
      | some js =>
        simp only [hf] at h ⊢
        cases hj : resolveJoinSource f db this js with
        | none => simp [hj] at h
        | some a =>
          rw [ihJ _ _ _ hj]
          simpa [hj] using h
    · intro this js r h
      rw [resolveJoinSource] at h ⊢
      cases hs : resolveSingleSource f db this js.singleSource with
      | none => simp [hs] at h
      | some first =>
        simp only [hs] at h
        rw [ihS _ _ _ hs]
        exact foldlM_fuel_mono db f g ihS _ _ _ h
    · intro this s r h
      cases s with
      | none =>
        simp only [resolveSingleSource] at h ⊢
        exact h
      | some joinSrc =>
        rw [resolveSingleSource] at h ⊢
        cases hsel : joinSrc.select with
        | some select =>
          simp only [hsel] at h ⊢
          cases hsub : resolveSingleSourceSubSelect f db this joinSrc with
          | none => simp [hsub] at h
          | some cols =>
            rw [ihSS _ _ _ hsub]
            simpa [hsub] using h
        | none =>
          simp only [hsel] at h ⊢
          cases hjs : joinSrc.joinSource with
          | some nested =>
            simp only [hjs] at h ⊢
            exact ihJ _ _ _ h
          | none =>
            simp only [hjs] at h ⊢
            split_ifs at h ⊢
            all_goals first
              | exact h
              | (cases hv : resolveView f db this joinSrc.database joinSrc.table joinSrc.alias_ with
                 | none => simp [hv] at h
                 | some cols =>
                   rw [ihV _ _ _ _ _ hv]
                   simpa [hv] using h)
    · intro this joinSrc r h
      rw [resolveSingleSourceSubSelect] at h ⊢
      cases hsel : joinSrc.select with
      | none => simpa [hsel] using h
      | some select =>
        simp only [hsel] at h ⊢
        cases hsub : resolveSubSelect f db this select with
        | none => simp [hsub] at h
        | some cols =>
          rw [ihSub _ _ _ hsub]
          simpa [hsub] using h
    · intro this sel r h
      rw [resolveSubSelect] at h ⊢
      dsimp only at h ⊢
      split_ifs at h ⊢
      all_goals first
        | exact h
        | (cases hcs : sel.coreSelects with
           | nil => simpa [hcs] using h
           | cons core0 rest =>
             simp only [hcs] at h ⊢
             cases hc : resolveCore f db
                 (extractCteOfCore { ({} : SelectResolver) with errors := [] } (some sel))
                 (some sel) core0 with
             | none => simp [hc] at h
             | some a =>
               rw [ihC _ _ _ _ hc]
               simpa [hc] using h)
    · intro this d n a r h
      rw [resolveView] at h ⊢
      cases hp : db.getParsedObject d n with
      | null => simpa [hp] using h
      | notCreateView => simpa [hp] using h
      | createView select =>
        simp only [hp] at h ⊢
        cases hsub : resolveSubSelect f db this select with
        | none => simp [hsub] at h
        | some cols =>
          rw [ihSub _ _ _ hsub]
          simpa [hsub] using h

theorem otherSources_fuel (db : Db) (l : List JoinSourceOther)
    (h : ∀ o ∈ l, ∃ fuel, ∀ this, ∃ r, resolveSingleSource fuel db this o.singleSource = some r) :
    ∃ fuel, ∀ o ∈ l, ∀ this, ∃ r, resolveSingleSource fuel db this o.singleSource = some r := by
  induction l with
  | nil => exact ⟨0, fun o ho => absurd ho (List.not_mem_nil o)⟩
  | cons o rest ih =>
    obtain ⟨f1, h1⟩ := h o (List.mem_cons_self _ _)
    obtain ⟨f2, h2⟩ := ih (fun o' ho' => h o' (List.mem_cons_of_mem _ ho'))
    refine ⟨max f1 f2, ?_⟩
    intro o' ho' this
    rcases List.mem_cons.mp ho' with rfl | ho'
    · obtain ⟨r, hr⟩ := h1 this
      exact ⟨r, (fuel_mono db f1 (max f1 f2) (le_max_left _ _)).2.2.1 _ _ _ hr⟩
    · obtain ⟨r, hr⟩ := h2 o' ho' this
      exact ⟨r, (fuel_mono db f2 (max f1 f2) (le_max_right _ _)).2.2.1 _ _ _ hr⟩

theorem foldlM_terminates (db : Db) (fuel : Nat) (l : List JoinSourceOther)
    (h : ∀ o ∈ l, ∀ this, ∃ r, resolveSingleSource fuel db this o.singleSource = some r) :
    ∀ acc : List Column × SelectResolver, ∃ r,
    l.foldlM
        (fun (acc : List Column × SelectResolver) otherSrc =>
          match resolveSingleSource fuel db acc.2 otherSrc.singleSource with
          | none => none
          | some (columns, this1) => some (acc.1 ++ columns, this1))
        acc = some r := by
  induction l with
  | nil => intro acc; exact ⟨acc, rfl⟩
  | cons o rest ih =>
    intro acc
    obtain ⟨r1, hr1⟩ := h o (List.mem_cons_self _ _) acc.2
    obtain ⟨r, hr⟩ := ih (fun o' ho' => h o' (List.mem_cons_of_mem _ ho')) (acc.1 ++ r1.1, r1.2)
    refine ⟨r, ?_⟩
    rw [List.foldlM_cons]
    simp only [hr1]
    exact hr

theorem terminates (db : Db) (hv : ∀ d n, isView db d n = false) : ∀ n, Terminates db n := by
  intro n
  induction n using Nat.strong_induction_on with
  | _ n ih =>
    have ihJ : ∀ js : JoinSource, sizeOf js < n →
        ∃ fuel, ∀ this, ∃ r, resolveJoinSource fuel db this js = some r :=
      fun js h => (ih (sizeOf js) h).2.1 js (le_refl _)
    have ihS : ∀ s : Option SingleSource, sizeOf s < n →
        ∃ fuel, ∀ this, ∃ r, resolveSingleSource fuel db this s = some r :=
      fun s h => (ih (sizeOf s) h).2.2.1 s (le_refl _)
    have ihC : ∀ core : Core, sizeOf core < n →
        ∃ fuel, ∀ this parent, ∃ r, resolveCore fuel db this parent core = some r :=
      fun c h => (ih (sizeOf c) h).1 c (le_refl _)
    have ihSub : ∀ sel : SqliteSelect, sizeOf sel < n →
        ∃ fuel, ∀ this, ∃ r, resolveSubSelect fuel db this sel = some r :=
      fun s h => (ih (sizeOf s) h).2.2.2 s (le_refl _)
    refine ⟨?_, ?_, ?_, ?_⟩
    · -- resolveCore
      intro core hsz
      obtain ⟨from_, rcs, d, g⟩ := core
      cases from_ with
      | none =>
        refine ⟨1, fun this parent => ?_⟩
        rw [resolveCore]
        exact ⟨_, rfl⟩
      | some js =>
        have hlt : sizeOf js < n := by
          simp only [Core.mk.sizeOf_spec, Option.some.sizeOf_spec] at hsz; omega
        obtain ⟨f, hf⟩ := ihJ js hlt
        refine ⟨f + 1, fun this parent => ?_⟩
        obtain ⟨r, hr⟩ := hf this
        rw [resolveCore]
        simp only [Core.from_, hr]
        exact ⟨_, rfl⟩
    · -- resolveJoinSource
      intro js hsz
      obtain ⟨ss, others⟩ := js
      simp only [JoinSource.mk.sizeOf_spec] at hsz
      obtain ⟨f0, hf0⟩ := ihS ss (by omega)
      have hothers : ∀ o ∈ others,
          ∃ fuel, ∀ this, ∃ r, resolveSingleSource fuel db this o.singleSource = some r := by
        intro o ho
        have h1 := List.sizeOf_lt_of_mem ho
        obtain ⟨s⟩ := o
        simp only [JoinSourceOther.mk.sizeOf_spec] at h1
        exact ihS s (by omega)
      obtain ⟨f1, hf1⟩ := otherSources_fuel db others hothers
      refine ⟨max f0 f1 + 1, fun this => ?_⟩
      obtain ⟨r0, hr0⟩ := hf0 this
      have hr0' := (fuel_mono db f0 (max f0 f1) (le_max_left _ _)).2.2.1 _ _ _ hr0
      have hall : ∀ o ∈ others, ∀ this, ∃ r,
          resolveSingleSource (max f0 f1) db this o.singleSource = some r := by
        intro o ho this
        obtain ⟨r, hr⟩ := hf1 o ho this
        exact ⟨r, (fuel_mono db f1 (max f0 f1) (le_max_right _ _)).2.2.1 _ _ _ hr⟩
      obtain ⟨r, hr⟩ := foldlM_terminates db (max f0 f1) others hall r0
      refine ⟨r, ?_⟩
      rw [resolveJoinSource]
      simp only [JoinSource.singleSource, JoinSource.otherSources, hr0']
      exact hr
    · -- resolveSingleSource
      intro s hsz
      cases s with
      | none => exact ⟨1, fun this => ⟨([], this), by simp only [resolveSingleSource]⟩⟩
      | some joinSrc =>
        obtain ⟨sel, jsrc, fn, d, t, a, toks⟩ := joinSrc
        simp only [Option.some.sizeOf_spec, SingleSource.mk.sizeOf_spec] at hsz
        cases sel with
        | some select =>
          obtain ⟨f, hf⟩ := ihSub select (by simp only [Option.some.sizeOf_spec] at hsz; omega)
          refine ⟨f + 2, fun this => ?_⟩
          obtain ⟨r, hr⟩ := hf this
          rw [resolveSingleSource]
          simp only [SingleSource.select]
          rw [resolveSingleSourceSubSelect]
          simp only [SingleSource.select, hr]
          exact ⟨_, rfl⟩
        | none =>
          cases jsrc with
          | some nested =>
            obtain ⟨f, hf⟩ := ihJ nested (by simp only [Option.some.sizeOf_spec] at hsz; omega)
            refine ⟨f + 1, fun this => ?_⟩
            obtain ⟨r, hr⟩ := hf this
            refine ⟨r, ?_⟩
            rw [resolveSingleSource]
            simp only [SingleSource.select, SingleSource.joinSource]
            exact hr
          | none =>
            refine ⟨1, fun this => ?_⟩
            rw [resolveSingleSource]
            simp only [SingleSource.select, SingleSource.joinSource, hv, Bool.false_eq_true,
              if_false]
            split_ifs <;> exact ⟨_, rfl⟩
    · -- resolveSubSelect
      intro sel hsz
      obtain ⟨cores, w⟩ := sel
      cases cores with
      | nil =>
        refine ⟨1, fun this => ⟨[], ?_⟩⟩
        rw [resolveSubSelect]
        simp [SqliteSelect.coreSelects]
      | cons core0 rest =>
        have hlt : sizeOf core0 < n := by
          simp only [SqliteSelect.mk.sizeOf_spec, List.cons.sizeOf_spec] at hsz; omega
        obtain ⟨f, hf⟩ := ihC core0 hlt
        refine ⟨f + 1, fun this => ?_⟩
        obtain ⟨r, hr⟩ := hf
          (extractCteOfCore { ({} : SelectResolver) with errors := [] }
            (some (SqliteSelect.mk (core0 :: rest) w)))
          (some (SqliteSelect.mk (core0 :: rest) w))
        rw [resolveSubSelect]
        dsimp only
        simp only [SqliteSelect.coreSelects, hr]
        split_ifs <;> exact ⟨_, rfl⟩

theorem resolveCore_terminates (db : Db) (hv : ∀ d n, isView db d n = false) (core : Core) :
    ∃ fuel, ∀ this parent, ∃ r, resolveCore fuel db this parent core = some r :=
  (terminates db hv (sizeOf core)).1 core (le_refl _)

theorem resolveCores_fuel_mono (db : Db) (f g : Nat) (hfg : f ≤ g) (select : SqliteSelect)
    (cores : List Core) : ∀ this r, resolveCores f db select this cores = some r →
      resolveCores g db select this cores = some r := by
  induction cores with
  | nil => intro this r h; exact h
  | cons core rest ih =>
    intro this r h
    rw [resolveCores] at h ⊢
    cases hc : resolveCore f db this (some select) core with
    | none => simp [hc] at h
    | some a =>
      obtain ⟨columns, this1⟩ := a
      simp only [hc] at h
      rw [(fuel_mono db f g hfg).1 _ _ _ _ hc]
      dsimp only
      cases hr : resolveCores f db select { this1 with currentCoreResults := [] } rest with
      | none => simp [hr] at h
      | some b =>
        rw [ih _ _ hr]
        simpa [hr] using h

theorem resolveCores_terminates (db : Db) (hv : ∀ d n, isView db d n = false)
    (select : SqliteSelect) (cores : List Core) :
    ∃ fuel, ∀ this, ∃ r, resolveCores fuel db select this cores = some r := by
  induction cores with
  | nil => exact ⟨0, fun this => ⟨_, rfl⟩⟩
  | cons core rest ih =>
    obtain ⟨f1, h1⟩ := resolveCore_terminates db hv core
    obtain ⟨f2, h2⟩ := ih
    refine ⟨max f1 f2, fun this => ?_⟩
    obtain ⟨r1, hr1⟩ := h1 this (some select)
    obtain ⟨r2, hr2⟩ := h2 { r1.2 with currentCoreResults := [] }
    have e1 := (fuel_mono db f1 (max f1 f2) (le_max_left _ _)).1 _ _ _ _ hr1
    have e2 := resolveCores_fuel_mono db f2 (max f1 f2) (le_max_right _ _) select rest _ _ hr2
    rw [resolveCores, e1]
    dsimp only
    rw [e2]
    exact ⟨_, rfl⟩

/-- With a catalog without views, `resolve(select)` returns for every select, given enough
fuel. -/
theorem resolve_terminates (db : Db) (hv : ∀ d n, isView db d n = false) (select : SqliteSelect) :
    ∃ fuel, ∀ this, ∃ r, resolve fuel db this select = some r := by
  obtain ⟨f, hf⟩ := resolveCores_terminates db hv select select.coreSelects
  exact ⟨f, fun this => hf _⟩

/-- With a catalog without views, `resolve(core)` returns for every core, given enough
fuel. -/
theorem resolveOfCore_terminates (db : Db) (hv : ∀ d n, isView db d n = false) (core : Core) :
    ∃ fuel, ∀ this parent, ∃ r, resolveOfCore fuel db this parent core = some r := by
  obtain ⟨f, hf⟩ := resolveCore_terminates db hv core
  exact ⟨f, fun this parent => hf _ parent⟩


/-! ## Length of the result list, compound selects -/

theorem extractCteOfCore_state (this : SelectResolver) (parent : Option SqliteSelect) :
    (extractCteOfCore this parent).currentCoreResults = this.currentCoreResults ∧
    (extractCteOfCore this parent).currentCoreSourceColumns = this.currentCoreSourceColumns := by
  cases parent with
  | none => exact ⟨rfl, rfl⟩
  | some select =>
    unfold extractCteOfCore extractCte
    dsimp only
    split <;> exact ⟨rfl, rfl⟩

/-- Claim C1: a core resolved on a new resolver returns as many columns as its declared
result columns stand for: the available source columns matching it for a star, one for
every other result column.  The resolution returns whenever the catalog has no view. -/
theorem resolveOfCore_length (db : Db) (m : BiStrHash) (b1 b2 : Bool)
    (parent : Option SqliteSelect) (core : Core) :
    (∀ (fuel : Nat) (r : List Column × SelectResolver),
      resolveOfCore (fuel + 1) db (SelectResolver.new m b1 b2) parent core = some r →
      ∃ a, resolveAvailableColumnsOfCore fuel db (SelectResolver.new m b1 b2) parent core = some a ∧
        r.1.length = (core.resultColumns.map (expandedCount a.1)).sum) ∧
    ((∀ d n, isView db d n = false) →
      ∃ fuel r, resolveOfCore (fuel + 1) db (SelectResolver.new m b1 b2) parent core = some r) := by
  constructor
  · intro fuel r h
    unfold resolveOfCore at h
    unfold resolveAvailableColumnsOfCore resolveAvailableCoreColumns
    obtain ⟨e1, e2⟩ := extractCteOfCore_state { SelectResolver.new m b1 b2 with errors := [] } parent
    have e1' : (extractCteOfCore { SelectResolver.new m b1 b2 with errors := [] }
        parent).currentCoreResults = [] := e1
    have e2' : (extractCteOfCore { SelectResolver.new m b1 b2 with errors := [] }
        parent).currentCoreSourceColumns = [] := e2
    generalize extractCteOfCore { SelectResolver.new m b1 b2 with errors := [] } parent = this0
      at h e1' e2' ⊢
    rw [resolveCore] at h
    cases hf : core.from_ with
    | none =>
      simp only [hf, Option.some.injEq] at h
      refine ⟨([], this0), rfl, ?_⟩
      rw [← h]
      simp only
      rw [resolveCoreResults_length, e1', e2']
      simp
    | some js =>
      simp only [hf] at h
      cases hj : resolveJoinSource fuel db this0 js with
      | none => simp [hj] at h
      | some a =>
        obtain ⟨columns, this1⟩ := a
        simp only [hj, Option.some.injEq] at h
        refine ⟨(columns, this1), hj, ?_⟩
        rw [← h]
        simp only
        rw [resolveCoreResults_length]
        have hs := (resolveSources_state db fuel).1 this0 js _ hj
        have : this1.currentCoreResults = [] := by rw [hs.2.2.2.2.2, e1']
        simp [this]
  · intro hv
    obtain ⟨f, hf⟩ := resolveCore_terminates db hv core
    obtain ⟨r, hr⟩ := hf (extractCteOfCore { SelectResolver.new m b1 b2 with errors := [] } parent) parent
    exact ⟨f, r, (fuel_mono db f (f + 1) (Nat.le_succ f)).1 _ _ _ _ hr⟩

theorem resolveOfCore_length_witness :
    resolveOfCore 3 exampleDb (SelectResolver.new {} false false) (some selectAA) coreAA = some resultAA ∧
    resultAA.1.length = 2 ∧
    ∃ a, resolveAvailableColumnsOfCore 2 exampleDb (SelectResolver.new {} false false) (some selectAA) coreAA
        = some a ∧
      resultAA.1.length = (coreAA.resultColumns.map (expandedCount a.1)).sum :=
  ⟨by decide, by decide,
    (resolveOfCore_length exampleDb {} false false (some selectAA) coreAA).1 2 resultAA (by decide)⟩

theorem hasFlag_or (x f : Nat) (hf : f ≠ 0) : hasFlag (x ||| f) f = true := by
  have : (x ||| f) &&& f = f := by
    apply Nat.eq_of_testBit_eq
    intro i
    rw [Nat.testBit_and, Nat.testBit_or]
    cases x.testBit i <;> cases f.testBit i <;> rfl
  simp [hasFlag, this, hf]

theorem resolveCoreResults_compound (this : SelectResolver) (select : SqliteSelect) (core : Core)
    (hk : 1 < select.coreSelects.length) :
    ∀ c ∈ (resolveCoreResults this (some select) core).currentCoreResults,
      hasFlag c.flags FROM_COMPOUND_SELECT = true := by
  unfold resolveCoreResults
  simp only [gt_iff_lt, hk, if_true]
  intro c hc
  simp only [markCompoundColumns, markCurrentColumnsWithFlag, List.mem_map] at hc
  obtain ⟨c0, _, rfl⟩ := hc
  exact hasFlag_or _ _ (by decide)

theorem resolveCore_compound (fuel : Nat) (db : Db) (this : SelectResolver) (select : SqliteSelect)
    (core : Core) (r : List Column × SelectResolver) (hk : 1 < select.coreSelects.length)
    (h : resolveCore fuel db this (some select) core = some r) :
    ∀ c ∈ r.1, hasFlag c.flags FROM_COMPOUND_SELECT = true := by
  cases fuel with
  | zero => simp [resolveCore] at h
  | succ f =>
    rw [resolveCore] at h
    split at h
    · split at h
      · cases h
      · simp only [Option.some.injEq] at h
        subst h
        exact resolveCoreResults_compound _ select core hk
    · simp only [Option.some.injEq] at h
      subst h
      exact resolveCoreResults_compound _ select core hk

theorem resolveCores_spec (fuel : Nat) (db : Db) (select : SqliteSelect) (cores : List Core) :
    ∀ (this : SelectResolver) (r : List (List Column) × SelectResolver),
    resolveCores fuel db select this cores = some r →
    r.1.length = cores.length ∧
    (1 < select.coreSelects.length → ∀ l ∈ r.1, ∀ c ∈ l, hasFlag c.flags FROM_COMPOUND_SELECT = true) := by
  induction cores with
  | nil =>
    intro this r h
    simp only [resolveCores, Option.some.injEq] at h
    subst h
    simp
  | cons core rest ih =>
    intro this r h
    rw [resolveCores] at h
    cases hc : resolveCore fuel db this (some select) core with
    | none => simp [hc] at h
    | some a =>
      obtain ⟨columns, this1⟩ := a
      simp only [hc] at h
      cases hr : resolveCores fuel db select { this1 with currentCoreResults := [] } rest with
      | none => simp [hr] at h
      | some b =>
        obtain ⟨results, this2⟩ := b
        simp only [hr, Option.some.injEq] at h
        subst h
        obtain ⟨i1, i2⟩ := ih _ _ hr
        refine ⟨by simp [i1], ?_⟩
        intro hk l hl
        rcases List.mem_cons.mp hl with rfl | hl
        · exact resolveCore_compound fuel db this select core _ hk hc
        · exact i2 hk l hl

theorem resolveResultColumn_config (this : SelectResolver) (resCol : ResultColumn) :
    sameConfig this (resolveResultColumn this resCol) := by
  unfold resolveResultColumn
  split
  · unfold resolveStar
    dsimp only
    split <;> exact ⟨rfl, rfl, rfl, rfl⟩
  · unfold resolveExpr
    dsimp only
    split
    · exact ⟨rfl, rfl, rfl, rfl⟩
    · unfold resolveDbAndTable
      dsimp only
      split
      · exact ⟨rfl, rfl, rfl, rfl⟩
      · split
        · exact ⟨rfl, rfl, rfl, rfl⟩
        · split <;> exact ⟨rfl, rfl, rfl, rfl⟩

theorem foldl_resolveResultColumn_config (l : List ResultColumn) : ∀ this : SelectResolver,
    sameConfig this (l.foldl resolveResultColumn this) := by
  induction l with
  | nil => intro this; exact ⟨rfl, rfl, rfl, rfl⟩
  | cons rc rest ih =>
    intro this
    have h1 := resolveResultColumn_config this rc
    have h2 := ih (resolveResultColumn this rc)
    simp only [List.foldl_cons]
    exact ⟨h2.1.trans h1.1, h2.2.1.trans h1.2.1, h2.2.2.1.trans h1.2.2.1, h2.2.2.2.trans h1.2.2.2⟩

theorem resolveCoreResults_config (this : SelectResolver) (parent : Option SqliteSelect)
    (core : Core) : sameConfig this (resolveCoreResults this parent core) := by
  have h := foldl_resolveResultColumn_config core.resultColumns this
  unfold resolveCoreResults
  dsimp only
  cases core.distinctKw <;> cases hg : decide (core.groupBy.length > 0) <;> cases parent <;>
    simp only [decide_eq_true_eq, decide_eq_false_iff_not] at hg <;>
    simp only [hg, if_true, if_false, Bool.false_eq_true] <;>
    first
      | exact h
      | (split <;> exact h)

theorem sameConfig_trans {a b c : SelectResolver} (h1 : sameConfig a b) (h2 : sameConfig b c) :
    sameConfig a c :=
  ⟨h2.1.trans h1.1, h2.2.1.trans h1.2.1, h2.2.2.1.trans h1.2.2.1, h2.2.2.2.trans h1.2.2.2⟩

theorem resolveCore_config (fuel : Nat) (db : Db) (this : SelectResolver)
    (parent : Option SqliteSelect) (core : Core) (r : List Column × SelectResolver)
    (h : resolveCore fuel db this parent core = some r) : sameConfig this r.2 := by
  cases fuel with
  | zero => simp [resolveCore] at h
  | succ f =>
    rw [resolveCore] at h
    split at h
    · rename_i joinSrc _
      split at h
      · cases h
      · rename_i columns this1 hj
        simp only [Option.some.injEq] at h
        subst h
        have hs := (resolveSources_state db f).1 this joinSrc _ hj
        have hc := resolveCoreResults_config { this1 with currentCoreSourceColumns := columns }
          parent core
        exact sameConfig_trans ⟨hs.1, hs.2.1, hs.2.2.1, hs.2.2.2.1⟩ hc
    · simp only [Option.some.injEq] at h
      subst h
      exact resolveCoreResults_config this parent core

/-- The list at position `i` of what the loop over the cores returns is the list `resolveCore`
returns for the core at position `i`: for the first core in the state the loop starts in, for
a later core in a state with the attach map, switches and index of common table expressions
of the start and an empty `currentCoreResults`. -/
theorem resolveCores_order (fuel : Nat) (db : Db) (select : SqliteSelect) (cores : List Core) :
    ∀ (this : SelectResolver) (r : List (List Column) × SelectResolver),
    resolveCores fuel db select this cores = some r →
    ∀ (i : Nat) (core : Core), cores[i]? = some core →
    ∃ (l : List Column) (st st1 : SelectResolver),
      r.1[i]? = some l ∧ resolveCore fuel db st (some select) core = some (l, st1) ∧
      sameConfig this st ∧ (i = 0 → st = this) ∧ (0 < i → st.currentCoreResults = []) := by
  induction cores with
  | nil => intro this r _ i core hi; simp at hi
  | cons core0 rest ih =>
    intro this r h i core hi
    rw [resolveCores] at h
    cases hc : resolveCore fuel db this (some select) core0 with
    | none => simp [hc] at h
    | some a =>
      obtain ⟨columns, this1⟩ := a
      simp only [hc] at h
      cases hr : resolveCores fuel db select { this1 with currentCoreResults := [] } rest with
      | none => simp [hr] at h
      | some b =>
        obtain ⟨results, this2⟩ := b
        simp only [hr, Option.some.injEq] at h
        subst h
        cases i with
        | zero =>
          simp only [List.getElem?_cons_zero, Option.some.injEq] at hi
          subst hi
          exact ⟨columns, this, this1, by simp, hc, ⟨rfl, rfl, rfl, rfl⟩, fun _ => rfl,
            fun h0 => absurd h0 (Nat.lt_irrefl 0)⟩
        | succ j =>
          simp only [List.getElem?_cons_succ] at hi
          obtain ⟨l, st, st1, h1, h2, hcfg, h3, h4⟩ := ih _ _ hr j core hi
          have hc1 : sameConfig this this1 := resolveCore_config fuel db this _ core0 _ hc
          refine ⟨l, st, st1, ?_, h2, ?_, fun h0 => absurd h0 (Nat.succ_ne_zero j), fun _ => ?_⟩
          · simpa using h1
          · exact sameConfig_trans (sameConfig_trans hc1 ⟨rfl, rfl, rfl, rfl⟩) hcfg
          · cases j with
            | zero => rw [h3 rfl]
            | succ j2 => exact h4 (Nat.succ_pos _)

/-- Claim C4: for a compound select, `resolve(select)` returns one column list per core, in
the order of the cores, and every column of every list carries `FROM_COMPOUND_SELECT`: the
list at position `i` is the one `resolveCore` returns for the core at position `i`, for the
first core in the state `resolve` starts the loop in, for a later core in a state with the
same attach map, switches and index of common table expressions and an empty
`currentCoreResults`.  It returns whenever the catalog has no view. -/
theorem resolve_compound (db : Db) (this : SelectResolver) (select : SqliteSelect)
    (hk : 1 < select.coreSelects.length) :
    (∀ (fuel : Nat) (r : List (List Column) × SelectResolver),
      resolve fuel db this select = some r →
      r.1.length = select.coreSelects.length ∧
      (∀ l ∈ r.1, ∀ c ∈ l, hasFlag c.flags FROM_COMPOUND_SELECT = true) ∧
      (∀ (i : Nat) (core : Core), select.coreSelects[i]? = some core →
        ∃ (l : List Column) (st st1 : SelectResolver),
          r.1[i]? = some l ∧ resolveCore fuel db st (some select) core = some (l, st1) ∧
          sameConfig (extractCte { this with errors := [] } select) st ∧
          (i = 0 → st = extractCte { this with errors := [] } select) ∧
          (0 < i → st.currentCoreResults = []))) ∧
    ((∀ d n, isView db d n = false) → ∃ fuel r, resolve fuel db this select = some r) := by
  constructor
  · intro fuel r h
    unfold resolve at h
    obtain ⟨h1, h2⟩ := resolveCores_spec fuel db select select.coreSelects _ r h
    exact ⟨h1, h2 hk, resolveCores_order fuel db select select.coreSelects _ r h⟩
  · intro hv
    obtain ⟨f, hf⟩ := resolve_terminates db hv select
    obtain ⟨r, hr⟩ := hf this
    exact ⟨f, r, hr⟩

theorem resolve_compound_witness :
    1 < selectUnion.coreSelects.length ∧
    resolve 3 exampleDb (SelectResolver.new {} false false) selectUnion = some resultUnion ∧
    resultUnion.1.map (fun l => l.map (fun c => (c.table, c.column))) =
      [[(some "t", some "a")], [(some "u", some "a")]] ∧
    (resultUnion.1.length = selectUnion.coreSelects.length ∧
      (∀ l ∈ resultUnion.1, ∀ c ∈ l, hasFlag c.flags FROM_COMPOUND_SELECT = true) ∧
      (∀ (i : Nat) (core : Core), selectUnion.coreSelects[i]? = some core →
        ∃ (l : List Column) (st st1 : SelectResolver),
          resultUnion.1[i]? = some l ∧
          resolveCore 3 exampleDb st (some selectUnion) core = some (l, st1) ∧
          sameConfig (extractCte { SelectResolver.new {} false false with errors := [] }
            selectUnion) st ∧
          (i = 0 → st = extractCte { SelectResolver.new {} false false with errors := [] }
            selectUnion) ∧
          (0 < i → st.currentCoreResults = []))) :=
  ⟨by decide, by decide, by decide,
    (resolve_compound exampleDb (SelectResolver.new {} false false) selectUnion (by decide)).1 3
      resultUnion (by decide)⟩

/-! ## Identifier result columns -/

theorem resolveRowIdColumn_find (srcs : List Column) (expr : SqliteExpr) :
    resolveRowIdColumn srcs expr =
      (srcs.find? (fun column => !QString.isNull column.table &&
        (!QString.isNull expr.table && matchTable column expr.table))).getD {} := by
  induction srcs with
  | nil => rfl
  | cons c rest ih =>
    rw [resolveRowIdColumn, List.find?_cons]
    cases h1 : QString.isNull c.table <;>
      cases h2 : (!QString.isNull expr.table && matchTable c expr.table) <;>
      simp [h1, h2, ih]

theorem resolveExplicitColumn_find (srcs : List Column) (columnName : QString) :
    resolveExplicitColumn srcs columnName =
      (srcs.find? (fun c => nameMatches columnName c)).getD {} := by
  induction srcs with
  | nil => rfl
  | cons c rest ih =>
    rw [resolveExplicitColumn, List.find?_cons]
    unfold nameMatches
    cases h1 : QString.compareCI columnName c.column <;>
      cases h2 : QString.compareCI columnName c.alias_ <;>
      simp [h1, h2, ih, nameMatches]

theorem resolveExplicitColumnT_find (srcs : List Column) (table columnName : QString) :
    resolveExplicitColumnT srcs table columnName =
      (srcs.find? (fun c => nameMatches columnName c && matchTable c table)).getD {} := by
  induction srcs with
  | nil => rfl
  | cons c rest ih =>
    rw [resolveExplicitColumnT, List.find?_cons]
    unfold nameMatches
    cases h1 : QString.compareCI columnName c.column <;>
      cases h2 : QString.compareCI columnName c.alias_ <;>
      cases h3 : matchTable c table <;>
      simp [h1, h2, h3, ih, nameMatches]

theorem resolveExplicitColumnDT_find (srcs : List Column) (database table columnName : QString) :
    resolveExplicitColumnDT srcs database table columnName =
      (srcs.find? (fun c => nameMatches columnName c && matchTable c table &&
        QString.compareCI database c.database)).getD {} := by
  induction srcs with
  | nil => rfl
  | cons c rest ih =>
    rw [resolveExplicitColumnDT, List.find?_cons]
    unfold nameMatches
    cases h1 : QString.compareCI columnName c.column <;>
      cases h2 : QString.compareCI columnName c.alias_ <;>
      cases h3 : matchTable c table <;>
      cases h4 : QString.compareCI database c.database <;>
      simp [h1, h2, h3, h4, ih, nameMatches]

/-- The lookup of `resolveDbAndTable` returns the first source column that matches the
identifier, and the default column when none does. -/
theorem matchedSource_find (this : SelectResolver) (expr : SqliteExpr) :
    matchedSource this expr =
      (this.currentCoreSourceColumns.find? (identifierMatches expr)).getD {} := by
  unfold matchedSource
  have hfun : identifierMatches expr = fun column => identifierMatches expr column := rfl
  rw [hfun]
  unfold identifierMatches
  cases h1 : isRowIdKeyword expr.column
  · cases h2 : QString.isNull expr.database
    · simp only [Bool.false_eq_true, if_false, Bool.not_false, if_true]
      exact resolveExplicitColumnDT_find _ _ _ _
    · cases h3 : QString.isNull expr.table
      · simp only [Bool.false_eq_true, if_false, Bool.not_false, if_true, Bool.not_true]
        exact resolveExplicitColumnT_find _ _ _
      · simp only [Bool.false_eq_true, if_false, Bool.not_true]
        exact resolveExplicitColumn_find _ _
  · simp only [if_true]
    exact resolveRowIdColumn_find _ _


theorem fixColumnNamesLoop_frame (l : List Column) : ∀ ed ea : List String,
    (fixColumnNamesLoop ed ea l).map (fun c => (c.toTable, c.type, c.column, c.originalColumn)) =
      l.map (fun c => (c.toTable, c.type, c.column, c.originalColumn)) := by
  induction l with
  | nil => intro ed ea; rfl
  | cons col rest ih =>
    intro ed ea
    simp only [fixColumnNamesLoop, List.map_cons, ih]
    split_ifs <;> rfl

theorem fixColumnNames_frame (l : List Column) :
    (fixColumnNames l).map (fun c => (c.toTable, c.type, c.column, c.originalColumn)) =
      l.map (fun c => (c.toTable, c.type, c.column, c.originalColumn)) :=
  fixColumnNamesLoop_frame l [] []

theorem resolveOfCore_aliased (db : Db) (m : BiStrHash) (b1 b2 : Bool) (t a : String)
    (q : QString) (c : String) (hview : isView db none (some t) = false) :
    resolveOfCore 3 db (SelectResolver.new m b1 b2) none (coreAliased t a (idColumn 1 q c)) =
      some (fixColumnNames
              (resolveDbAndTable (aliasedState db m b1 b2 t a) (idColumn 1 q c)).currentCoreResults,
            { resolveDbAndTable (aliasedState db m b1 b2 t a) (idColumn 1 q c) with
              currentCoreResults := fixColumnNames
                (resolveDbAndTable (aliasedState db m b1 b2 t a) (idColumn 1 q c)).currentCoreResults }) := by
  have hv : isView db (SingleSource.database (plainSource t (some a)))
      (SingleSource.table (plainSource t (some a))) = false := hview
  have h1 : resolveSingleSource 1 db (SelectResolver.new m b1 b2) (some (plainSource t (some a))) =
      some (resolvePlainTable db (SelectResolver.new m b1 b2) (plainSource t (some a))) := by
    rw [resolveSingleSource]
    simp only [hv]
    rfl
  have h2 : resolveJoinSource 2 db (SelectResolver.new m b1 b2) (fromSources (plainSource t (some a)) []) =
      some (resolvePlainTable db (SelectResolver.new m b1 b2) (plainSource t (some a))) := by
    rw [resolveJoinSource]
    have : (fromSources (plainSource t (some a)) []).singleSource = some (plainSource t (some a)) := rfl
    rw [this, h1]
    rfl
  unfold resolveOfCore
  have h0 : extractCteOfCore { SelectResolver.new m b1 b2 with errors := [] } none =
      SelectResolver.new m b1 b2 := rfl
  rw [h0, resolveCore]
  have hf : (coreAliased t a (idColumn 1 q c)).from_ = some (fromSources (plainSource t (some a)) []) := rfl
  simp only [hf, h2]
  rfl

theorem aliasedState_sources (db : Db) (m : BiStrHash) (b1 b2 : Bool) (t a : String) (s : Column)
    (hs : s ∈ (aliasedState db m b1 b2 t a).currentCoreSourceColumns) :
    s.table = some t ∧ s.tableAlias = some a := by
  obtain ⟨n, _, hn⟩ := List.mem_map.mp hs
  rw [← hn]
  exact ⟨rfl, rfl⟩

theorem compareCI_self (q : QString) : QString.compareCI q q = true := by
  simp [QString.compareCI]

theorem resolveDbAndTable_matched (this : SelectResolver) (resCol : ResultColumn) (s : Column)
    (hfind : this.currentCoreSourceColumns.find? (identifierMatches resCol.expr) = some s)
    (ht : QString.isNull s.table = false) :
    resolveDbAndTable this resCol =
      { this with currentCoreResults := this.currentCoreResults ++
          [{ basicColumn resCol with
             database := s.database, originalDatabase := resolveDatabase this s.database,
             table := s.table, tableAlias := s.tableAlias, flags := s.flags }] } := by
  have hm : matchedSource this resCol.expr = s := by
    rw [matchedSource_find, hfind]; rfl
  unfold resolveDbAndTable
  simp only [hm, ht, Bool.not_false, if_true]
  rfl

theorem resolveDbAndTable_unmatched (this : SelectResolver) (resCol : ResultColumn)
    (hnone : ∀ c ∈ this.currentCoreSourceColumns, identifierMatches resCol.expr c = false) :
    resolveDbAndTable this resCol =
      { this with
        errors := if this.ignoreInvalidNames then this.errors
          else this.errors ++
            ["Could not resolve table for column '" ++ detokenize resCol.expr.tokens ++ "'."],
        currentCoreResults := this.currentCoreResults ++ [basicColumn resCol] } := by
  have hfind : this.currentCoreSourceColumns.find? (identifierMatches resCol.expr) = none := by
    rw [List.find?_eq_none]
    intro c hc
    simp [hnone c hc]
  have hm : matchedSource this resCol.expr = {} := by
    rw [matchedSource_find, hfind]; rfl
  unfold resolveDbAndTable
  simp only [hm]
  cases hi : this.ignoreInvalidNames <;> rfl

/-- Claim C6: with the plain table `t` in `FROM` as `t AS a`, the result column `a.c` resolves
to table `t` with table alias `a` and no error, and `t.c` matches no source and is left
without a table. -/
theorem alias_precedence (db : Db) (m : BiStrHash) (b1 b2 : Bool) (t a c : String)
    (hview : isView db none (some t) = false) (hc : c ∈ db.getTableColumns none (some t))
    (hne : toLower a ≠ toLower t) :
    (resolveOfCore 3 db (SelectResolver.new m b1 b2) none (coreAliased t a (idColumn 1 (some a) c))).map
        (fun r => (r.1.map (fun x => (x.table, x.tableAlias)), r.2.errors)) =
      some ([(some t, some a)], []) ∧
    (resolveOfCore 3 db (SelectResolver.new m b1 b2) none (coreAliased t a (idColumn 1 (some t) c))).map
        (fun r => (r.1.map (fun x => (x.table, x.tableAlias)), r.2.errors)) =
      some ([(none, none)],
        if b2 then [] else ["Could not resolve table for column '" ++ t ++ "." ++ c ++ "'."]) := by
  constructor
  · rw [resolveOfCore_aliased db m b1 b2 t a _ _ hview]
    -- the first matching source
    obtain ⟨s, hs⟩ : ∃ s, List.find? (identifierMatches (idColumn 1 (some a) c).expr)
        (aliasedState db m b1 b2 t a).currentCoreSourceColumns = some s := by
      rw [← Option.isSome_iff_exists, List.find?_isSome]
      refine ⟨plainColumn (SelectResolver.new m b1 b2) (plainSource t (some a)) c,
        List.mem_map_of_mem _ hc, ?_⟩
      unfold identifierMatches
      have e1 : (idColumn 1 (some a) c).expr.column = some c := rfl
      have e2 : (idColumn 1 (some a) c).expr.table = some a := rfl
      have e3 : (idColumn 1 (some a) c).expr.database = none := rfl
      rw [e1, e2, e3]
      have hmt : matchTable (plainColumn (SelectResolver.new m b1 b2) (plainSource t (some a)) c)
          (some a) = true := compareCI_self (some a)
      have hnm : nameMatches (some c)
          (plainColumn (SelectResolver.new m b1 b2) (plainSource t (some a)) c) = true := by
        unfold nameMatches
        have : (plainColumn (SelectResolver.new m b1 b2) (plainSource t (some a)) c).column = some c := rfl
        rw [this, compareCI_self]
        rfl
      have htab : QString.isNull
          (plainColumn (SelectResolver.new m b1 b2) (plainSource t (some a)) c).table = false := rfl
      rw [hmt, hnm, htab]
      split <;> rfl
    obtain ⟨ht1, ht2⟩ := aliasedState_sources db m b1 b2 t a s (List.mem_of_find?_eq_some hs)
    have ht : QString.isNull s.table = false := by rw [ht1]; rfl
    rw [resolveDbAndTable_matched _ _ s hs ht]
    simp only [Option.map_some']
    refine congrArg some (Prod.ext ?_ rfl)
    have hf := congrArg (List.map (fun p : Table × ColumnType × QString × Option Nat =>
      (p.1.table, p.1.tableAlias))) (fixColumnNames_frame
        ((aliasedState db m b1 b2 t a).currentCoreResults ++
          [{ basicColumn (idColumn 1 (some a) c) with
             database := s.database,
             originalDatabase := resolveDatabase (aliasedState db m b1 b2 t a) s.database,
             table := s.table, tableAlias := s.tableAlias, flags := s.flags }]))
    simp only [List.map_map] at hf
    refine Eq.trans hf ?_
    rw [ht1, ht2]
    rfl
  · rw [resolveOfCore_aliased db m b1 b2 t a _ _ hview]
    have hnone : ∀ s ∈ (aliasedState db m b1 b2 t a).currentCoreSourceColumns,
        identifierMatches (idColumn 1 (some t) c).expr s = false := by
      intro s hs
      obtain ⟨ht1, ht2⟩ := aliasedState_sources db m b1 b2 t a s hs
      have hmt : matchTable s (some t) = false := by
        unfold matchTable
        rw [ht2]
        simp [QString.isNull, QString.compareCI, QString.str, hne]
      unfold identifierMatches
      have e2 : (idColumn 1 (some t) c).expr.table = some t := rfl
      have e3 : (idColumn 1 (some t) c).expr.database = none := rfl
      rw [e2, e3, hmt]
      split <;> simp [QString.isNull]
    rw [resolveDbAndTable_unmatched _ _ hnone]
    simp only [Option.map_some']
    refine congrArg some (Prod.ext ?_ ?_)
    · have hf := congrArg (List.map (fun p : Table × ColumnType × QString × Option Nat =>
        (p.1.table, p.1.tableAlias))) (fixColumnNames_frame
          ((aliasedState db m b1 b2 t a).currentCoreResults ++ [basicColumn (idColumn 1 (some t) c)]))
      simp only [List.map_map] at hf
      exact hf
    · cases b2
      · show [] ++ ["Could not resolve table for column '" ++
            detokenize (idColumn 1 (some t) c).expr.tokens ++ "'."] = _
        have : detokenize (idColumn 1 (some t) c).expr.tokens = t ++ "." ++ c := by
          simp [detokenize, idColumn, tok]
        rw [this]
        rfl
      · rfl

theorem alias_precedence_witness :
    isView exampleDb none (some "t") = false ∧ "c" ∈ exampleDb.getTableColumns none (some "t") ∧
    toLower "x" ≠ toLower "t" ∧
    ((resolveOfCore 3 exampleDb (SelectResolver.new {} false false) none
        (coreAliased "t" "x" (idColumn 1 (some "x") "c"))).map
        (fun r => (r.1.map (fun x => (x.table, x.tableAlias)), r.2.errors)) =
      some ([(some "t", some "x")], []) ∧
    (resolveOfCore 3 exampleDb (SelectResolver.new {} false false) none
        (coreAliased "t" "x" (idColumn 1 (some "t") "c"))).map
        (fun r => (r.1.map (fun x => (x.table, x.tableAlias)), r.2.errors)) =
      some ([(none, none)],
        if false then [] else ["Could not resolve table for column '" ++ "t" ++ "." ++ "c" ++ "'."])) :=
  ⟨by decide, by decide, by decide,
    alias_precedence exampleDb {} false false "t" "x" "c" (by decide) (by decide) (by decide)⟩


/-! ## Repeated calls, stars, and the identifier path -/

/-- Claim C5, evaluated: the first call of `resolve(core)` for `SELECT a FROM t` returns the
column `a`; a second call on the same resolver returns two columns, `a` and `a:1`, because
`currentCoreResults` still holds the result of the first call. -/
theorem resolveOfCore_twice_accumulates :
    (resolveOfCore 3 exampleDb (SelectResolver.new {} false false) (some selectA) (coreA "t")).map
        (fun r => r.1.map (fun c => c.displayName)) = some [some "a"] ∧
    ((resolveOfCore 3 exampleDb (SelectResolver.new {} false false) (some selectA) (coreA "t")).bind
        (fun r => resolveOfCore 3 exampleDb r.2 (some selectA) (coreA "t"))).map
        (fun r => r.1.map (fun c => c.displayName)) = some [some "a", some "a:1"] := by
  decide

/-- Claim C7 fails as stated: `SELECT t.* FROM real t, other AS t` yields the column `x` of
`real` and the column `y` of `other`, and with an unaliased table `t` in place of `real t`
the three columns of `t` and the column of `other`. -/
theorem star_alias_shadow_counterexample :
    (resolveOfCore 3 exampleDb (SelectResolver.new {} false false) none coreShadow).map
        (fun r => r.1.map (fun c => (c.table, c.tableAlias, c.column))) =
      some [(some "real", some "t", some "x"), (some "other", some "t", some "y")] ∧
    (resolveOfCore 3 exampleDb (SelectResolver.new {} false false) none coreShadowTable).map
        (fun r => r.1.map (fun c => (c.table, c.tableAlias, c.column))) =
      some [(some "t", none, some "a"), (some "t", none, some "b"), (some "t", none, some "c"),
        (some "other", some "t", some "y")] := by
  decide

/-- Claim C7, amended: when the columns of one source satisfy the prefix rule for `t` (through
the alias `t`, or through the table `t` of a source without alias) and another source has the
alias `t`, the star `t.*` appends the columns of both, in the order of the sources. -/
theorem resolveStar_alias_and_table (this : SelectResolver) (resCol : ResultColumn) (t : String)
    (s1 s2 : List Column) (hp : resCol.table = some t)
    (hsrc : this.currentCoreSourceColumns = s1 ++ s2)
    (h1 : ∀ c ∈ s1, prefixRule c (some t) = true)
    (h2 : ∀ c ∈ s2, QString.isNull c.tableAlias = false ∧
      QString.compareCI c.tableAlias (some t) = true) :
    (resolveStar this resCol).currentCoreResults =
      this.currentCoreResults ++ (s1 ++ s2).map (starResult resCol) := by
  rw [resolveStar_results, hsrc]
  have hall : ∀ c ∈ s1 ++ s2, starMatches resCol c = true := by
    intro c hc
    unfold starMatches
    rw [hp]
    rcases List.mem_append.mp hc with hc | hc
    · rw [h1 c hc]; simp
    · obtain ⟨e1, e2⟩ := h2 c hc
      simp [prefixRule, e1, e2]
  rw [List.filter_eq_self.mpr hall]

theorem resolveStar_alias_and_table_witness :
    (starColumn 1 "t").table = some "t" ∧
    (∀ c ∈ (resolvePlainTable exampleDb {} (plainSource "t" none)).1, prefixRule c (some "t") = true) ∧
    (∀ c ∈ (resolvePlainTable exampleDb {} (plainSource "other" (some "t"))).1,
      QString.isNull c.tableAlias = false ∧ QString.compareCI c.tableAlias (some "t") = true) ∧
    (resolveStar stateShadow (starColumn 1 "t")).currentCoreResults =
      stateShadow.currentCoreResults ++
        ((resolvePlainTable exampleDb {} (plainSource "t" none)).1 ++
          (resolvePlainTable exampleDb {} (plainSource "other" (some "t"))).1).map
          (starResult (starColumn 1 "t")) :=
  ⟨rfl, by decide, by decide,
    resolveStar_alias_and_table stateShadow (starColumn 1 "t") "t" _ _ rfl rfl (by decide) (by decide)⟩

/-- Claim C8 fails as stated: the columns `resolveStar` appends for `t.*` over the sources of
`FROM t` are not the sources with only the display name set, since each also gets the star
result column as its `originalColumn`. -/
theorem resolveStar_originalColumn_counterexample :
    (resolveStar stateT (starColumn 1 "t")).currentCoreResults.map (fun c => c.originalColumn) =
      [some 1, some 1, some 1] ∧
    ((stateT.currentCoreSourceColumns.filter (starMatches (starColumn 1 "t"))).map withDisplayName).map
      (fun c => c.originalColumn) = [none, none, none] ∧
    decide ((resolveStar stateT (starColumn 1 "t")).currentCoreResults =
      stateT.currentCoreResults ++
        (stateT.currentCoreSourceColumns.filter (starMatches (starColumn 1 "t"))).map withDisplayName)
      = false := by
  decide

/-- Claim C8, amended: `resolveStar` appends exactly the source columns that satisfy the table
prefix rule (all of them without prefix), in source order, each with its display name set to
its alias, or to its column name when it has no alias, and with the star result column as its
`originalColumn`; the error is recorded exactly when no source column is selected. -/
theorem resolveStar_spec (this : SelectResolver) (resCol : ResultColumn) :
    (resolveStar this resCol).currentCoreResults =
      this.currentCoreResults ++
        (this.currentCoreSourceColumns.filter (starMatches resCol)).map
          (fun c => { withDisplayName c with originalColumn := some resCol.addr }) ∧
    (resolveStar this resCol).errors =
      (if (this.currentCoreSourceColumns.filter (starMatches resCol)).isEmpty then
        this.errors ++ ["Could not resolve data source for column: " ++ detokenize resCol.tokens]
      else this.errors) ∧
    (resolveStar this resCol).currentCoreSourceColumns = this.currentCoreSourceColumns :=
  ⟨resolveStar_results this resCol, resolveStar_errors this resCol, resolveStar_sources this resCol⟩

theorem resolveResultColumn_identifier (this : SelectResolver) (resCol : ResultColumn)
    (hstar : resCol.star = false) (hid : resCol.expr.mode = ExprMode.ID) :
    resolveResultColumn this resCol = resolveDbAndTable this resCol := by
  unfold resolveResultColumn resolveExpr
  simp [hstar, hid]

/-- C9: for `WITH c AS (SELECT 1 AS x) SELECT x FROM c`, with the probe reporting only the
alias `x`, the available column `x` has table alias `c` and the flag `FROM_CTE_SELECT`; the
result column `x` is matched to it and gets neither, and an error is recorded, while
`SELECT * FROM c` gives the column with both and no error.  In general an identifier whose
matched source column is a `COLUMN` without table gets nothing from it: the result is the
column built from the identifier alone, and the error is recorded unless
`ignoreInvalidNames` is set. -/
theorem identifier_drops_cte_origin :
    (resolveAvailableColumnsOfCore 2 exampleDb (SelectResolver.new {} false false) (some selectCte)
        coreCte).map
        (fun r => r.1.map (fun c => (c.type, c.table, c.tableAlias, c.column,
          hasFlag c.flags FROM_CTE_SELECT))) =
      some [(ColumnType.COLUMN, none, some "c", some "x", true)] ∧
    (resolveOfCore 3 exampleDb (SelectResolver.new {} false false) (some selectCte) coreCte).map
        (fun r => (r.1.map (fun c => (c.type, c.table, c.tableAlias, c.column,
          hasFlag c.flags FROM_CTE_SELECT)), r.2.errors)) =
      some ([(ColumnType.COLUMN, none, none, some "x", false)],
        ["Could not resolve table for column 'x'."]) ∧
    (resolveOfCore 3 exampleDb (SelectResolver.new {} false false) (some selectCteStar)
        coreCteStar).map
        (fun r => (r.1.map (fun c => (c.type, c.table, c.tableAlias, c.column,
          hasFlag c.flags FROM_CTE_SELECT)), r.2.errors)) =
      some ([(ColumnType.COLUMN, none, some "c", some "x", true)], []) ∧
    (∀ (this : SelectResolver) (resCol : ResultColumn) (s : Column),
      resCol.star = false → resCol.expr.mode = ExprMode.ID →
      this.currentCoreSourceColumns.find? (identifierMatches resCol.expr) = some s →
      QString.isNull s.table = true → s.type = ColumnType.COLUMN →
      (resolveResultColumn this resCol).currentCoreResults =
        this.currentCoreResults ++ [basicColumn resCol] ∧
      (resolveResultColumn this resCol).errors =
        (if this.ignoreInvalidNames then this.errors
         else this.errors ++
           ["Could not resolve table for column '" ++ detokenize resCol.expr.tokens ++ "'."])) := by
  refine ⟨rfl, rfl, rfl, ?_⟩
  intro this resCol s hstar hid hfind ht htype
  rw [resolveResultColumn_identifier this resCol hstar hid]
  have hm : matchedSource this resCol.expr = s := by
    rw [matchedSource_find, hfind]; rfl
  unfold resolveDbAndTable
  simp only [hm, ht, htype, Bool.not_true, Bool.false_eq_true, if_false]
  cases hi : this.ignoreInvalidNames <;> simp [basicColumn]

/-- An identifier result column whose first matching source column has a table gets the
database, table, table alias and flags of that source, and as original database what
`resolveDatabase` gives for the database of the source; no error is recorded.  For
`WITH d AS (SELECT a FROM t) SELECT a FROM d`, with the probe reporting table `t` and alias `a`,
the result is one `COLUMN` with table `t`, table alias `d`, column `a` and `FROM_CTE_SELECT`. -/
theorem resolveDbAndTable_copies_source (this : SelectResolver) (resCol : ResultColumn) (s : Column)
    (hstar : resCol.star = false) (hid : resCol.expr.mode = ExprMode.ID)
    (hfind : this.currentCoreSourceColumns.find? (identifierMatches resCol.expr) = some s)
    (ht : QString.isNull s.table = false) :
    (∃ col : Column,
      (resolveResultColumn this resCol).currentCoreResults = this.currentCoreResults ++ [col] ∧
      col.database = s.database ∧ col.originalDatabase = resolveDatabase this s.database ∧
      col.table = s.table ∧ col.tableAlias = s.tableAlias ∧ col.flags = s.flags ∧
      col.type = ColumnType.COLUMN ∧ col.column = resCol.expr.column) ∧
    (resolveResultColumn this resCol).errors = this.errors ∧
    (resolveOfCore 3 exampleDb (SelectResolver.new {} false false) (some selectCteD) coreCteD).map
        (fun r => (r.1.map (fun c => (c.type, c.table, c.tableAlias, c.column,
          hasFlag c.flags FROM_CTE_SELECT)), r.2.errors)) =
      some ([(ColumnType.COLUMN, some "t", some "d", some "a", true)], []) := by
  rw [resolveResultColumn_identifier this resCol hstar hid, resolveDbAndTable_matched this resCol s hfind ht]
  exact ⟨⟨_, rfl, rfl, rfl, rfl, rfl, rfl, rfl, rfl⟩, rfl, rfl⟩

theorem resolveDbAndTable_copies_source_witness :
    (idColumn 1 none "a").star = false ∧ (idColumn 1 none "a").expr.mode = ExprMode.ID ∧
    stateCteD.currentCoreSourceColumns.find? (identifierMatches (idColumn 1 none "a").expr) =
      some { type := ColumnType.COLUMN, flags := FROM_CTE_SELECT, tableAlias := some "d",
             table := some "t", column := some "a", displayName := some "a" } ∧
    (resolveResultColumn stateCteD (idColumn 1 none "a")).currentCoreResults.map
        (fun c => (c.table, c.tableAlias, c.flags)) = [(some "t", some "d", FROM_CTE_SELECT)] ∧
    (resolveResultColumn stateCteD (idColumn 1 none "a")).errors = stateCteD.errors :=
  ⟨rfl, rfl, by decide, by decide,
    (resolveDbAndTable_copies_source stateCteD (idColumn 1 none "a")
      { type := ColumnType.COLUMN, flags := FROM_CTE_SELECT, tableAlias := some "d",
        table := some "t", column := some "a", displayName := some "a" }
      rfl rfl (by decide) (by decide)).2.1⟩

/-- Claim C10 fails as stated: with `ignoreInvalidNames` on, the result column `zz` of
`SELECT zz FROM t`, which matches no source column, is emitted with kind `COLUMN`, not
`OTHER`. -/
theorem ignoreInvalidNames_kind_counterexample :
    (∀ c ∈ stateT.currentCoreSourceColumns, identifierMatches (idColumn 1 none "zz").expr c = false) ∧
    (resolveOfCore 3 exampleDb (SelectResolver.new {} false true) none coreZ).map
        (fun r => (r.1.map (fun c => (c.type, c.table, c.column)), r.2.errors)) =
      some ([(ColumnType.COLUMN, none, some "zz")], []) := by
  decide

/-- Claim C10, amended: for an identifier result column that matches no available source
column, exactly one result column is emitted, of kind `COLUMN` and without table; with
`ignoreInvalidNames` off exactly one error, `Could not resolve table for column`, is appended,
and with it on no error is appended. -/
theorem resolveDbAndTable_no_match (this : SelectResolver) (resCol : ResultColumn)
    (hstar : resCol.star = false) (hid : resCol.expr.mode = ExprMode.ID)
    (hnone : ∀ c ∈ this.currentCoreSourceColumns, identifierMatches resCol.expr c = false) :
    (∃ col : Column,
      (resolveResultColumn this resCol).currentCoreResults = this.currentCoreResults ++ [col] ∧
      col.type = ColumnType.COLUMN ∧ col.table = none ∧ col.tableAlias = none ∧
      col.column = resCol.expr.column) ∧
    (this.ignoreInvalidNames = false →
      (resolveResultColumn this resCol).errors = this.errors ++
        ["Could not resolve table for column '" ++ detokenize resCol.expr.tokens ++ "'."]) ∧
    (this.ignoreInvalidNames = true → (resolveResultColumn this resCol).errors = this.errors) := by
  rw [resolveResultColumn_identifier this resCol hstar hid, resolveDbAndTable_unmatched this resCol hnone]
  refine ⟨⟨_, rfl, rfl, rfl, rfl, rfl⟩, ?_, ?_⟩
  · intro h; simp [h]
  · intro h; simp [h]

theorem resolveDbAndTable_no_match_witness :
    (idColumn 1 none "zz").star = false ∧ (idColumn 1 none "zz").expr.mode = ExprMode.ID ∧
    (∀ c ∈ stateT.currentCoreSourceColumns, identifierMatches (idColumn 1 none "zz").expr c = false) ∧
    (resolveResultColumn stateT (idColumn 1 none "zz")).errors =
      stateT.errors ++ ["Could not resolve table for column 'zz'."] :=
  ⟨rfl, rfl, by decide,
    (resolveDbAndTable_no_match stateT (idColumn 1 none "zz") rfl rfl (by decide)).2.1 rfl⟩


/-! ## Sub-selects -/

/-- Claim C11 fails as stated: with `resolveMultiCore` off, `resolveSubSelect` returns no
column for the compound `SELECT a FROM t UNION SELECT a FROM u`, and the result column `s.a`
of `SELECT s.a FROM (...) AS s` finds no source: it has no table alias, no
`FROM_COMPOUND_SELECT`, and an error is recorded. -/
theorem resolveSubSelect_compound_counterexample :
    resolveSubSelect 4 exampleDb (SelectResolver.new {} false false) selectUnion = some [] ∧
    (resolveOfCore 8 exampleDb (SelectResolver.new {} false false) none coreSubUnion).map
        (fun r => (r.1.map (fun c => (c.column, c.tableAlias, hasFlag c.flags FROM_COMPOUND_SELECT)),
          r.2.errors)) =
      some ([(some "a", none, false)], ["Could not resolve table for column 's.a'."]) :=
  ⟨rfl, rfl⟩

/-- Claim C11, amended: for a compound sub-select, `resolveSubSelect` returns no column when
`resolveMultiCore` is off, and when it is on the columns a new resolver resolves for the first
core, each with `FROM_COMPOUND_SELECT` set.  With the switch on,
`SELECT s.a FROM (SELECT a FROM t UNION SELECT a FROM u) AS s` yields one result with column
`a`, table alias `s`, no old table alias, `FROM_COMPOUND_SELECT` set and
`FROM_ANONYMOUS_SELECT` cleared. -/
theorem resolveSubSelect_compound (fuel : Nat) (db : Db) (this : SelectResolver)
    (select : SqliteSelect) (core0 : Core) (rest : List Core)
    (hsel : select.coreSelects = core0 :: rest) (hk : 1 < select.coreSelects.length) :
    (this.resolveMultiCore = false → resolveSubSelect (fuel + 1) db this select = some []) ∧
    (this.resolveMultiCore = true → ∀ r,
      resolveOfCore fuel db (SelectResolver.new {} false false) (some select) core0 = some r →
      resolveSubSelect (fuel + 1) db this select =
        some (markCurrentColumnsWithFlag FROM_COMPOUND_SELECT r.1) ∧
      ∀ c ∈ markCurrentColumnsWithFlag FROM_COMPOUND_SELECT r.1,
        hasFlag c.flags FROM_COMPOUND_SELECT = true) ∧
    (resolveOfCore 8 exampleDb (SelectResolver.new {} true false) none coreSubUnion).map
        (fun r => (r.1.map (fun c => (c.column, c.tableAlias, c.oldTableAliases,
          hasFlag c.flags FROM_COMPOUND_SELECT, hasFlag c.flags FROM_ANONYMOUS_SELECT)),
          r.2.errors)) =
      some ([(some "a", some "s", [], true, false)], []) := by
  refine ⟨?_, ?_, rfl⟩
  · intro hoff
    rw [resolveSubSelect]
    simp [hk, hoff]
  · intro hon r hr
    constructor
    · rw [resolveSubSelect]
      unfold resolveOfCore at hr
      have hr' : resolveCore fuel db
          (extractCteOfCore { ({} : SelectResolver) with errors := [] } (some select))
          (some select) core0 = some r := hr
      have hc : decide (select.coreSelects.length > 1) = true := decide_eq_true hk
      simp only [hc, hon, Bool.not_true, Bool.and_false, Bool.false_eq_true, if_false, if_true]
      rw [hsel]
      simp only [hr']
    · intro c hc
      simp only [markCurrentColumnsWithFlag, List.mem_map] at hc
      obtain ⟨c0, _, rfl⟩ := hc
      exact hasFlag_or _ _ (by decide)

theorem resolveSubSelect_compound_witness :
    selectUnion.coreSelects = coreA "t" :: [coreA "u"] ∧ 1 < selectUnion.coreSelects.length ∧
    resolveSubSelect 4 exampleDb (SelectResolver.new {} false false) selectUnion = some [] :=
  ⟨rfl, by decide,
    (resolveSubSelect_compound 3 exampleDb (SelectResolver.new {} false false) selectUnion
      (coreA "t") [coreA "u"] rfl (by decide)).1 rfl⟩

/-! ## Alias application -/

theorem and_two_pow_testBit (f k : Nat) : f &&& 2 ^ k = if f.testBit k then 2 ^ k else 0 := by
  apply Nat.eq_of_testBit_eq
  intro i
  rw [Nat.testBit_and]
  by_cases h : k = i
  · subst h
    cases hf : f.testBit k <;> simp [Nat.testBit_two_pow_self]
  · cases hf : f.testBit k <;> simp [Nat.testBit_two_pow_of_ne h]

theorem hasFlag_two_pow (f k : Nat) : hasFlag f (2 ^ k) = f.testBit k := by
  unfold hasFlag
  rw [and_two_pow_testBit]
  cases f.testBit k
  · simp
  · have : (2 : Nat) ^ k ≠ 0 := by positivity
    simp [this]

theorem testBit_clearFlag (f k i : Nat) :
    (clearFlag f (2 ^ k)).testBit i = (f.testBit i && decide (k ≠ i)) := by
  unfold clearFlag
  rw [Nat.testBit_xor, Nat.testBit_and, Nat.testBit_two_pow]
  by_cases h : k = i
  · subst h; cases f.testBit k <;> simp
  · cases f.testBit i <;> simp [h]

theorem testBit_setFlag (f k i : Nat) :
    (f ||| 2 ^ k).testBit i = (f.testBit i || decide (k = i)) := by
  rw [Nat.testBit_or, Nat.testBit_two_pow]

theorem applySubSelectAlias_alias (columns : List Column) (A : QString)
    (hA : QString.isNull A = false) :
    applySubSelectAlias columns A = columns.map (aliasCrossing A) := by
  unfold applySubSelectAlias
  simp only [hA, Bool.not_false, if_true]
  apply List.map_congr_left
  intro c _
  unfold pushTableAlias aliasCrossing
  cases h : QString.isNull c.tableAlias <;> simp [h]

theorem applySubSelectAlias_anonymous (columns : List Column) (A : QString)
    (hA : QString.isNull A = true) :
    applySubSelectAlias columns A = columns.map anonymousCrossing := by
  unfold applySubSelectAlias
  simp only [hA, Bool.not_true, Bool.false_eq_true, if_false]
  rfl

/-- Claim C12 fails as stated: a column whose table alias is the empty, non-null string
crosses into `... AS s` with that empty alias appended to its old table aliases. -/
theorem empty_alias_counterexample :
    QString.isEmpty (some "") = true ∧ QString.isNull (some "") = false ∧
    (applySubSelectAlias [{ tableAlias := some "", column := some "a" }] (some "s")).map
        (fun c => (c.tableAlias, c.oldTableAliases)) = [(some "s", [some ""])] := by
  decide

/-- Claim C12, amended: with an alias `A`, `applySubSelectAlias` maps each column to the column
with its previous table alias appended to the old aliases when that alias is not null (an
empty alias that is not null is appended too), the table alias `A` and
`FROM_ANONYMOUS_SELECT` cleared, every other field and flag unchanged; without alias it only
sets `FROM_ANONYMOUS_SELECT`.  Length and order are kept. -/
theorem applySubSelectAlias_spec :
    (∀ (columns : List Column) (A : QString),
      applySubSelectAlias columns A =
        if QString.isNull A then columns.map anonymousCrossing else columns.map (aliasCrossing A)) ∧
    (∀ (columns : List Column) (A : QString),
      (applySubSelectAlias columns A).length = columns.length) ∧
    (∀ (A : QString) (c : Column),
      (aliasCrossing A c).tableAlias = A ∧
      (QString.isNull c.tableAlias = false →
        (aliasCrossing A c).oldTableAliases = c.oldTableAliases ++ [c.tableAlias]) ∧
      (QString.isNull c.tableAlias = true →
        (aliasCrossing A c).oldTableAliases = c.oldTableAliases) ∧
      hasFlag (aliasCrossing A c).flags FROM_ANONYMOUS_SELECT = false ∧
      (∀ flag ∈ [FROM_COMPOUND_SELECT, FROM_DISTINCT_SELECT, FROM_GROUPED_SELECT, FROM_CTE_SELECT],
        hasFlag (aliasCrossing A c).flags flag = hasFlag c.flags flag) ∧
      (aliasCrossing A c).database = c.database ∧
      (aliasCrossing A c).originalDatabase = c.originalDatabase ∧
      (aliasCrossing A c).table = c.table ∧ (aliasCrossing A c).type = c.type ∧
      (aliasCrossing A c).column = c.column ∧ (aliasCrossing A c).alias_ = c.alias_ ∧
      (aliasCrossing A c).displayName = c.displayName ∧
      (aliasCrossing A c).aliasDefinedInSubQuery = c.aliasDefinedInSubQuery ∧
      (aliasCrossing A c).originalColumn = c.originalColumn) ∧
    (∀ c : Column,
      hasFlag (anonymousCrossing c).flags FROM_ANONYMOUS_SELECT = true ∧
      (∀ flag ∈ [FROM_COMPOUND_SELECT, FROM_DISTINCT_SELECT, FROM_GROUPED_SELECT, FROM_CTE_SELECT],
        hasFlag (anonymousCrossing c).flags flag = hasFlag c.flags flag) ∧
      { anonymousCrossing c with flags := c.flags } = c) := by
  have e0 : FROM_COMPOUND_SELECT = 2 ^ 0 := rfl
  have e1 : FROM_ANONYMOUS_SELECT = 2 ^ 1 := rfl
  have e2 : FROM_DISTINCT_SELECT = 2 ^ 2 := rfl
  have e3 : FROM_GROUPED_SELECT = 2 ^ 3 := rfl
  have e4 : FROM_CTE_SELECT = 2 ^ 4 := rfl
  refine ⟨?_, ?_, ?_, ?_⟩
  · intro columns A
    cases hA : QString.isNull A
    · simp only [Bool.false_eq_true, if_false]
      exact applySubSelectAlias_alias columns A hA
    · simp only [if_true]
      exact applySubSelectAlias_anonymous columns A hA
  · intro columns A
    unfold applySubSelectAlias
    split <;> simp
  · intro A c
    refine ⟨rfl, ?_, ?_, ?_, ?_, rfl, rfl, rfl, rfl, rfl, rfl, rfl, rfl, rfl⟩
    · intro h; simp [aliasCrossing, h]
    · intro h; simp [aliasCrossing, h]
    · show hasFlag (clearFlag c.flags FROM_ANONYMOUS_SELECT) FROM_ANONYMOUS_SELECT = false
      rw [e1, hasFlag_two_pow, testBit_clearFlag]; simp
    · intro flag hflag
      show hasFlag (clearFlag c.flags FROM_ANONYMOUS_SELECT) flag = hasFlag c.flags flag
      simp only [List.mem_cons, List.mem_singleton, List.not_mem_nil, or_false] at hflag
      rcases hflag with rfl | rfl | rfl | rfl
      · rw [e1, e0, hasFlag_two_pow, hasFlag_two_pow, testBit_clearFlag]; simp
      · rw [e1, e2, hasFlag_two_pow, hasFlag_two_pow, testBit_clearFlag]; simp
      · rw [e1, e3, hasFlag_two_pow, hasFlag_two_pow, testBit_clearFlag]; simp
      · rw [e1, e4, hasFlag_two_pow, hasFlag_two_pow, testBit_clearFlag]; simp
  · intro c
    refine ⟨?_, ?_, rfl⟩
    · show hasFlag (c.flags ||| FROM_ANONYMOUS_SELECT) FROM_ANONYMOUS_SELECT = true
      exact hasFlag_or _ _ (by decide)
    · intro flag hflag
      show hasFlag (c.flags ||| FROM_ANONYMOUS_SELECT) flag = hasFlag c.flags flag
      simp only [List.mem_cons, List.mem_singleton, List.not_mem_nil, or_false] at hflag
      rcases hflag with rfl | rfl | rfl | rfl
      · rw [e1, e0, hasFlag_two_pow, hasFlag_two_pow, testBit_setFlag]; simp
      · rw [e1, e2, hasFlag_two_pow, hasFlag_two_pow, testBit_setFlag]; simp
      · rw [e1, e3, hasFlag_two_pow, hasFlag_two_pow, testBit_setFlag]; simp
      · rw [e1, e4, hasFlag_two_pow, hasFlag_two_pow, testBit_setFlag]; simp

/-- Claim C13 fails as stated: the column `a` of `(SELECT a FROM t) AS s` has no table alias
inside the sub-select, and crossing the boundary with the outer alias `s` leaves its old
table aliases empty. -/
theorem oldTableAliases_counterexample :
    (resolveOfCore 3 exampleDb (SelectResolver.new {} false false) (some selectA) (coreA "t")).map
        (fun r => r.1.map (fun c => (c.tableAlias, c.oldTableAliases.length))) =
      some [(none, 0)] ∧
    (resolveAvailableColumnsOfCore 7 exampleDb (SelectResolver.new {} false false) none
        coreSubPlain).map
        (fun r => r.1.map (fun c => (c.tableAlias, c.oldTableAliases.length))) =
      some [(some "s", 0)] :=
  ⟨rfl, rfl⟩

/-- Claim C13, amended: when a column list crosses a sub-select or view boundary that carries
an outer alias, the old table aliases of a column grow by exactly one element if the column
had a table alias, and stay as they are if it had none. -/
theorem oldTableAliases_growth (columns : List Column) (A : QString)
    (hA : QString.isNull A = false) :
    (applySubSelectAlias columns A).map (fun c => c.oldTableAliases.length) =
      columns.map (fun c =>
        if QString.isNull c.tableAlias then c.oldTableAliases.length
        else c.oldTableAliases.length + 1) := by
  rw [applySubSelectAlias_alias columns A hA, List.map_map]
  apply List.map_congr_left
  intro c _
  unfold aliasCrossing
  cases h : QString.isNull c.tableAlias <;> simp [h]

theorem oldTableAliases_growth_witness :
    QString.isNull (some "s") = false ∧
    (resolveAvailableColumnsOfCore 7 exampleDb (SelectResolver.new {} false false) none
        coreSubAliased).map (fun r => r.1.map (fun c => (c.tableAlias, c.oldTableAliases))) =
      some [(some "s", [some "x"])] ∧
    (applySubSelectAlias [{ tableAlias := some "x", table := some "t", column := some "a" }]
        (some "s")).map (fun c => c.oldTableAliases.length) =
      [({ tableAlias := some "x", table := some "t", column := some "a" } : Column)].map (fun c =>
        if QString.isNull c.tableAlias then c.oldTableAliases.length
        else c.oldTableAliases.length + 1) :=
  ⟨rfl, rfl,
    oldTableAliases_growth [{ tableAlias := some "x", table := some "t", column := some "a" }]
      (some "s") rfl⟩

/-! ## Expression text, equality and hashing, attached databases -/

/-- Claim C14, evaluated: for `a+1 AS s` the column text is `a+1`, with alias and display name
`s`; for `(a+1)AS s` the first top-level `AS` is token 5 and the tokens before it read
`(a+1)`, and the column text the code emits is `(a+1`, one token short. -/
theorem getResColTokensWithoutAlias_drops_token :
    (resolveExpr {} exprSpaced).currentCoreResults.map
        (fun c => (c.type, c.column, c.alias_, c.displayName)) =
      [(ColumnType.OTHER, some "a+1", some "s", some "s")] ∧
    findAsIdx exprParen.tokens 0 0 = some 5 ∧
    trimmed (detokenize (exprParen.tokens.take 5)) = "(a+1)" ∧
    (resolveExpr {} exprParen).currentCoreResults.map
        (fun c => (c.type, c.column, c.alias_, c.displayName)) =
      [(ColumnType.OTHER, some "(a+1", some "s", some "s")] :=
  ⟨rfl, rfl, rfl, rfl⟩

/-- Claim C15, evaluated: two tables, and two columns, whose old table aliases are `X` and
`x` are equal for `operator==`, and the strings `qHash` hashes for them differ. -/
theorem eq_hashKey_disagree :
    Table.eq { oldTableAliases := [some "X"] } { oldTableAliases := [some "x"] } = true ∧
    Table.hashKey { oldTableAliases := [some "X"] } = ".//X" ∧
    Table.hashKey { oldTableAliases := [some "x"] } = ".//x" ∧
    Column.eq { oldTableAliases := [some "X"] } { oldTableAliases := [some "x"] } = true ∧
    Column.hashKey { oldTableAliases := [some "X"] } = "..//X" ∧
    Column.hashKey { oldTableAliases := [some "x"] } = "..//x" := by
  decide

/-- Claim C16 fails as stated: with the map that pairs `main2` (left) with `attached`
(right), `resolveDatabase` leaves the left name `main2` as it is and turns the right name
`attached` into `main2`. -/
theorem resolveDatabase_counterexample :
    resolveDatabase stateAttached (some "main2") = some "main2" ∧
    resolveDatabase stateAttached (some "attached") = some "main2" ∧
    resolveDatabase stateAttached (some "ATTACHED") = some "main2" := by
  decide

/-- Claim C16, amended: `resolveDatabase(name)` returns the left-hand side paired with `name`
when `name` appears, without regard to case, on the right of the map, and `name` unchanged
otherwise. -/
theorem resolveDatabase_spec (this : SelectResolver) (name : QString) :
    (∀ p, this.dbNameToAttach.pairs.find?
        (fun p => decide (toLower p.2 = toLower (QString.str name))) = some p →
      resolveDatabase this name = some p.1) ∧
    ((∀ p ∈ this.dbNameToAttach.pairs, toLower p.2 ≠ toLower (QString.str name)) →
      resolveDatabase this name = name) := by
  constructor
  · intro p hp
    have hc : this.dbNameToAttach.containsRight name = true := by
      unfold BiStrHash.containsRight
      rw [List.any_eq_true]
      have hq : decide (toLower p.2 = toLower (QString.str name)) = true := by
        have := List.find?_some hp
        simpa using this
      exact ⟨p, List.mem_of_find?_eq_some hp, hq⟩
    unfold resolveDatabase
    simp only [hc, if_true]
    unfold BiStrHash.valueByRight
    rw [hp]
  · intro hnone
    have hc : this.dbNameToAttach.containsRight name = false := by
      unfold BiStrHash.containsRight
      rw [List.any_eq_false]
      intro p hp
      simp [hnone p hp]
    unfold resolveDatabase
    simp [hc]

/-! ## The data type descriptor -/

/-- The emitted text follows the guards of the code: the precision decides whether anything
is appended, the scale only what. -/
theorem toFullTypeString_cases (d : DataType) :
    d.toFullTypeString =
      match d.precision, d.scale with
      | none, _ => d.typeStr
      | some _, none => d.typeStr ++ " ()"
      | some precision, some scale => d.typeStr ++ (" (" ++ scale ++ ", " ++ precision ++ ")") := by
  rcases d with ⟨type, typeStr, precision, scale⟩
  cases precision <;> cases scale <;> simp [DataType.toFullTypeString, QVariant.toString]

/-- C17: parsing, printing and parsing again does not give the descriptor back.  The
descriptor of `DECIMAL(10,2)` prints as `DECIMAL (10, 2)`, which parses to the raw name
`DECIMAL ` (with the blank) of unknown kind; the descriptor of `VARCHAR(20)` prints as
`VARCHAR`, which parses to a descriptor without scale. -/
theorem roundTrip_fails :
    DataType.ofFullTypeString "DECIMAL(10,2)" =
        { type := DataType.Enum.DECIMAL, typeStr := "DECIMAL", precision := some "2",
          scale := some "10" } ∧
      (DataType.ofFullTypeString "DECIMAL(10,2)").toFullTypeString = "DECIMAL (10, 2)" ∧
      DataType.ofFullTypeString (DataType.ofFullTypeString "DECIMAL(10,2)").toFullTypeString =
        { type := DataType.Enum.unknown, typeStr := "DECIMAL ", precision := some "2",
          scale := some "10" } ∧
      DataType.ofFullTypeString "VARCHAR(20)" =
        { type := DataType.Enum.VARCHAR, typeStr := "VARCHAR", precision := none,
          scale := some "20" } ∧
      (DataType.ofFullTypeString "VARCHAR(20)").toFullTypeString = "VARCHAR" ∧
      DataType.ofFullTypeString (DataType.ofFullTypeString "VARCHAR(20)").toFullTypeString =
        { type := DataType.Enum.VARCHAR, typeStr := "VARCHAR", precision := none,
          scale := none } := by
  refine ⟨?_, ?_, ?_, ?_, ?_, ?_⟩ <;> decide

/-- C18: on `DECIMAL (10,25)` the parsing constructor keeps the blank in the raw name, so that
the kind is unknown, and keeps only the last character of the second number; the scale is the
whole first number.  Without the blank, `DECIMAL(10,25)`, the name and the kind are right and
the precision is still `5`. -/
theorem ofFullTypeString_decimal :
    DataType.ofFullTypeString "DECIMAL (10,25)" =
        { type := DataType.Enum.unknown, typeStr := "DECIMAL ", precision := some "5",
          scale := some "10" } ∧
      DataType.ofFullTypeString "DECIMAL(10,25)" =
        { type := DataType.Enum.DECIMAL, typeStr := "DECIMAL", precision := some "5",
          scale := some "10" } := by
  refine ⟨?_, ?_⟩ <;> decide

/-- C19: the printed text differs from the one of the specification as soon as exactly one of
scale and precision is present: with scale `20` and no precision the code prints `VARCHAR`
where the specification has `VARCHAR (20)`, with no scale and precision `3` it prints
`VARCHAR ()` where the specification has `VARCHAR`.  With both or neither they agree. -/
theorem toFullTypeString_guard :
    (DataType.ofParts "VARCHAR" (some "20") none).toFullTypeString = "VARCHAR" ∧
      specFullTypeString (DataType.ofParts "VARCHAR" (some "20") none) = "VARCHAR (20)" ∧
      (DataType.ofParts "VARCHAR" none (some "3")).toFullTypeString = "VARCHAR ()" ∧
      specFullTypeString (DataType.ofParts "VARCHAR" none (some "3")) = "VARCHAR" ∧
      (∀ d : DataType, d.scale.isSome = d.precision.isSome →
        d.toFullTypeString = specFullTypeString d) ∧
      (∀ d : DataType, d.scale.isSome ≠ d.precision.isSome →
        d.toFullTypeString ≠ specFullTypeString d) := by
  refine ⟨by decide, by decide, by decide, by decide, ?_, ?_⟩
  · intro d h
    rw [toFullTypeString_cases]
    rcases d with ⟨type, typeStr, precision, scale⟩
    cases precision <;> cases scale <;> simp_all [specFullTypeString, String.append_assoc]
  · intro d h
    rw [toFullTypeString_cases]
    rcases d with ⟨type, typeStr, precision, scale⟩
    cases precision <;> cases scale <;> simp_all [specFullTypeString]
    all_goals
      intro h
      have hl := congrArg String.length h
      simp only [String.length_append] at hl
      have h2 : " (".length = 2 := by decide
      have h3 : ")".length = 1 := by decide
      have h4 : " ()".length = 3 := by decide
      omega

/-- C20: `isNumeric` holds of a kind exactly when the kind is one of BIGINT, DECIMAL, DOUBLE,
INTEGER, INT, NUMERIC and REAL; it is false of the unknown kind; and the member function of a
descriptor is the function of its kind. -/
theorem isNumeric_spec :
    (∀ e : DataType.Enum, e.isNumeric = true ↔ e ∈ numericKinds) ∧
      DataType.Enum.unknown.isNumeric = false ∧
      (∀ d : DataType, d.isNumeric = d.type.isNumeric) := by
  refine ⟨?_, rfl, fun _ => rfl⟩
  intro e
  cases e <;> simp [DataType.Enum.isNumeric, numericKinds]

/-! ## Descriptors: lookup, construction and copying -/

theorem toUpper_toString (e : DataType.Enum) (h : e ≠ DataType.Enum.unknown) :
    toUpper e.toString = e.toString := by
  cases e <;> first | rfl | exact absurd rfl h

theorem toUpper_char_ne (c : Char) : c.toUpper ≠ 'u' := by
  unfold Char.toUpper
  dsimp only
  split_ifs with h
  · obtain ⟨h1, h2⟩ := h
    generalize c.toNat = n at h1 h2
    interval_cases n <;> decide
  · intro hc
    rw [hc] at h
    exact h (by decide)

theorem toUpper_ne_unknown (s : String) : toUpper s ≠ "unknown" := by
  intro h
  have hd : (toUpper s).data = "unknown".data := congrArg String.data h
  simp only [toUpper] at hd
  cases hs : s.data with
  | nil => rw [hs] at hd; exact absurd hd (by decide)
  | cons c cs =>
    rw [hs] at hd
    have hc : Char.toUpper c = 'u' := by
      have := congrArg List.head? hd
      simpa using this
    exact toUpper_char_ne c hc

/-- C22: `operator=` copies kind, raw name and precision and leaves the scale of the target
as it was, and the copy constructor, which calls it on a new object, gives a null scale.
The copy of the descriptor of `DECIMAL` with scale 10 and precision 2 has no scale, and
assigning that descriptor to the one of `INT` with scale 5 leaves the scale 5. -/
theorem assign_skips_scale :
    (∀ this other : DataType,
      (this.assign other).type = other.type ∧ (this.assign other).typeStr = other.typeStr ∧
      (this.assign other).precision = other.precision ∧
      (this.assign other).scale = this.scale) ∧
    (∀ other : DataType,
      (DataType.copy other).type = other.type ∧ (DataType.copy other).typeStr = other.typeStr ∧
      (DataType.copy other).precision = other.precision ∧ (DataType.copy other).scale = none) ∧
    DataType.copy (DataType.ofParts "DECIMAL" (some "10") (some "2")) =
      { type := DataType.Enum.DECIMAL, typeStr := "DECIMAL", precision := some "2",
        scale := none } ∧
    (DataType.ofParts "INT" (some "5") none).assign
        (DataType.ofParts "DECIMAL" (some "10") (some "2")) =
      { type := DataType.Enum.DECIMAL, typeStr := "DECIMAL", precision := some "2",
        scale := some "5" } := by
  refine ⟨fun _ _ => ⟨rfl, rfl, rfl, rfl⟩, fun _ => ⟨rfl, rfl, rfl, rfl⟩, by decide, by decide⟩

/-! ## The fix-up of names, result by result -/

theorem sequenceName_stop (ex : List String) (o : QString) (k : Nat)
    (hk : QString.str (candidate o k) ∉ ex) : ∀ fuel i : Nat, i ≤ k → k < i + fuel →
    (∀ j, i ≤ j → j < k → QString.str (candidate o j) ∈ ex) →
    sequenceName ex o fuel (i + 1) (candidate o i) = candidate o k := by
  intro fuel
  induction fuel with
  | zero => intro i h1 h2; omega
  | succ f ih =>
    intro i h1 h2 hin
    by_cases hik : i = k
    · subst hik
      simp only [sequenceName, hk, if_false]
    · have hm : QString.str (candidate o i) ∈ ex := hin i (le_refl _) (by omega)
      simp only [sequenceName, hm, if_true]
      exact ih (i + 1) (by omega) (by omega) (fun j hj1 hj2 => hin j (by omega) hj2)

theorem sequenceName_congr (ex1 ex2 : List String) (o : QString) (h : ∀ x, x ∈ ex1 ↔ x ∈ ex2) :
    ∀ (fuel i : Nat) (name : QString),
    sequenceName ex1 o fuel i name = sequenceName ex2 o fuel i name := by
  intro fuel
  induction fuel with
  | zero => intro i name; rfl
  | succ f ih =>
    intro i name
    simp only [sequenceName, h, ih]

theorem fixColumnNamesLoop_head (ed ea : List String) (col : Column) (rest : List Column) :
    ∃ col2 : Column,
      (fixColumnNamesLoop ed ea (col :: rest))[0]? = some col2 ∧
      col2.displayName = uniqueName ed col.displayName ∧
      col2.alias_ =
        (if QString.str (uniqueName ea (workingAlias col)) ≠ QString.str (workingAlias col) then
          uniqueName ea (workingAlias col) else col.alias_) := by
  by_cases h : QString.str (uniqueName ea (workingAlias col)) = QString.str (workingAlias col)
  · refine ⟨{ col with displayName := uniqueName ed col.displayName }, ?_, rfl, ?_⟩
    · simp only [fixColumnNamesLoop, List.getElem?_cons_zero]
      unfold workingAlias at h
      simp only [h, ne_eq, not_true_eq_false, if_false]
    · simp only [h, ne_eq, not_true_eq_false, if_false]
  · refine ⟨{ col with displayName := uniqueName ed col.displayName,
                       alias_ := uniqueName ea (workingAlias col) }, ?_, rfl, ?_⟩
    · simp only [fixColumnNamesLoop, List.getElem?_cons_zero]
      unfold workingAlias at h
      simp only [h, ne_eq, not_false_eq_true, if_true, workingAlias]
    · simp only [h, ne_eq, not_false_eq_true, if_true]

/-- The column `fixColumnNames` makes of the column at position `i`: its display name and its
alias come from the renaming loop run on the names registered for the columns before it. -/
theorem fixColumnNamesLoop_get (l : List Column) : ∀ (ed ea : List String) (i : Nat) (c : Column),
    l[i]? = some c →
    ∃ (c2 : Column) (exd exa : List String),
      (fixColumnNamesLoop ed ea l)[i]? = some c2 ∧
      (∀ x, x ∈ exd ↔ x ∈ ed ∨ x ∈ earlierDisplayNames (fixColumnNamesLoop ed ea l) i) ∧
      (∀ x, x ∈ exa ↔ x ∈ ea ∨ x ∈ earlierAliases (fixColumnNamesLoop ed ea l) i) ∧
      c2.displayName = uniqueName exd c.displayName ∧
      c2.alias_ =
        (if QString.str (uniqueName exa (workingAlias c)) ≠ QString.str (workingAlias c) then
          uniqueName exa (workingAlias c) else c.alias_) := by
  induction l with
  | nil => intro ed ea i c h; simp at h
  | cons col rest ih =>
    intro ed ea i c h
    cases i with
    | zero =>
      simp only [List.getElem?_cons_zero, Option.some.injEq] at h
      subst h
      obtain ⟨col2, e1, e2, e3⟩ := fixColumnNamesLoop_head ed ea col rest
      refine ⟨col2, ed, ea, e1, ?_, ?_, e2, e3⟩
      · intro x; simp [earlierDisplayNames]
      · intro x; simp [earlierAliases]
    | succ i =>
      simp only [List.getElem?_cons_succ] at h
      obtain ⟨col2, heq, hd, ha⟩ := fixColumnNamesLoop_cons ed ea col rest
      obtain ⟨c2, exd, exa, h1, h2, h3, h4, h5⟩ :=
        ih (QString.str (uniqueName ed col.displayName) :: ed)
          (QString.str (uniqueName ea (workingAlias col)) :: ea) i c h
      refine ⟨c2, exd, exa, ?_, ?_, ?_, h4, h5⟩
      · rw [heq, List.getElem?_cons_succ]; exact h1
      · intro x
        rw [h2 x, heq]
        simp only [earlierDisplayNames, List.take_succ_cons, List.map_cons, List.mem_cons, hd]
        tauto
      · intro x
        rw [h3 x, heq]
        simp only [earlierAliases, List.take_succ_cons, List.map_cons, List.mem_cons, ha]
        tauto

/-- C24: the renaming loop of `fixColumnNames` ends for the column at every position `i`, and
the display name it leaves is the first of `name`, `name:1`, `name:2`, ... that is not among
the final display names of the columns before it: a name that has not appeared is kept, one
that has appeared becomes `name:k` for the smallest `k ≥ 1` that gives a new name.  The loop
stops after `k` renamings whatever bound above `k` is put on its rounds. -/
theorem fixColumnNames_renaming (l : List Column) (i : Nat) (c : Column) (h : l[i]? = some c) :
    ∃ (c2 : Column) (k : Nat),
      (fixColumnNames l)[i]? = some c2 ∧ c2.displayName = candidate c.displayName k ∧
      (∀ j, j < k →
        QString.str (candidate c.displayName j) ∈ earlierDisplayNames (fixColumnNames l) i) ∧
      QString.str (candidate c.displayName k) ∉ earlierDisplayNames (fixColumnNames l) i ∧
      (∀ fuel, k < fuel →
        sequenceName (earlierDisplayNames (fixColumnNames l) i) c.displayName fuel 1 c.displayName =
          c2.displayName) ∧
      (QString.str c.displayName ∉ earlierDisplayNames (fixColumnNames l) i →
        c2.displayName = c.displayName) ∧
      (QString.str c.displayName ∈ earlierDisplayNames (fixColumnNames l) i → 1 ≤ k) := by
  obtain ⟨c2, exd, exa, h1, h2, _, h4, _⟩ := fixColumnNamesLoop_get l [] [] i c h
  obtain ⟨k, hk1, hk2, hk3⟩ := uniqueName_spec exd c.displayName
  have hmem : ∀ x, x ∈ exd ↔ x ∈ earlierDisplayNames (fixColumnNames l) i := by
    intro x
    rw [h2 x]
    simp [fixColumnNames]
  have hin : ∀ j, j < k →
      QString.str (candidate c.displayName j) ∈ earlierDisplayNames (fixColumnNames l) i :=
    fun j hj => (hmem _).1 (hk2 j hj)
  have hout : QString.str (candidate c.displayName k) ∉ earlierDisplayNames (fixColumnNames l) i :=
    fun hx => hk3 ((hmem _).2 hx)
  refine ⟨c2, k, h1, by rw [h4, hk1], hin, hout, ?_, ?_, ?_⟩
  · intro fuel hf
    rw [h4, hk1]
    exact sequenceName_stop _ c.displayName k hout fuel 0 (Nat.zero_le _) (by omega)
      (fun j _ hj => hin j hj)
  · intro hnot
    cases k with
    | zero => rw [h4, hk1]; rfl
    | succ k => exact absurd (hin 0 (Nat.succ_pos _)) hnot
  · intro hyes
    cases k with
    | zero => exact absurd hyes hout
    | succ k => exact Nat.succ_pos _

theorem fixColumnNames_renaming_witness :
    ([{ displayName := some "a" }, { displayName := some "a" }] : List Column)[1]? =
        some { displayName := some "a" } ∧
    (fixColumnNames [{ displayName := some "a" }, { displayName := some "a" }]).map
        (fun c => c.displayName) = [some "a", some "a:1"] ∧
    ∃ (c2 : Column) (k : Nat),
      (fixColumnNames [{ displayName := some "a" }, { displayName := some "a" }])[1]? = some c2 ∧
      c2.displayName = candidate (some "a") k :=
  ⟨rfl, by decide,
    (fixColumnNames_renaming [{ displayName := some "a" }, { displayName := some "a" }] 1
      { displayName := some "a" } rfl).imp
      (fun _ hc => hc.imp (fun _ hk => ⟨hk.1, hk.2.1⟩))⟩

/-- Claim C25 fails as stated: in `SELECT a AS x, b AS x FROM t` both results declare the
alias `x`, and after the fix-up the alias of the second is `x:1`. -/
theorem declared_alias_counterexample :
    (resolveOfCore 3 exampleDb (SelectResolver.new {} false false) none coreDeclared).map
        (fun r => r.1.map (fun c => (c.column, c.alias_))) =
      some [(some "a", some "x"), (some "b", some "x:1")] ∧
    coreDeclared.resultColumns.map (fun r => r.alias_) = [some "x", some "x"] :=
  ⟨rfl, rfl⟩

/-- Claim C25, amended: `fixColumnNames` writes the alias of a result exactly when its working
alias (the alias, or the column name when the alias is null) is among the final working
aliases of the results before it, whether the alias was declared or not; the alias then
becomes `w:k` for the working alias `w` and the smallest `k ≥ 1` that gives a new name.  A
result whose working alias has not appeared keeps its alias field. -/
theorem aliasFixup_spec (l : List Column) (i : Nat) (c : Column) (h : l[i]? = some c) :
    ∃ (c2 : Column) (k : Nat),
      (fixColumnNames l)[i]? = some c2 ∧
      (∀ j, j < k →
        QString.str (candidate (workingAlias c) j) ∈ earlierAliases (fixColumnNames l) i) ∧
      QString.str (candidate (workingAlias c) k) ∉ earlierAliases (fixColumnNames l) i ∧
      (QString.str (workingAlias c) ∉ earlierAliases (fixColumnNames l) i →
        k = 0 ∧ c2.alias_ = c.alias_) ∧
      (QString.str (workingAlias c) ∈ earlierAliases (fixColumnNames l) i →
        1 ≤ k ∧ c2.alias_ = candidate (workingAlias c) k ∧
        QString.str c2.alias_ ≠ QString.str c.alias_) := by
  obtain ⟨c2, exd, exa, h1, _, h3, _, h5⟩ := fixColumnNamesLoop_get l [] [] i c h
  obtain ⟨k, hk1, hk2, hk3⟩ := uniqueName_spec exa (workingAlias c)
  have hmem : ∀ x, x ∈ exa ↔ x ∈ earlierAliases (fixColumnNames l) i := by
    intro x
    rw [h3 x]
    simp [fixColumnNames]
  have hin : ∀ j, j < k →
      QString.str (candidate (workingAlias c) j) ∈ earlierAliases (fixColumnNames l) i :=
    fun j hj => (hmem _).1 (hk2 j hj)
  have hout : QString.str (candidate (workingAlias c) k) ∉ earlierAliases (fixColumnNames l) i :=
    fun hx => hk3 ((hmem _).2 hx)
  rw [hk1] at h5
  refine ⟨c2, k, h1, hin, hout, ?_, ?_⟩
  · intro hnot
    cases k with
    | zero =>
      refine ⟨rfl, ?_⟩
      rw [h5]
      simp [candidate]
    | succ k => exact absurd (hin 0 (Nat.succ_pos _)) hnot
  · intro hyes
    cases k with
    | zero => exact absurd hyes hout
    | succ k =>
      have hne : QString.str (candidate (workingAlias c) (k + 1)) ≠ QString.str (workingAlias c) := by
        intro he
        have := candidate_str_injective (workingAlias c) (k + 1) 0 he
        omega
      have ha : c2.alias_ = candidate (workingAlias c) (k + 1) := by
        rw [h5]
        simp only [ne_eq, hne, not_false_eq_true, if_true]
      refine ⟨Nat.succ_pos _, ha, ?_⟩
      rw [ha]
      intro he
      by_cases hnull : QString.isNull c.alias_ = true
      · have hc : c.alias_ = none := by
          cases hq : c.alias_ with
          | none => rfl
          | some v => rw [hq] at hnull; cases hnull
        rw [hc] at he
        have hl := congrArg String.length he
        simp only [candidate, QString.str, Option.getD_some, Option.getD_none,
          String.length_append] at hl
        have h2 : ":".length = 1 := rfl
        have h3 : "".length = 0 := rfl
        omega
      · have hw : workingAlias c = c.alias_ := by
          unfold workingAlias
          simp [hnull]
        rw [hw] at hne
        rw [hw] at he
        exact hne he

theorem aliasFixup_spec_witness :
    ([{ column := some "a", alias_ := some "x" }, { column := some "b", alias_ := some "x" }] :
        List Column)[1]? = some { column := some "b", alias_ := some "x" } ∧
    (fixColumnNames [{ column := some "a", alias_ := some "x" },
        { column := some "b", alias_ := some "x" }]).map (fun c => c.alias_) =
      [some "x", some "x:1"] ∧
    ∃ (c2 : Column) (k : Nat),
      (fixColumnNames [{ column := some "a", alias_ := some "x" },
        { column := some "b", alias_ := some "x" }])[1]? = some c2 ∧
      QString.str (candidate (workingAlias { column := some "b", alias_ := some "x" }) k) ∉
        earlierAliases (fixColumnNames [{ column := some "a", alias_ := some "x" },
          { column := some "b", alias_ := some "x" }]) 1 :=
  ⟨rfl, by decide,
    (aliasFixup_spec [{ column := some "a", alias_ := some "x" },
        { column := some "b", alias_ := some "x" }] 1
      { column := some "b", alias_ := some "x" } rfl).imp
      (fun _ hc => hc.imp (fun _ hk => ⟨hk.1, hk.2.2.1⟩))⟩

/-! ## State carried from one core to the next -/

/-- C23: in `SELECT a FROM t UNION SELECT a` the second core has no `FROM` clause, and
`resolve(select)` resolves its column `a` against the source columns the first core left in
`currentCoreSourceColumns`: the second list has `a` with table `t` and no error is recorded,
where a new resolver gives, for that core alone, `a` without table and an error.  The first
list of `resolve(select)` is always the list a resolver in the same state returns for the
first core alone, and for `SELECT a FROM t UNION SELECT a FROM u` both lists are. -/
theorem resolve_keeps_sources :
    (resolve 3 exampleDb (SelectResolver.new {} false false) selectLeak).map
        (fun r => (r.1.map (fun l => l.map (fun c => (c.column, c.table))), r.2.errors)) =
      some ([[(some "a", some "t")], [(some "a", some "t")]], []) ∧
    (resolveOfCore 3 exampleDb (SelectResolver.new {} false false) (some selectLeak) coreNoFrom).map
        (fun r => (r.1.map (fun c => (c.column, c.table)), r.2.errors)) =
      some ([(some "a", none)], ["Could not resolve table for column 'a'."]) ∧
    (∀ (fuel : Nat) (db : Db) (this : SelectResolver) (select : SqliteSelect) (core : Core)
        (rest : List Core) (r : List (List Column) × SelectResolver),
      select.coreSelects = core :: rest → resolve fuel db this select = some r →
      ∃ r0, resolveOfCore fuel db this (some select) core = some r0 ∧ r.1.head? = some r0.1) ∧
    (resolve 3 exampleDb (SelectResolver.new {} false false) selectUnion).map (fun r => r.1) =
      some [((resolveOfCore 3 exampleDb (SelectResolver.new {} false false) (some selectUnion)
               (coreA "t")).getD ([], {})).1,
            ((resolveOfCore 3 exampleDb (SelectResolver.new {} false false) (some selectUnion)
               (coreA "u")).getD ([], {})).1] := by
  refine ⟨rfl, rfl, ?_, rfl⟩
  intro fuel db this select core rest r hsel hr
  unfold resolve at hr
  rw [hsel, resolveCores] at hr
  unfold resolveOfCore extractCteOfCore
  dsimp only
  cases hc : resolveCore fuel db (extractCte { this with errors := [] } select) (some select) core with
  | none => simp [hc] at hr
  | some a =>
    obtain ⟨columns, this1⟩ := a
    simp only [hc] at hr
    cases hrest : resolveCores fuel db select { this1 with currentCoreResults := [] } rest with
    | none => simp [hrest] at hr
    | some b =>
      simp only [hrest, Option.some.injEq] at hr
      refine ⟨(columns, this1), rfl, ?_⟩
      rw [← hr]
      rfl

/-! ## The identifier path and the star path -/

/-- C27: for the source `(SELECT a FROM t AS x) AS s` the available column `a` has the old
table alias `x`; selected through `s.*` the result keeps it, selected by name as `s.a` the
result has no old table alias.  In general the identifier path gives a result with the
database, table, table alias and flags of a matched source that has a table and with no old
table alias at all, and the star path gives all six fields of the source. -/
theorem identifier_drops_oldTableAliases :
    (resolveAvailableColumnsOfCore 7 exampleDb (SelectResolver.new {} false false) none
        coreSubAliased).map
        (fun r => r.1.map (fun c => (c.database, c.table, c.tableAlias, c.oldTableAliases, c.flags))) =
      some [(none, some "t", some "s", [some "x"], 0)] ∧
    (resolveOfCore 8 exampleDb (SelectResolver.new {} false false) none coreSubAliased).map
        (fun r => r.1.map (fun c => (c.database, c.table, c.tableAlias, c.oldTableAliases, c.flags))) =
      some [(none, some "t", some "s", [], 0)] ∧
    (resolveOfCore 8 exampleDb (SelectResolver.new {} false false) none coreSubAliasedStar).map
        (fun r => r.1.map (fun c => (c.database, c.table, c.tableAlias, c.oldTableAliases, c.flags))) =
      some [(none, some "t", some "s", [some "x"], 0)] ∧
    (∀ (this : SelectResolver) (resCol : ResultColumn) (s : Column),
      resCol.star = false → resCol.expr.mode = ExprMode.ID →
      this.currentCoreSourceColumns.find? (identifierMatches resCol.expr) = some s →
      QString.isNull s.table = false →
      ∃ col : Column,
        (resolveResultColumn this resCol).currentCoreResults = this.currentCoreResults ++ [col] ∧
        col.database = s.database ∧ col.table = s.table ∧ col.tableAlias = s.tableAlias ∧
        col.flags = s.flags ∧ col.oldTableAliases = []) ∧
    (∀ (this : SelectResolver) (resCol : ResultColumn),
      (resolveStar this resCol).currentCoreResults =
        this.currentCoreResults ++
          (this.currentCoreSourceColumns.filter (starMatches resCol)).map (starResult resCol)) ∧
    (∀ (resCol : ResultColumn) (s : Column), (starResult resCol s).toTable = s.toTable) := by
  refine ⟨rfl, rfl, rfl, ?_, resolveStar_results, fun _ _ => rfl⟩
  intro this resCol s hstar hid hfind ht
  rw [resolveResultColumn_identifier this resCol hstar hid,
    resolveDbAndTable_matched this resCol s hfind ht]
  exact ⟨_, rfl, rfl, rfl, rfl, rfl, rfl⟩

/-! ## Token translation -/

theorem resolveAvailableColumnsOfCore_fuel_mono (db : Db) (f g : Nat) (hfg : f ≤ g)
    (this : SelectResolver) (parent : Option SqliteSelect) (core : Core)
    (r : List Column × SelectResolver)
    (h : resolveAvailableColumnsOfCore f db this parent core = some r) :
    resolveAvailableColumnsOfCore g db this parent core = some r := by
  unfold resolveAvailableColumnsOfCore resolveAvailableCoreColumns at h ⊢
  cases hfrom : core.from_ with
  | none => simpa [hfrom] using h
  | some js =>
    simp only [hfrom] at h ⊢
    exact (fuel_mono db f g hfg).2.1 _ _ _ h

theorem resolveAvailableColumnsOfCore_terminates (db : Db) (hv : ∀ d n, isView db d n = false)
    (core : Core) :
    ∃ fuel, ∀ this parent, ∃ r, resolveAvailableColumnsOfCore fuel db this parent core = some r := by
  cases hfrom : core.from_ with
  | none =>
    refine ⟨0, fun this parent => ⟨([], extractCteOfCore { this with errors := [] } parent), ?_⟩⟩
    unfold resolveAvailableColumnsOfCore resolveAvailableCoreColumns
    simp only [hfrom]
  | some js =>
    obtain ⟨fuel, hf⟩ := (terminates db hv (sizeOf js)).2.1 js (le_refl _)
    refine ⟨fuel, fun this parent => ?_⟩
    obtain ⟨r, hr⟩ := hf (extractCteOfCore { this with errors := [] } parent)
    refine ⟨r, ?_⟩
    unfold resolveAvailableColumnsOfCore resolveAvailableCoreColumns
    simp only [hfrom]
    exact hr

theorem availableLists_fuel_mono (db : Db) (f g : Nat) (hfg : f ≤ g)
    (chain : List SqliteStatement) : ∀ this lists, availableLists f db this chain = some lists →
      availableLists g db this chain = some lists := by
  induction chain with
  | nil => intro this lists h; exact h
  | cons stmt rest ih =>
    intro this lists h
    cases stmt with
    | other => exact ih this lists h
    | core c parent =>
      rw [availableLists] at h ⊢
      cases hc : resolveAvailableColumnsOfCore f db this parent c with
      | none => simp [hc] at h
      | some a =>
        obtain ⟨columns, this1⟩ := a
        simp only [hc] at h
        rw [resolveAvailableColumnsOfCore_fuel_mono db f g hfg _ _ _ _ hc]
        dsimp only
        cases hr : availableLists f db this1 rest with
        | none => simp [hr] at h
        | some b =>
          rw [ih _ _ hr]
          simpa [hr] using h

theorem availableLists_terminates (db : Db) (hv : ∀ d n, isView db d n = false)
    (chain : List SqliteStatement) :
    ∃ fuel, ∀ this, ∃ lists, availableLists fuel db this chain = some lists := by
  induction chain with
  | nil => exact ⟨0, fun this => ⟨_, rfl⟩⟩
  | cons stmt rest ih =>
    obtain ⟨f2, h2⟩ := ih
    cases stmt with
    | other => exact ⟨f2, fun this => h2 this⟩
    | core c parent =>
      obtain ⟨f1, h1⟩ := resolveAvailableColumnsOfCore_terminates db hv c
      refine ⟨max f1 f2, fun this => ?_⟩
      obtain ⟨r1, hr1⟩ := h1 this parent
      obtain ⟨r2, hr2⟩ := h2 r1.2
      have e1 := resolveAvailableColumnsOfCore_fuel_mono db f1 (max f1 f2) (le_max_left _ _)
        _ _ _ _ hr1
      have e2 := availableLists_fuel_mono db f2 (max f1 f2) (le_max_right _ _) rest _ _ hr2
      rw [availableLists, e1]
      dsimp only
      rw [e2]
      exact ⟨_, rfl⟩

/-- The loop returns the first match of its test in the available columns of the cores of
the chain, taken from the inside out, and the default result when there is none. -/
theorem translateLoop_spec (fuel : Nat) (db : Db) (strippedColName : QString)
    (chain : List SqliteStatement) : ∀ this lists, availableLists fuel db this chain = some lists →
    ∃ r, translateLoop fuel db strippedColName this chain = some r ∧
      r.1 = (lists.flatten.find? (tokenMatches strippedColName)).getD
        (notTranslatedColumn strippedColName) := by
  induction chain with
  | nil =>
    intro this lists h
    simp only [availableLists, Option.some.injEq] at h
    subst h
    exact ⟨_, rfl, rfl⟩
  | cons stmt rest ih =>
    intro this lists h
    cases stmt with
    | other => exact ih this lists h
    | core c parent =>
      rw [availableLists] at h
      rw [translateLoop]
      cases hc : resolveAvailableColumnsOfCore fuel db this parent c with
      | none => simp [hc] at h
      | some a =>
        obtain ⟨columns, this1⟩ := a
        simp only [hc] at h ⊢
        cases hr : availableLists fuel db this1 rest with
        | none => simp [hr] at h
        | some lists1 =>
          simp only [hr, Option.some.injEq] at h
          subst h
          cases hfind : columns.find? (tokenMatches strippedColName) with
          | some col =>
            refine ⟨_, rfl, ?_⟩
            simp [List.find?_append, hfind]
          | none =>
            obtain ⟨r, hr1, hr2⟩ := ih this1 lists1 hr
            refine ⟨r, hr1, ?_⟩
            rw [hr2]
            simp [List.find?_append, hfind]

theorem cyclic_source_never (n : Nat) : ∀ this : SelectResolver,
    resolveSingleSource n cyclicDb this (some (plainSource "v" none)) = none := by
  induction n using Nat.strong_induction_on with
  | _ n ih =>
    intro this
    match n with
    | 0 => rfl
    | 1 => rfl
    | 2 => rfl
    | 3 => rfl
    | 4 => rfl
    | m + 5 =>
      have e0 : ∀ st, resolveSingleSource m cyclicDb st (some (plainSource "v" none)) = none :=
        ih m (by omega)
      have e1 : ∀ st, resolveJoinSource (m + 1) cyclicDb st
          (fromSources (plainSource "v" none) []) = none := by
        intro st
        rw [resolveJoinSource]
        simp only [fromSources, JoinSource.singleSource, e0]
      have e2 : ∀ st parent, resolveCore (m + 2) cyclicDb st parent (coreA "v") = none := by
        intro st parent
        rw [resolveCore]
        simp only [coreA, Core.from_, e1]
      have e3 : ∀ st, resolveSubSelect (m + 3) cyclicDb st (SqliteSelect.mk [coreA "v"] none) =
          none := by
        intro st
        rw [resolveSubSelect]
        simp [SqliteSelect.coreSelects, e2]
      have e4 : ∀ st, resolveView (m + 4) cyclicDb st none (some "v") none = none := by
        intro st
        have hp : cyclicDb.getParsedObject none (some "v") =
            ParsedObject.createView (SqliteSelect.mk [coreA "v"] none) := rfl
        rw [resolveView]
        simp only [hp, e3]
      rw [resolveSingleSource]
      have hview : isView cyclicDb (plainSource "v" none).database (plainSource "v" none).table =
          true := by decide
      simp only [plainSource, SingleSource.select, SingleSource.joinSource, SingleSource.funcName,
        SingleSource.database, SingleSource.table, SingleSource.alias_] at hview ⊢
      simp [QString.isNull, hview, e4]

theorem cyclic_join_never (fuel : Nat) (st : SelectResolver) :
    resolveJoinSource fuel cyclicDb st (fromSources (plainSource "v" none) []) = none := by
  cases fuel with
  | zero => rfl
  | succ f =>
    rw [resolveJoinSource]
    simp only [fromSources, JoinSource.singleSource, cyclic_source_never f st]

theorem translateLoop_fuel_mono (db : Db) (f g : Nat) (hfg : f ≤ g) (strippedColName : QString)
    (chain : List SqliteStatement) : ∀ this r,
    translateLoop f db strippedColName this chain = some r →
    translateLoop g db strippedColName this chain = some r := by
  induction chain with
  | nil => intro this r h; exact h
  | cons stmt rest ih =>
    intro this r h
    cases stmt with
    | other => exact ih this r h
    | core c parent =>
      rw [translateLoop] at h ⊢
      cases hc : resolveAvailableColumnsOfCore f db this parent c with
      | none => simp [hc] at h
      | some a =>
        obtain ⟨columns, this1⟩ := a
        simp only [hc] at h
        rw [resolveAvailableColumnsOfCore_fuel_mono db f g hfg _ _ _ _ hc]
        dsimp only
        cases hfind : columns.find? (tokenMatches strippedColName) with
        | some col => simpa [hfind] using h
        | none =>
          simp only [hfind] at h ⊢
          exact ih this1 r h

/-- Claim C26 fails as stated, in two ways.  In `SELECT value FROM json_each(x) AS j` the one
available column is the column `value` of the function, of kind `OTHER` and with table alias
`j`; it is the first available column with the name of the token `value`, and the translator
returns the default result, without table alias, in its place.  And with a view `v` created as
`SELECT a FROM v` the translator does not return for the token `a` of `SELECT a FROM v`,
whatever the fuel, because the resolution of the view does not. -/
theorem translate_kind_counterexample :
    availableLists 3 functionDb (SelectResolver.new {} false false) chainFunction =
      some [[{ type := ColumnType.OTHER, column := some "value", tableAlias := some "j" }]] ∧
    firstNamed (stripObjName (tok "value").value)
        [[{ type := ColumnType.OTHER, column := some "value", tableAlias := some "j" }]] =
      some { type := ColumnType.OTHER, column := some "value", tableAlias := some "j" } ∧
    (translateTokenToColumn 3 functionDb (SelectResolver.new {} false false) (tok "value")
        chainFunction).map (fun r => r.1) =
      some { type := ColumnType.OTHER, column := some "value" } ∧
    (∀ (fuel : Nat) (this : SelectResolver),
      translateTokenToColumn fuel cyclicDb this (tok "a") chainCyclic = none) := by
  refine ⟨rfl, by decide, rfl, ?_⟩
  intro fuel this
  unfold translateTokenToColumn chainCyclic
  rw [translateLoop, translateLoop]
  have h : resolveAvailableColumnsOfCore fuel cyclicDb this
      (some (SqliteSelect.mk [coreA "v"] none)) (coreA "v") = none := by
    unfold resolveAvailableColumnsOfCore resolveAvailableCoreColumns
    simp only [coreA, Core.from_]
    exact cyclic_join_never fuel _
  rw [h]

/-- Claim C26, amended: for every catalog, token and chain of statements,
`translateTokenToColumn` returns whenever the available columns of the cores of the chain
resolve, and what it returns is the first available column of kind `COLUMN` whose name is the
stripped text of the token, without regard to case, the cores of the chain being searched
from the inside out; when no core has such a column it returns the default result, of kind
`OTHER` and with the stripped text as column.  The available columns resolve, given enough
fuel, for every catalog without views, and more fuel does not change what is returned. -/
theorem translateTokenToColumn_spec (db : Db) (token : Token) (chain : List SqliteStatement) :
    (∀ (fuel : Nat) (this : SelectResolver) (lists : List (List Column)),
      availableLists fuel db this chain = some lists →
      ∃ r, translateTokenToColumn fuel db this token chain = some r ∧
        r.1 = (lists.flatten.find? (fun c => decide (c.type = ColumnType.COLUMN) &&
                QString.compareCI c.column (stripObjName token.value))).getD
              { type := ColumnType.OTHER, column := stripObjName token.value }) ∧
    ((∀ d n, isView db d n = false) →
      ∃ fuel, ∀ this : SelectResolver, ∃ lists, availableLists fuel db this chain = some lists) ∧
    (∀ (f g : Nat) (this : SelectResolver) (r : Column × SelectResolver), f ≤ g →
      translateTokenToColumn f db this token chain = some r →
      translateTokenToColumn g db this token chain = some r) := by
  refine ⟨?_, fun hv => availableLists_terminates db hv chain, ?_⟩
  · intro fuel this lists hl
    exact translateLoop_spec fuel db (stripObjName token.value) chain this lists hl
  · intro f g this r hfg h
    exact translateLoop_fuel_mono db f g hfg _ chain this r h

theorem translateTokenToColumn_spec_witness :
    (∀ d n, isView exampleDb d n = false) ∧
    (translateTokenToColumn 3 exampleDb (SelectResolver.new {} false false) (tok "b")
        chainNested).map (fun r => (r.1.type, r.1.table, r.1.column)) =
      some (ColumnType.COLUMN, some "t", some "b") ∧
    (translateTokenToColumn 3 exampleDb (SelectResolver.new {} false false) (tok "zz")
        chainNested).map (fun r => (r.1.type, r.1.table, r.1.column)) =
      some (ColumnType.OTHER, none, some "zz") ∧
    (translateTokenToColumn 8 viewDb (SelectResolver.new {} false false) (tok "a")
        chainView).map (fun r => (r.1.type, r.1.table, r.1.tableAlias, r.1.column)) =
      some (ColumnType.COLUMN, some "t", some "w", some "a") ∧
    (∃ fuel, ∀ this : SelectResolver, ∃ lists,
      availableLists fuel exampleDb this chainNested = some lists) ∧
    (∀ lists : List (List Column),
      availableLists 8 viewDb (SelectResolver.new {} false false) chainView = some lists →
      ∃ r, translateTokenToColumn 8 viewDb (SelectResolver.new {} false false) (tok "a")
          chainView = some r ∧
        r.1 = (lists.flatten.find? (fun c => decide (c.type = ColumnType.COLUMN) &&
                QString.compareCI c.column (stripObjName (tok "a").value))).getD
              { type := ColumnType.OTHER, column := stripObjName (tok "a").value }) :=
  ⟨fun _ _ => rfl, rfl, rfl, rfl,
    (translateTokenToColumn_spec exampleDb (tok "b") chainNested).2.1 (fun _ _ => rfl),
    (translateTokenToColumn_spec viewDb (tok "a") chainView).1 8 (SelectResolver.new {} false false)⟩

end SQLiteStudio
